import Mathlib

/-!
The `ego` bounded-concurrency task dispatcher (`src/ego.go`)

The dispatcher is embedded as a small-step state machine.  Every statement of
`Runf`, `Run`, `Close`, `runJob` and `loopQueue` that touches shared state is one
step of the thread that executes it; a schedule (a list of `Action`s) picks the
thread that moves next, so every interleaving of the Go program is a schedule.
A test of a local variable is taken together with the shared statement that
follows it.  The machine records the calls it makes in a chronological trace.

* Integers.  `count` and `size` are `int64` in the source.  They are `Int` here
  and the two writes to `count` go through `wrap64`.
* WaitGroup.  `wg` is the counter of the `sync.WaitGroup`, a 32-bit integer:
  `Add` and `Done` write it through `wrap32` and panic when the result is
  negative.  `Wait` returns at once when the counter is zero and otherwise blocks
  until a `Done` brings the counter to zero, which releases every blocked call.
* Queue.  `JobQueue` is an interface.  The modelled store is a list of pending
  jobs and a closed flag; `DeQueue` may hand out any pending job, and, since the
  loop takes whatever an implementation returns, also a job that is not in the
  store, with any acknowledge callback or none, and `ok = false` at any time.
  `EnQueue` always accepts.
* Jobs.  A callable is a function that returns or panics; a goroutine that never
  gets to move models a callable that never returns.
* Guard.  A recovery guard returns, panics or never returns.
* Panics.  A panic that is still active when the deferred closure of `runJob`
  has returned, or that is raised inside it, reaches the top of its goroutine,
  and the Go runtime then ends the process: no thread takes a further step.
-/

set_option linter.unusedTactic false
set_option linter.unreachableTactic false
set_option linter.unusedVariables false
set_option linter.unnecessarySeqFocus false

namespace EgoPool

/-! ## Data model -/

/-- The constant `DEFAULT_EGO_SIZE` (line 10). -/
def DEFAULT_EGO_SIZE : Int := 1000

/-- Two's-complement wrap-around of an `int64` result. -/
def wrap64 (x : Int) : Int := (x + 2 ^ 63) % 2 ^ 64 - 2 ^ 63

/-- Two's-complement wrap-around of an `int32` result: the counter of a
`sync.WaitGroup` is the high 32 bits of its state word. -/
def wrap32 (x : Int) : Int := (x + 2 ^ 31) % 2 ^ 32 - 2 ^ 31

/-- A `context.Context` value; the dispatcher only passes it on. -/
abbrev Context := Nat

/-- A value of type `any`; the dispatcher only passes it on. -/
abbrev Any := Nat

/-- How a call of a job's callable ends: it returns, or it panics. -/
inductive Outcome
  | returned
  | panicked
deriving DecidableEq, Repr

/-- The type `FuncArgs` (line 21): `func(ctx context.Context, args ...any)`. -/
abbrev FuncArgs := Context → List Any → Outcome

/-- The type `Func` (line 23): `func(ctx context.Context)`. -/
abbrev Func := Context → Outcome

/-- Modelled from the spec: the struct `Job` is declared outside `src/`; it is
"{ execution context, callable(context, variadic arguments), arguments }", and
`runJob` reads exactly the fields `f`, `ctx` and `args` (line 96). -/
structure Job where
  ctx : Context
  f : FuncArgs
  args : List Any

/-- Modelled from the spec: the constructor `NewJob` is declared outside `src/`;
"Construct the Job value" from the context, the callable and the arguments. -/
def NewJob (ctx : Context) (task : FuncArgs) (args : List Any) : Job :=
  { ctx := ctx, f := task, args := args }

/-- An acknowledge callback `ack func()` returned by `DeQueue`, named by a token. -/
abbrev Ack := Nat

/-- Modelled from the spec: the implementations of the interface `JobQueue`
(lines 14-19) are outside `src/`.  The queue state is "an ordered sequence of
pending Jobs plus an open/closed flag". -/
structure JobQueue where
  items : List Job
  closed : Bool

/-- Modelled from the spec: `newJobChan` is declared outside `src/`; the default
queue starts empty and open. -/
def newJobChan : JobQueue := { items := [], closed := false }

/-- The call `EnQueue(job)`: the job becomes the last pending job. -/
def JobQueue.EnQueue (q : JobQueue) (job : Job) : JobQueue :=
  { q with items := q.items ++ [job] }

/-- The call `DeQueue()` with result `ok = true`: the queue hands out its pending
job number `k` (`k = 0` for a first-in first-out queue).  With no such job the
call has no result yet (it blocks). -/
def JobQueue.DeQueue (q : JobQueue) (k : Nat) : Option (Job × JobQueue) :=
  match q.items[k]? with
  | some job => some (job, { q with items := q.items.eraseIdx k })
  | none => none

/-- The call `Close()`. -/
def JobQueue.Close (q : JobQueue) : JobQueue := { q with closed := true }

/-- The call `Len()`. -/
def JobQueue.Len (q : JobQueue) : Int := q.items.length

/-- The builtin `recover()` of Go, as the flag "still panicking afterwards".  It
ends a panic only when the deferred function itself calls it (`direct`); in a
function that the deferred function calls it returns nil and the panic goes on. -/
def recover (direct panicking : Bool) : Bool := panicking && !direct

/-- How a call of a recovery guard ends: it returns, it panics, or it never
returns. -/
inductive GuardOutcome
  | returns
  | panics
  | hangs
deriving DecidableEq, Repr

/-- A recovery guard, a Go `func()`.  Towards the dispatcher what matters is
whether its body calls `recover()` and how a call of it ends. -/
structure RecoverFunc where
  callsRecover : Bool
  outcome : GuardOutcome
deriving DecidableEq, Repr

/-- Modelled from the spec: `defaultRecover` is declared outside `src/`; "the
default recovery guard swallows the failure silently", which in Go is a call of
`recover()` that returns. -/
def defaultRecover : RecoverFunc :=
  { callsRecover := true, outcome := GuardOutcome.returns }

/-- The call `e.recoverFunc()` of line 92 when the guard returns, as the flag
"still panicking afterwards".  The guard is called by the deferred closure, so a `recover()` in its
body is not a direct call of the deferred function. -/
def RecoverFunc.call (r : RecoverFunc) (panicking : Bool) : Bool :=
  if r.callsRecover then recover false panicking else panicking

/-- The struct `Ego` (lines 25-35) as the options see it: pointer-like fields may
be nil, integers start at zero. -/
structure Ego where
  wg : Int := 0
  recoverFunc : Option RecoverFunc := none
  jobs : Option JobQueue := none
  count : Int := 0
  size : Int := 0

/-- The type `OptionFunc`, declared outside `src/`: `New` applies each option to
the dispatcher under construction (`o(eg)`, line 40). -/
abbrev OptionFunc := Ego → Ego

/-- Lines 38-41 of `New`: the options applied in order to the zero value. -/
def applyOptions (opt : List OptionFunc) : Ego :=
  opt.foldl (fun eg o => o eg) {}

/-! ## Control state -/

/-- Program counter of one call of `Runf` (lines 56-71). -/
inductive RunfPc
  /-- At line 60, `wg.Add(1)` and `NewJob` done. -/
  | atLoad (job : Job)
  /-- At line 61, with the local variable `count`. -/
  | atCheck (job : Job) (count : Int)
  /-- At line 67, the compare-and-swap succeeded. -/
  | atRunJob (job : Job)
  /-- The call is over. -/
  | returned
  /-- The call ended at line 57 with the panic of `wg.Add(1)`. -/
  | panicked

/-- Program counter of `loopQueue` (lines 100-124). -/
inductive LoopPc
  /-- At line 103. -/
  | atDeQueue
  /-- At line 109. -/
  | atLoad (job : Job) (ack : Option Ack)
  /-- At line 110, with the local variable `state`. -/
  | atCheck (job : Job) (ack : Option Ack) (state : Int)
  /-- At line 115, the compare-and-swap succeeded. -/
  | atRunJob (job : Job) (ack : Option Ack)
  /-- At line 120. -/
  | atAck (job : Job) (ack : Option Ack)
  /-- After the `return` of line 105. -/
  | returned

/-- Program counter of a goroutine started by `runJob` (lines 89-97). -/
inductive GoPc
  /-- At line 96, the callable is running. -/
  | atCall (job : Job)
  /-- At line 92, in the deferred closure. -/
  | atRecover (panicking : Bool)
  /-- At line 93. -/
  | atDone (panicking : Bool)
  /-- At line 94. -/
  | atAdd (panicking : Bool)
  /-- At line 95, the deferred closure returns. -/
  | atExit (panicking : Bool)
  /-- The goroutine is over. -/
  | exited
  /-- Inside the call of line 92: the guard panicked or does not return. -/
  | inGuard

/-- Who runs a statement shared by `Runf` and `loopQueue`. -/
inductive Who
  | runf (i : Nat)
  | loop
deriving DecidableEq, Repr

/-- The calls and writes the dispatcher makes, as recorded in the trace. -/
inductive Event
  /-- Line 57. -/
  | wgAdd (job : Job)
  /-- Line 57 left the counter negative and panicked. -/
  | wgNegative
  /-- Line 62. -/
  | enQueue (job : Job)
  /-- Lines 66 and 114, a successful swap from `old` to `old + 1`. -/
  | cas (w : Who) (old : Int)
  /-- Lines 67 and 115. -/
  | runJob (w : Who) (job : Job)
  /-- Line 103 with `ok = true`. -/
  | deQueue (job : Job) (ack : Option Ack)
  /-- Line 103 with `ok = false`. -/
  | deQueueClosed
  /-- Line 121. -/
  | ack (a : Ack)
  /-- Line 92, in goroutine `g`. -/
  | recoverFunc (g : Nat)
  /-- Line 93, in goroutine `g`. -/
  | wgDone (g : Nat)
  /-- Line 94, in goroutine `g`. -/
  | countAdd (g : Nat)
  /-- A panic reached the top of goroutine `g`: the Go runtime ends the process. -/
  | crash (g : Nat)
  /-- Line 84. -/
  | close
  /-- Line 85 returns. -/
  | waitReturn

/-- The dispatcher with its threads: the fields of `Ego` after `New`, the program
counters, and the trace. -/
structure State where
  wg : Int
  recoverFunc : RecoverFunc
  jobs : JobQueue
  count : Int
  size : Int
  /-- The calls of `Runf`, in the order in which they were entered. -/
  runfs : List RunfPc
  loop : LoopPc
  /-- The goroutines started by `runJob`, in the order in which they were started. -/
  gos : List GoPc
  /-- Calls of `Close` that have executed line 84 and not yet called `wg.Wait()`. -/
  closers : Nat
  /-- Calls of `Close` blocked in `wg.Wait()`. -/
  waiters : Nat
  /-- Calls of `Close` released from `wg.Wait()` that have not yet returned. -/
  released : Nat
  /-- The process was ended by an unrecovered panic. -/
  crashed : Bool
  trace : List Event

/-- The function `New` (lines 37-53); `go eg.loopQueue()` leaves the loop at its
first statement. -/
def New (opt : List OptionFunc) : State :=
  let eg := applyOptions opt
  { wg := eg.wg
    recoverFunc := match eg.recoverFunc with
      | none => defaultRecover
      | some r => r
    jobs := match eg.jobs with
      | none => newJobChan
      | some q => q
    count := eg.count
    size := if eg.size = 0 then DEFAULT_EGO_SIZE else eg.size
    runfs := []
    loop := LoopPc.atDeQueue
    gos := []
    closers := 0
    waiters := 0
    released := 0
    crashed := false
    trace := [] }

/-- An option that sets the capacity, as a caller would write it. -/
def withSize (n : Int) : OptionFunc := fun eg => { eg with size := n }

/-- A freshly constructed dispatcher with capacity `N`. -/
def fresh (N : Int) : State := New [withSize N]

/-- What the scheduler and the collaborators decide at each step. -/
inductive Action
  /-- A caller enters `Runf` and executes lines 57-58. -/
  | Runf (ctx : Context) (task : FuncArgs) (args : List Any)
  /-- A caller enters `Run` (lines 74-78). -/
  | Run (ctx : Context) (task : Func)
  /-- The next statement of the call of `Runf` number `i`. -/
  | runf (i : Nat)
  /-- The loop is at line 103 and `DeQueue` returns pending job `k`, `ack`, `true`. -/
  | deQueue (k : Nat) (ack : Option Ack)
  /-- The loop is at line 103 and `DeQueue` returns a job that is not in the
  modelled store, `ack`, `true`. -/
  | deQueueOther (job : Job) (ack : Option Ack)
  /-- The loop is at line 103 and `DeQueue` returns `ok = false`. -/
  | deQueueClosed
  /-- The next statement of `loopQueue` other than `DeQueue`. -/
  | loop
  /-- The next statement of goroutine `g`. -/
  | go (g : Nat)
  /-- A caller enters `Close` and executes line 84. -/
  | Close
  /-- A call of `Close` calls `wg.Wait()` (line 85). -/
  | wait
  /-- A call of `wg.Wait()` that was released returns. -/
  | waitReturn

/-- Lines 57-58 of `Runf`: `e.wg.Add(1)` and `job := NewJob(ctx, task, args...)`;
the call then stands at line 60.  `Add` panics, after it has written the counter,
when the counter has become negative. -/
def enterRunf (s : State) (ctx : Context) (task : FuncArgs) (args : List Any) : State :=
  if wrap32 (s.wg + 1) < 0 then
    { s with
      wg := wrap32 (s.wg + 1)
      runfs := s.runfs ++ [RunfPc.panicked]
      trace := s.trace ++ [Event.wgNegative] }
  else
    { s with
      wg := wrap32 (s.wg + 1)
      runfs := s.runfs ++ [RunfPc.atLoad (NewJob ctx task args)]
      trace := s.trace ++ [Event.wgAdd (NewJob ctx task args)] }

/-- The closure that `Run` passes to `Runf` (lines 75-77): it calls `task(ctx)`. -/
def runClosure (task : Func) : FuncArgs := fun ctx _ => task ctx

/-- The body of `Run` (lines 74-78): `e.Runf(ctx, closure)` with no arguments. -/
def enterRun (s : State) (ctx : Context) (task : Func) : State :=
  enterRunf s ctx (runClosure task) []

/-- The function `runJob` (lines 88-98) up to the `go` statement: a new goroutine
that stands at line 96. -/
def runJob (s : State) (w : Who) (job : Job) : State :=
  { s with
    gos := s.gos ++ [GoPc.atCall job]
    trace := s.trace ++ [Event.runJob w job] }

/-- One statement of the call of `Runf` number `i` (lines 59-70). -/
def stepRunf (s : State) (i : Nat) : Option State :=
  match s.runfs[i]? with
  | some (RunfPc.atLoad job) =>
      -- line 60: count := e.count.Load()
      some { s with runfs := s.runfs.set i (RunfPc.atCheck job s.count) }
  | some (RunfPc.atCheck job count) =>
      if count ≥ s.size then
        -- lines 61-63: e.jobs.EnQueue(job); return
        some { s with
          jobs := s.jobs.EnQueue job
          runfs := s.runfs.set i RunfPc.returned
          trace := s.trace ++ [Event.enQueue job] }
      else if s.count = count then
        -- line 66: e.count.CompareAndSwap(count, count+1) succeeds
        some { s with
          count := wrap64 (count + 1)
          runfs := s.runfs.set i (RunfPc.atRunJob job)
          trace := s.trace ++ [Event.cas (Who.runf i) count] }
      else
        -- line 66: the swap fails, next iteration of the for loop
        some { s with runfs := s.runfs.set i (RunfPc.atLoad job) }
  | some (RunfPc.atRunJob job) =>
      -- lines 67-68: e.runJob(job); break
      some { runJob s (Who.runf i) job with runfs := s.runfs.set i RunfPc.returned }
  | some RunfPc.returned => none
  | some RunfPc.panicked => none
  | none => none

/-- Line 103 of `loopQueue` when `DeQueue` returns a pending job of the store. -/
def stepDeQueue (s : State) (k : Nat) (ack : Option Ack) : Option State :=
  match s.loop with
  | LoopPc.atDeQueue =>
      match s.jobs.DeQueue k with
      | some (job, q) =>
          some { s with
            jobs := q
            loop := LoopPc.atLoad job ack
            trace := s.trace ++ [Event.deQueue job ack] }
      | none => none
  | _ => none

/-- Line 103 of `loopQueue` when `DeQueue` returns a job that is not in the
modelled store. -/
def stepDeQueueOther (s : State) (job : Job) (ack : Option Ack) : Option State :=
  match s.loop with
  | LoopPc.atDeQueue =>
      some { s with
        loop := LoopPc.atLoad job ack
        trace := s.trace ++ [Event.deQueue job ack] }
  | _ => none

/-- Lines 103-106 of `loopQueue` when `DeQueue` returns `ok = false`: the loop
returns, whether or not `Close` was called. -/
def stepDeQueueClosed (s : State) : Option State :=
  match s.loop with
  | LoopPc.atDeQueue =>
      some { s with loop := LoopPc.returned, trace := s.trace ++ [Event.deQueueClosed] }
  | _ => none

/-- One statement of `loopQueue` after `DeQueue` (lines 108-122). -/
def stepLoop (s : State) : Option State :=
  match s.loop with
  | LoopPc.atDeQueue => none
  | LoopPc.atLoad job ack =>
      -- line 109: state := e.count.Load()
      some { s with loop := LoopPc.atCheck job ack s.count }
  | LoopPc.atCheck job ack state =>
      if state ≥ s.size then
        -- lines 110-112: continue
        some { s with loop := LoopPc.atLoad job ack }
      else if s.count = state then
        -- line 114: e.count.CompareAndSwap(state, state+1) succeeds
        some { s with
          count := wrap64 (state + 1)
          loop := LoopPc.atRunJob job ack
          trace := s.trace ++ [Event.cas Who.loop state] }
      else
        -- line 114: the swap fails, next iteration of the inner for loop
        some { s with loop := LoopPc.atLoad job ack }
  | LoopPc.atRunJob job ack =>
      -- lines 115-116: e.runJob(job); break
      some { runJob s Who.loop job with loop := LoopPc.atAck job ack }
  | LoopPc.atAck _ ack =>
      -- lines 120-122: if ack != nil { ack() }
      match ack with
      | some a => some { s with loop := LoopPc.atDeQueue, trace := s.trace ++ [Event.ack a] }
      | none => some { s with loop := LoopPc.atDeQueue }
  | LoopPc.returned => none

/-- One statement of goroutine `g` (lines 89-97). -/
def stepGo (s : State) (g : Nat) : Option State :=
  match s.gos[g]? with
  | some (GoPc.atCall job) =>
      -- line 96: job.f(job.ctx, job.args...) returns or panics; the deferred closure starts
      some { s with
        gos := s.gos.set g (GoPc.atRecover (decide (job.f job.ctx job.args = Outcome.panicked))) }
  | some (GoPc.atRecover p) =>
      -- line 92: e.recoverFunc()
      match s.recoverFunc.outcome with
      | GuardOutcome.returns =>
          some { s with
            gos := s.gos.set g (GoPc.atDone (s.recoverFunc.call p))
            trace := s.trace ++ [Event.recoverFunc g] }
      | GuardOutcome.panics =>
          -- the panic of the guard leaves the deferred closure: the process ends
          some { s with
            gos := s.gos.set g GoPc.inGuard
            crashed := true
            trace := s.trace ++ [Event.recoverFunc g] }
      | GuardOutcome.hangs =>
          some { s with
            gos := s.gos.set g GoPc.inGuard
            trace := s.trace ++ [Event.recoverFunc g] }
  | some (GoPc.atDone p) =>
      -- line 93: e.wg.Done(), that is Add(-1)
      if wrap32 (s.wg - 1) < 0 then
        -- the counter has become negative: Done panics inside the deferred closure
        some { s with
          wg := wrap32 (s.wg - 1)
          gos := s.gos.set g (GoPc.atAdd p)
          crashed := true
          trace := s.trace ++ [Event.wgDone g] }
      else
        -- a counter that has become zero releases every blocked call of Wait
        some { s with
          wg := wrap32 (s.wg - 1)
          gos := s.gos.set g (GoPc.atAdd p)
          waiters := if wrap32 (s.wg - 1) = 0 then 0 else s.waiters
          released := if wrap32 (s.wg - 1) = 0 then s.released + s.waiters else s.released
          trace := s.trace ++ [Event.wgDone g] }
  | some (GoPc.atAdd p) =>
      -- line 94: e.count.Add(-1)
      some { s with
        count := wrap64 (s.count - 1)
        gos := s.gos.set g (GoPc.atExit p)
        trace := s.trace ++ [Event.countAdd g] }
  | some (GoPc.atExit p) =>
      -- line 95: the deferred closure returns; a panic that is still active ends the process
      if p then
        some { s with
          gos := s.gos.set g GoPc.exited
          crashed := true
          trace := s.trace ++ [Event.crash g] }
      else
        some { s with gos := s.gos.set g GoPc.exited }
  | some GoPc.exited => none
  | some GoPc.inGuard => none
  | none => none

/-- Line 84 of `Close`: `e.jobs.Close()`; the call then stands at line 85. -/
def stepClose (s : State) : State :=
  { s with
    jobs := s.jobs.Close
    closers := s.closers + 1
    trace := s.trace ++ [Event.close] }

/-- Line 85 of `Close`: a call of `e.wg.Wait()`.  It returns at once when the
counter is zero, and blocks otherwise. -/
def stepWait (s : State) : Option State :=
  if 0 < s.closers then
    if s.wg = 0 then
      some { s with closers := s.closers - 1, trace := s.trace ++ [Event.waitReturn] }
    else
      some { s with closers := s.closers - 1, waiters := s.waiters + 1 }
  else none

/-- Line 85 of `Close`: a call of `e.wg.Wait()` that a `Done` has released
returns. -/
def stepWaitReturn (s : State) : Option State :=
  if 0 < s.released then
    some { s with released := s.released - 1, trace := s.trace ++ [Event.waitReturn] }
  else none

/-- One step of the program.  `none`: the action is not enabled (the thread does
not exist, is over or is blocked, or the process has ended). -/
def step (s : State) (a : Action) : Option State :=
  if s.crashed then none else
  match a with
  | Action.Runf ctx task args => some (enterRunf s ctx task args)
  | Action.Run ctx task => some (enterRun s ctx task)
  | Action.runf i => stepRunf s i
  | Action.deQueue k ack => stepDeQueue s k ack
  | Action.deQueueOther job ack => stepDeQueueOther s job ack
  | Action.deQueueClosed => stepDeQueueClosed s
  | Action.loop => stepLoop s
  | Action.go g => stepGo s g
  | Action.Close => some (stepClose s)
  | Action.wait => stepWait s
  | Action.waitReturn => stepWaitReturn s

/-- A run of the program under a schedule. -/
def exec (s : State) : List Action → Option State
  | [] => some s
  | a :: rest =>
      match step s a with
      | some s1 => exec s1 rest
      | none => none

/-! ## Ghost measures used in the statements -/

/-- A call of `Runf` that has raised `count` and has not yet started its job. -/
def RunfPc.holdsSlot : RunfPc → Nat
  | RunfPc.atRunJob _ => 1
  | _ => 0

/-- The loop has raised `count` and has not yet started its job. -/
def LoopPc.holdsSlot : LoopPc → Nat
  | LoopPc.atRunJob _ _ => 1
  | _ => 0

/-- A started job whose handler has not yet executed `e.count.Add(-1)`. -/
def GoPc.holdsSlot : GoPc → Nat
  | GoPc.atCall _ => 1
  | GoPc.atRecover _ => 1
  | GoPc.inGuard => 1
  | GoPc.atDone _ => 1
  | GoPc.atAdd _ => 1
  | _ => 0

/-- Number of jobs for which `count` was raised and not yet lowered. -/
def slotsHeld (s : State) : Nat :=
  (s.runfs.map RunfPc.holdsSlot).sum + s.loop.holdsSlot + (s.gos.map GoPc.holdsSlot).sum

/-- A submitted job that `Runf` has neither enqueued nor started yet. -/
def RunfPc.unplaced : RunfPc → Nat
  | RunfPc.returned => 0
  | RunfPc.panicked => 0
  | _ => 1

/-- A dequeued job that the loop has not yet handed to `runJob`. -/
def LoopPc.holdsJob : LoopPc → Nat
  | LoopPc.atLoad _ _ => 1
  | LoopPc.atCheck _ _ _ => 1
  | LoopPc.atRunJob _ _ => 1
  | _ => 0

/-- A started job whose handler has not yet executed `e.wg.Done()`. -/
def GoPc.unfinished : GoPc → Nat
  | GoPc.atCall _ => 1
  | GoPc.atRecover _ => 1
  | GoPc.inGuard => 1
  | GoPc.atDone _ => 1
  | _ => 0

/-- Number of accepted jobs that have not completed: submitted and not yet placed,
queued, held by the dispatch loop, or running. -/
def unfinishedJobs (s : State) : Nat :=
  (s.runfs.map RunfPc.unplaced).sum + s.jobs.items.length + s.loop.holdsJob
    + (s.gos.map GoPc.unfinished).sum

/-- Number of successful compare-and-swaps in a trace. -/
def casCount : List Event → Nat
  | [] => 0
  | Event.cas _ _ :: tr => casCount tr + 1
  | _ :: tr => casCount tr

/-- Number of `e.count.Add(-1)` in a trace. -/
def addCount : List Event → Nat
  | [] => 0
  | Event.countAdd _ :: tr => addCount tr + 1
  | _ :: tr => addCount tr

/-- The values from which the successful compare-and-swaps of a trace started. -/
def casOlds : List Event → List Int
  | [] => []
  | Event.cas _ old :: tr => old :: casOlds tr
  | _ :: tr => casOlds tr

/-- A goroutine whose handler has executed `e.count.Add(-1)`. -/
def GoPc.released : GoPc → Nat
  | GoPc.atExit _ => 1
  | GoPc.exited => 1
  | _ => 0

/-- The job of a `DeQueue` result with `ok = true`. -/
def Event.dequeuedJob : Event → Option Job
  | Event.deQueue job _ => some job
  | _ => none

/-- The job that `loopQueue` hands to `runJob`. -/
def Event.loopStartedJob : Event → Option Job
  | Event.runJob Who.loop job => some job
  | _ => none

/-- The job that a call of `Runf` hands to `runJob`. -/
def Event.runfStartedJob : Event → Option Job
  | Event.runJob (Who.runf _) job => some job
  | _ => none

/-- The job that a call of `Runf` passes to `EnQueue`. -/
def Event.enqueuedJob : Event → Option Job
  | Event.enQueue job => some job
  | _ => none

/-- The jobs that `DeQueue` returned, in order. -/
def dequeuedJobs (tr : List Event) : List Job := tr.filterMap Event.dequeuedJob

/-- The jobs that `loopQueue` handed to `runJob`, in order. -/
def loopStarted (tr : List Event) : List Job := tr.filterMap Event.loopStartedJob

/-- The jobs that calls of `Runf` handed to `runJob`, in order. -/
def runfStarted (tr : List Event) : List Job := tr.filterMap Event.runfStartedJob

/-- The jobs that calls of `Runf` passed to `EnQueue`, in order. -/
def enqueuedJobs (tr : List Event) : List Job := tr.filterMap Event.enqueuedJob

/-- An event of `loopQueue`. -/
def Event.byLoop : Event → Bool
  | Event.deQueue _ _ => true
  | Event.deQueueClosed => true
  | Event.cas Who.loop _ => true
  | Event.runJob Who.loop _ => true
  | Event.ack _ => true
  | _ => false

/-- The events of `loopQueue`, in order. -/
def loopTrace (tr : List Event) : List Event := tr.filter Event.byLoop

/-- A `DeQueue` result with `ok = false`. -/
def Event.isClosed : Event → Bool
  | Event.deQueueClosed => true
  | _ => false

/-- `DeQueue` has returned `ok = false`. -/
def closedSeen (tr : List Event) : Bool := tr.any Event.isClosed

/-- The job the loop has dequeued and not yet handed to `runJob`. -/
def LoopPc.heldJob : LoopPc → List Job
  | LoopPc.atLoad job _ => [job]
  | LoopPc.atCheck job _ _ => [job]
  | LoopPc.atRunJob job _ => [job]
  | _ => []

/-- One complete iteration of the outer loop of `loopQueue`. -/
structure LoopIter where
  job : Job
  ack : Option Ack
  old : Int

/-- Lines 120-122: the callback is invoked when it is not nil. -/
def ackEvents : Option Ack → List Event
  | some a => [Event.ack a]
  | none => []

/-- What a complete iteration does, in order: dequeue the job, raise `count`,
hand the job to `runJob`, and then invoke the callback when it is not nil. -/
def LoopIter.events (it : LoopIter) : List Event :=
  [Event.deQueue it.job it.ack, Event.cas Who.loop it.old, Event.runJob Who.loop it.job]
    ++ ackEvents it.ack

/-- What the iteration in progress has done so far (`v`: the value from which it
raised `count`, once it has). -/
def LoopPc.events (v : Int) : LoopPc → List Event
  | LoopPc.atDeQueue => []
  | LoopPc.atLoad job ack => [Event.deQueue job ack]
  | LoopPc.atCheck job ack _ => [Event.deQueue job ack]
  | LoopPc.atRunJob job ack => [Event.deQueue job ack, Event.cas Who.loop v]
  | LoopPc.atAck job ack =>
      [Event.deQueue job ack, Event.cas Who.loop v, Event.runJob Who.loop job]
  | LoopPc.returned => [Event.deQueueClosed]

/-- An event of the completion handler of goroutine `g` (lines 92-94). -/
def Event.inHandler (g : Nat) : Event → Bool
  | Event.recoverFunc g1 => g1 == g
  | Event.wgDone g1 => g1 == g
  | Event.countAdd g1 => g1 == g
  | _ => false

/-- The events of the completion handler of goroutine `g`, in order. -/
def handlerTrace (g : Nat) (tr : List Event) : List Event := tr.filter (Event.inHandler g)

/-- The three effects of the completion handler of goroutine `g`, in source order. -/
def handlerEvents (g : Nat) : List Event :=
  [Event.recoverFunc g, Event.wgDone g, Event.countAdd g]

/-- How many statements of its handler a goroutine has executed. -/
def GoPc.handlerSteps : GoPc → Nat
  | GoPc.atCall _ => 0
  | GoPc.atRecover _ => 0
  | GoPc.inGuard => 1
  | GoPc.atDone _ => 1
  | GoPc.atAdd _ => 2
  | GoPc.atExit _ => 3
  | GoPc.exited => 3

/-- The program counter of goroutine `g`, when it has been started. -/
def handlerStepsOf (s : State) (g : Nat) : Nat :=
  match s.gos[g]? with
  | some pc => pc.handlerSteps
  | none => 0

/-- Number of calls of `runJob` in a trace. -/
def runJobCount : List Event → Nat
  | [] => 0
  | Event.runJob _ _ :: tr => runJobCount tr + 1
  | _ :: tr => runJobCount tr

/-- The statement `e.count.Add(-1)` of goroutine `g`. -/
def Event.isCountAdd (g : Nat) : Event → Bool
  | Event.countAdd g1 => g1 == g
  | _ => false

/-- How often goroutine `g` has lowered `count`. -/
def addsOf (g : Nat) (tr : List Event) : Nat := (tr.filter (Event.isCountAdd g)).length

/-- The schedule used to instantiate the reachability theorems: capacity 2, three
submissions (the third is enqueued), a completion, the dispatch of the queued job
with an acknowledge callback, then `Close` and the return of the loop. -/
def demoSchedule : List Action :=
  [ Action.Runf 1 (fun _ _ => Outcome.returned) [7],
    Action.runf 0, Action.runf 0, Action.runf 0,
    Action.Run 2 (fun _ => Outcome.returned),
    Action.runf 1, Action.runf 1, Action.runf 1,
    Action.Runf 3 (fun _ _ => Outcome.returned) [],
    Action.runf 2, Action.runf 2,
    Action.deQueue 0 (some 5),
    Action.loop, Action.loop,
    Action.go 0, Action.go 0, Action.go 0, Action.go 0, Action.go 0,
    Action.loop, Action.loop, Action.loop, Action.loop,
    Action.Close, Action.deQueueClosed,
    Action.go 1, Action.go 1, Action.go 1, Action.go 1, Action.go 1,
    Action.go 2, Action.go 2, Action.go 2, Action.go 2, Action.go 2,
    Action.wait ]

/-- The state that `demoSchedule` reaches from a fresh dispatcher of capacity 2. -/
def demoState : State := (exec (fresh 2) demoSchedule).getD (fresh 2)

/-- The callback invoked at line 121. -/
def Event.ackOf : Event → Option Ack
  | Event.ack a => some a
  | _ => none

/-- The acknowledge callbacks invoked, in order. -/
def ackTrace (tr : List Event) : List Ack := tr.filterMap Event.ackOf

/-! ## Whole calls, run without interleaving -/

/-- The call of `Runf` number `i` has returned. -/
def runfReturned (s : State) (i : Nat) : Bool :=
  match s.runfs[i]? with
  | some RunfPc.returned => true
  | _ => false

/-- Line 57 has panicked: `wg.Add(1)` left the counter of the WaitGroup negative. -/
def Event.isWgNegative : Event → Bool
  | Event.wgNegative => true
  | _ => false

/-- Some call of `Runf` has panicked at line 57. -/
def wgOverflowed (tr : List Event) : Bool := tr.any Event.isWgNegative

/-- An action of a queue that hands out only jobs of its store, as the default
queue does. -/
def Action.fromStore : Action → Bool
  | Action.deQueueOther _ _ => false
  | _ => true

/-- An option that supplies the queue, as a caller would write it. -/
def withJobs (q : JobQueue) : OptionFunc := fun eg => { eg with jobs := some q }

/-- An option that supplies the recovery guard, as a caller would write it. -/
def withRecover (r : RecoverFunc) : OptionFunc := fun eg => { eg with recoverFunc := some r }

/-- The statements of the call of `Runf` number `i`, executed one after another
with no other thread in between, until the call returns; `fuel` bounds their
number. -/
def driveRunf (i : Nat) : Nat → State → Option State
  | 0, s => if runfReturned s i then some s else none
  | fuel + 1, s =>
      if runfReturned s i then some s
      else
        match step s (Action.runf i) with
        | some s1 => driveRunf i fuel s1
        | none => none

/-- A whole call `e.Runf(ctx, task, args...)` with no other thread moving
meanwhile.  After lines 57-58 such a call executes at most three statements: the
load, then either `EnQueue`, or the compare-and-swap and `runJob`. -/
def callRunf (s : State) (ctx : Context) (task : FuncArgs) (args : List Any) : Option State :=
  match step s (Action.Runf ctx task args) with
  | some s1 => driveRunf s.runfs.length 3 s1
  | none => none

/-- A whole call `e.Run(ctx, task)` with no other thread moving meanwhile. -/
def callRun (s : State) (ctx : Context) (task : Func) : Option State :=
  match step s (Action.Run ctx task) with
  | some s1 => driveRunf s.runfs.length 3 s1
  | none => none

/-- Jobs submitted one after another through `Runf`, each call returning before
the next one starts, with no job goroutine and no loop step in between. -/
def submitAll (s : State) : List Job → Option State
  | [] => some s
  | job :: rest =>
      match callRunf s job.ctx job.f job.args with
      | some s1 => submitAll s1 rest
      | none => none

/-- A job whose callable panics. -/
def panickingJob : FuncArgs := fun _ _ => Outcome.panicked

/-- A job whose callable returns. -/
def returningJob : FuncArgs := fun _ _ => Outcome.returned

/-- One submission to a fresh dispatcher, run to the end of its goroutine. -/
def oneJobSchedule (task : FuncArgs) : List Action :=
  [ Action.Runf 0 task [],
    Action.runf 0, Action.runf 0, Action.runf 0,
    Action.go 0, Action.go 0, Action.go 0, Action.go 0, Action.go 0 ]

/-- The state after one job whose callable panics. -/
def afterPanic : State := (exec (New []) (oneJobSchedule panickingJob)).getD (New [])

/-- The state after one job whose callable returns. -/
def afterReturn : State := (exec (New []) (oneJobSchedule returningJob)).getD (New [])

/-! ## Submissions one after another, with the dispatch loop running -/

/-- A call of `Runf` that is over: it has returned, or it has panicked at line 57. -/
def RunfPc.isOver : RunfPc → Bool
  | RunfPc.returned => true
  | RunfPc.panicked => true
  | _ => false

/-- No call of `Runf` is in progress. -/
def noCallInProgress (s : State) : Bool := s.runfs.all RunfPc.isOver

/-- A step of a run in which the calls of `Runf` follow one another (a call is
entered only when the calls before it are over), no job goroutine moves, and the
queue hands out only jobs of its store, as the default queue does; `loopQueue`
and `Close` move freely. -/
def seqStep (s : State) (a : Action) : Option State :=
  match a with
  | Action.go _ => none
  | Action.deQueueOther _ _ => none
  | Action.Runf _ _ _ => if noCallInProgress s then step s a else none
  | Action.Run _ _ => if noCallInProgress s then step s a else none
  | _ => step s a

/-- A run made of such steps. -/
def execSeq (s : State) : List Action → Option State
  | [] => some s
  | a :: rest =>
      match seqStep s a with
      | some s1 => execSeq s1 rest
      | none => none

/-- The job submitted at line 57. -/
def Event.submittedJob : Event → Option Job
  | Event.wgAdd job => some job
  | _ => none

/-- The jobs submitted, in order. -/
def submitted (tr : List Event) : List Job := tr.filterMap Event.submittedJob

/-- The job of a call of `Runf` that has not yet enqueued or started it. -/
def RunfPc.pending : RunfPc → List Job
  | RunfPc.atLoad job => [job]
  | RunfPc.atCheck job _ => [job]
  | RunfPc.atRunJob job => [job]
  | RunfPc.returned => []
  | RunfPc.panicked => []

/-- The loop is past its compare-and-swap. -/
def LoopPc.pastCas : LoopPc → Bool
  | LoopPc.atRunJob _ _ => true
  | LoopPc.atAck _ _ => true
  | _ => false

/-- A schedule of three submissions one after another with loop steps in between,
for capacity 2: the loop dequeues the third job and spins. -/
def seqSchedule : List Action :=
  [ Action.Runf 1 returningJob [], Action.runf 0, Action.runf 0, Action.runf 0,
    Action.Runf 2 returningJob [], Action.runf 1, Action.runf 1, Action.runf 1,
    Action.Runf 3 returningJob [], Action.runf 2, Action.runf 2,
    Action.deQueue 0 none, Action.loop, Action.loop, Action.loop ]

/-- The state that `seqSchedule` reaches from a fresh dispatcher of capacity 2. -/
def seqState : State := (execSeq (fresh 2) seqSchedule).getD (fresh 2)


/-- A schedule for capacity 2 that leaves three jobs unfinished: two running, the
third dequeued by the loop, which waits for a slot; `Close` is blocked in
`wg.Wait()`. -/
def busySchedule : List Action :=
  [ Action.Runf 1 returningJob [], Action.runf 0, Action.runf 0, Action.runf 0,
    Action.Runf 2 returningJob [], Action.runf 1, Action.runf 1, Action.runf 1,
    Action.Runf 3 returningJob [], Action.runf 2, Action.runf 2,
    Action.deQueue 0 none, Action.loop, Action.loop,
    Action.Close, Action.wait ]

/-- The state that `busySchedule` reaches from a fresh dispatcher of capacity 2. -/
def busyState : State := (exec (fresh 2) busySchedule).getD (fresh 2)

/-- A schedule for capacity 1 in which the queue hands out the job submitted last
(context 3, with callback 9) before the one submitted before it (context 2, no
callback), and the loop starts both. -/
def orderSchedule : List Action :=
  [ Action.Runf 1 returningJob [], Action.runf 0, Action.runf 0, Action.runf 0,
    Action.Runf 2 returningJob [], Action.runf 1, Action.runf 1,
    Action.Runf 3 returningJob [], Action.runf 2, Action.runf 2,
    Action.go 0, Action.go 0, Action.go 0, Action.go 0, Action.go 0,
    Action.deQueue 1 (some 9), Action.loop, Action.loop, Action.loop, Action.loop,
    Action.go 1, Action.go 1, Action.go 1, Action.go 1, Action.go 1,
    Action.deQueue 0 none, Action.loop, Action.loop, Action.loop, Action.loop ]

/-- The state that `orderSchedule` reaches from a fresh dispatcher of capacity 1. -/
def orderState : State := (exec (fresh 1) orderSchedule).getD (fresh 1)

/-- A recovery guard that panics. -/
def panickingGuard : RecoverFunc := { callsRecover := false, outcome := GuardOutcome.panics }

/-- One job whose callable returns, on a dispatcher whose guard panics: the
submission, the callable, and the call of the guard. -/
def guardPanicSchedule : List Action :=
  [ Action.Runf 0 returningJob [],
    Action.runf 0, Action.runf 0, Action.runf 0,
    Action.go 0, Action.go 0 ]

/-- The state that `guardPanicSchedule` reaches on a dispatcher whose guard
panics. -/
def afterGuardPanic : State :=
  (exec (New [withRecover panickingGuard]) guardPanicSchedule).getD (New [])

/-- The entry of a call of `Runf` with a job that returns. -/
def enterOnly : Action := Action.Runf 0 returningJob []

/-! ## Invariants -/

/-- The invariant behind the capacity bound. -/
structure CountInv (N : Int) (s : State) : Prop where
  size_eq : s.size = N
  count_eq : s.count = (slotsHeld s : Int)
  count_le : s.count ≤ N
  trace_eq : s.count + (addCount s.trace : Int) = (casCount s.trace : Int)
  olds : ∀ v ∈ casOlds s.trace, 0 ≤ v ∧ v < N
  cas_started : casCount s.trace
    = (s.runfs.map RunfPc.holdsSlot).sum + s.loop.holdsSlot + runJobCount s.trace
  add_started : addCount s.trace + (s.gos.map GoPc.holdsSlot).sum = runJobCount s.trace

/-- The invariant behind the in-flight accounting, for runs in which the queue
hands out only jobs of its store: until line 57 panics, the counter is the number
of unfinished jobs and fits in 32 bits. -/
structure WgInv (s : State) : Prop where
  wg_eq : s.wg = (unfinishedJobs s : Int)
  wg_lt : s.wg < 2 ^ 31

/-- The invariant of the goroutines: each has executed a prefix of its handler. -/
structure GoInv (s : State) : Prop where
  handler : ∀ g, handlerTrace g s.trace = (handlerEvents g).take (handlerStepsOf s g)
  started : runJobCount s.trace = s.gos.length

/-- The invariant of the dispatch loop. -/
structure LoopInv (s : State) : Prop where
  order : dequeuedJobs s.trace = loopStarted s.trace ++ s.loop.heldJob
  closed : closedSeen s.trace = true ↔ s.loop = LoopPc.returned
  shape : ∃ (its : List LoopIter) (v : Int),
    loopTrace s.trace = its.flatMap LoopIter.events ++ s.loop.events v

/-- The state after the jobs `done` were submitted one after another to a fresh
dispatcher of capacity `N`. -/
structure Solo (N : Int) (done : List Job) (s : State) : Prop where
  size_eq : s.size = N
  alive : s.crashed = false
  count_eq : s.count = min (done.length : Int) N
  wg_eq : s.wg = (done.length : Int)
  started : runfStarted s.trace = done.take N.toNat
  enqueued : enqueuedJobs s.trace = done.drop N.toNat
  items : s.jobs.items = done.drop N.toNat
  gos_len : s.gos.length = min done.length N.toNat
  gos_eq : s.gos = (done.take N.toNat).map GoPc.atCall
  loop_idle : loopStarted s.trace = [] ∧ s.loop = LoopPc.atDeQueue

/-- The invariant of runs in which the calls of `Runf` follow one another and no
job goroutine moves. -/
structure SeqInv (N : Int) (s : State) : Prop where
  size_eq : s.size = N
  one_call : (s.runfs.map RunfPc.unplaced).sum ≤ 1
  count_eq : s.count
    = (((runfStarted s.trace).length + (s.runfs.map RunfPc.holdsSlot).sum : Nat) : Int)
  count_le : s.count ≤ N
  order : submitted s.trace
    = runfStarted s.trace ++ enqueuedJobs s.trace ++ s.runfs.flatMap RunfPc.pending
  full : (enqueuedJobs s.trace).length = 0 ∨ ((runfStarted s.trace).length : Int) = N
  checks : ∀ (i : Nat) (job : Job) (v : Int),
    s.runfs[i]? = some (RunfPc.atCheck job v) → v ≤ s.count
  cold : s.loop.pastCas = false
  loop_full : s.loop.holdsJob = 0 ∨ s.count = N
  items_full : s.jobs.items.length = 0 ∨ s.count = N
  loop_none : loopStarted s.trace = []
  gos_eq : s.gos = (runfStarted s.trace).map GoPc.atCall

/-- The invariant that keeps the writes to `count` from wrapping around: `count`
is the number of slots held and the capacity is an `int64`. -/
structure SlotInv (s : State) : Prop where
  count_eq : s.count = (slotsHeld s : Int)
  size_lt : s.size < 2 ^ 63
  count_le : s.count ≤ s.size ∨ s.count = 0

/-! ## Arithmetic and list helpers -/

theorem wrap64_eq (x : Int) (h1 : -2 ^ 63 ≤ x) (h2 : x < 2 ^ 63) : wrap64 x = x := by
  unfold wrap64
  rw [Int.emod_eq_of_lt (by omega) (by omega)]
  omega

theorem sum_map_set {α : Type} (w : α → Nat) (l : List α) (i : Nat) (x y : α)
    (h : l[i]? = some y) : ((l.set i x).map w).sum + w y = (l.map w).sum + w x := by
  induction l generalizing i with
  | nil => simp at h
  | cons a t ih =>
    cases i with
    | zero =>
      simp at h
      subst h
      simp
      omega
    | succ n =>
      simp at h
      have := ih n h
      simp only [List.set_cons_succ, List.map_cons, List.sum_cons]
      omega

theorem casCount_append (a b : List Event) : casCount (a ++ b) = casCount a + casCount b := by
  induction a with
  | nil => simp [casCount]
  | cons e t ih => cases e <;> simp [casCount, ih]; omega

theorem addCount_append (a b : List Event) : addCount (a ++ b) = addCount a + addCount b := by
  induction a with
  | nil => simp [addCount]
  | cons e t ih => cases e <;> simp [addCount, ih]; omega

theorem casOlds_append (a b : List Event) : casOlds (a ++ b) = casOlds a ++ casOlds b := by
  induction a with
  | nil => simp [casOlds]
  | cons e t ih => cases e <;> simp [casOlds, ih]

theorem length_eraseIdx_add_one {α : Type} (l : List α) (k : Nat) (x : α) (h : l[k]? = some x) :
    (l.eraseIdx k).length + 1 = l.length := by
  have hk : k < l.length := by
    rcases Nat.lt_or_ge k l.length with hlt | hge
    · exact hlt
    · rw [List.getElem?_eq_none hge] at h
      simp at h
  rw [List.length_eraseIdx, if_pos hk]
  omega

theorem deQueue_some (q q1 : JobQueue) (k : Nat) (job : Job) (h : q.DeQueue k = some (job, q1)) :
    q.items[k]? = some job ∧ q1.items = q.items.eraseIdx k ∧ q1.closed = q.closed := by
  unfold JobQueue.DeQueue at h
  split at h
  · rename_i j hj
    simp only [Option.some.injEq, Prod.mk.injEq] at h
    obtain ⟨h1, h2⟩ := h
    subst h1
    subst h2
    exact ⟨hj, rfl, rfl⟩
  · simp at h

theorem get_set_cases {α : Type} (l : List α) (i j : Nat) (x y : α) (h : l[i]? = some y) :
    (l.set i x)[j]? = if j = i then some x else l[j]? := by
  have hi : i < l.length := by
    rcases Nat.lt_or_ge i l.length with hlt | hge
    · exact hlt
    · rw [List.getElem?_eq_none hge] at h
      simp at h
  rw [List.getElem?_set]
  by_cases e : i = j
  · subst e
    simp [hi]
  · have e2 : ¬ j = i := fun h => e h.symm
    simp [e, e2]

theorem get_append_one {α : Type} (l : List α) (j : Nat) (x : α) :
    (l ++ [x])[j]? = if j = l.length then some x else l[j]? := by
  rw [List.getElem?_append]
  by_cases e : j = l.length
  · subst e
    simp
  · rcases Nat.lt_or_ge j l.length with hlt | hge
    · simp [hlt, e]
    · have h2 : l.length < j := by omega
      have h3 : ¬ j < l.length := by omega
      have h4 : l[j]? = none := List.getElem?_eq_none hge
      have h5 : 0 < j - l.length := by omega
      simp only [h3, e, if_false, h4]
      cases hk : j - l.length with
      | zero => omega
      | succ n => simp

theorem runJobCount_append (a b : List Event) :
    runJobCount (a ++ b) = runJobCount a + runJobCount b := by
  induction a with
  | nil => simp [runJobCount]
  | cons e t ih => cases e <;> simp [runJobCount, ih]; omega

theorem closedSeen_append (a : List Event) (e : Event) :
    closedSeen (a ++ [e]) = (closedSeen a || e.isClosed) := by
  simp [closedSeen, List.any_append]

theorem wrap32_eq (x : Int) (h1 : -2 ^ 31 ≤ x) (h2 : x < 2 ^ 31) : wrap32 x = x := by
  unfold wrap32
  rw [Int.emod_eq_of_lt (by omega) (by omega)]
  omega

theorem wrap32_range (x : Int) : -2 ^ 31 ≤ wrap32 x ∧ wrap32 x < 2 ^ 31 := by
  unfold wrap32
  omega

theorem wgOverflowed_append (a : List Event) (e : Event) :
    wgOverflowed (a ++ [e]) = (wgOverflowed a || e.isWgNegative) := by
  simp [wgOverflowed, List.any_append]

/-! ## The capacity invariant -/

theorem countInv_fresh (N : Int) (hN : 0 < N) : CountInv N (fresh N) := by
  have h0 : N ≠ 0 := by omega
  constructor <;> simp [fresh, New, applyOptions, withSize, h0, slotsHeld, LoopPc.holdsSlot,
    casCount, addCount, casOlds, runJobCount]
  omega

theorem countInv_step (N : Int) (hN : N < 2 ^ 63) (s s1 : State) (a : Action)
    (inv : CountInv N s) (h : step s a = some s1) : CountInv N s1 := by
  obtain ⟨hsz, hc, hle, htr, hold, hcs, has⟩ := inv
  unfold step at h
  split at h
  · simp at h
  rename_i hcr
  cases a with
  | Runf ctx task args =>
    simp only [Option.some.injEq, enterRunf] at h
    split at h
    · rename_i hneg
      subst h
      refine ⟨?_, ?_, ?_, ?_, ?_, ?_, ?_⟩ <;>
        simp only [slotsHeld, runJob, stepClose, casCount_append, addCount_append,
            runJobCount_append, runJobCount, casOlds_append, casCount, addCount, casOlds,
            List.append_nil, Nat.add_zero, List.map_append, List.sum_append, List.map_cons,
            List.map_nil, List.sum_cons, List.sum_nil, GoPc.holdsSlot, LoopPc.holdsSlot,
            RunfPc.holdsSlot, JobQueue.EnQueue, JobQueue.Close] at * <;>
        first | assumption | omega
    · rename_i hok
      subst h
      refine ⟨?_, ?_, ?_, ?_, ?_, ?_, ?_⟩ <;>
        simp only [slotsHeld, runJob, stepClose, casCount_append, addCount_append,
            runJobCount_append, runJobCount, casOlds_append, casCount, addCount, casOlds,
            List.append_nil, Nat.add_zero, List.map_append, List.sum_append, List.map_cons,
            List.map_nil, List.sum_cons, List.sum_nil, GoPc.holdsSlot, LoopPc.holdsSlot,
            RunfPc.holdsSlot, JobQueue.EnQueue, JobQueue.Close] at * <;>
        first | assumption | omega
  | Run ctx task =>
    simp only [Option.some.injEq, enterRun, enterRunf] at h
    split at h
    · rename_i hneg
      subst h
      refine ⟨?_, ?_, ?_, ?_, ?_, ?_, ?_⟩ <;>
        simp only [slotsHeld, runJob, stepClose, casCount_append, addCount_append,
            runJobCount_append, runJobCount, casOlds_append, casCount, addCount, casOlds,
            List.append_nil, Nat.add_zero, List.map_append, List.sum_append, List.map_cons,
            List.map_nil, List.sum_cons, List.sum_nil, GoPc.holdsSlot, LoopPc.holdsSlot,
            RunfPc.holdsSlot, JobQueue.EnQueue, JobQueue.Close] at * <;>
        first | assumption | omega
    · rename_i hok
      subst h
      refine ⟨?_, ?_, ?_, ?_, ?_, ?_, ?_⟩ <;>
        simp only [slotsHeld, runJob, stepClose, casCount_append, addCount_append,
            runJobCount_append, runJobCount, casOlds_append, casCount, addCount, casOlds,
            List.append_nil, Nat.add_zero, List.map_append, List.sum_append, List.map_cons,
            List.map_nil, List.sum_cons, List.sum_nil, GoPc.holdsSlot, LoopPc.holdsSlot,
            RunfPc.holdsSlot, JobQueue.EnQueue, JobQueue.Close] at * <;>
        first | assumption | omega
  | runf i =>
    simp only [stepRunf] at h
    split at h
    · rename_i job hget
      simp only [Option.some.injEq] at h; subst h
      have hs := sum_map_set RunfPc.holdsSlot s.runfs i (RunfPc.atCheck job s.count) _ hget
      refine ⟨?_, ?_, ?_, ?_, ?_, ?_, ?_⟩ <;>
        simp only [slotsHeld, runJob, stepClose, casCount_append, addCount_append,
            runJobCount_append, runJobCount, casOlds_append, casCount, addCount, casOlds,
            List.append_nil, Nat.add_zero, List.map_append, List.sum_append, List.map_cons,
            List.map_nil, List.sum_cons, List.sum_nil, GoPc.holdsSlot, LoopPc.holdsSlot,
            RunfPc.holdsSlot, JobQueue.EnQueue, JobQueue.Close] at * <;>
        first | assumption | omega
    · rename_i job v hget
      split at h
      · rename_i hge
        simp only [Option.some.injEq] at h; subst h
        have hs := sum_map_set RunfPc.holdsSlot s.runfs i RunfPc.returned _ hget
        refine ⟨?_, ?_, ?_, ?_, ?_, ?_, ?_⟩ <;>
          simp only [slotsHeld, runJob, stepClose, casCount_append, addCount_append,
              runJobCount_append, runJobCount, casOlds_append, casCount, addCount, casOlds,
              List.append_nil, Nat.add_zero, List.map_append, List.sum_append, List.map_cons,
              List.map_nil, List.sum_cons, List.sum_nil, GoPc.holdsSlot, LoopPc.holdsSlot,
              RunfPc.holdsSlot, JobQueue.EnQueue, JobQueue.Close] at * <;>
          first | assumption | omega
      · rename_i hlt
        split at h
        · rename_i hcas
          simp only [Option.some.injEq] at h; subst h
          have hs := sum_map_set RunfPc.holdsSlot s.runfs i (RunfPc.atRunJob job) _ hget
          have h0 : 0 ≤ v := by rw [← hcas, hc]; positivity
          have hw : wrap64 (v + 1) = v + 1 := wrap64_eq _ (by omega) (by omega)
          rw [hw] at *
          refine ⟨?_, ?_, ?_, ?_, ?_, ?_, ?_⟩ <;>
            simp only [slotsHeld, runJob, stepClose, casCount_append, addCount_append,
                runJobCount_append, runJobCount, casOlds_append, casCount, addCount, casOlds,
                List.append_nil, Nat.add_zero, List.map_append, List.sum_append, List.map_cons,
                List.map_nil, List.sum_cons, List.sum_nil, GoPc.holdsSlot, LoopPc.holdsSlot,
                RunfPc.holdsSlot, JobQueue.EnQueue, JobQueue.Close] at * <;>
            first | assumption | omega | skip
          intro x hx
          rcases List.mem_append.mp hx with hx | hx
          · exact hold x hx
          · rw [List.mem_singleton.mp hx]; omega
        · rename_i hne
          simp only [Option.some.injEq] at h; subst h
          have hs := sum_map_set RunfPc.holdsSlot s.runfs i (RunfPc.atLoad job) _ hget
          refine ⟨?_, ?_, ?_, ?_, ?_, ?_, ?_⟩ <;>
            simp only [slotsHeld, runJob, stepClose, casCount_append, addCount_append,
                runJobCount_append, runJobCount, casOlds_append, casCount, addCount, casOlds,
                List.append_nil, Nat.add_zero, List.map_append, List.sum_append, List.map_cons,
                List.map_nil, List.sum_cons, List.sum_nil, GoPc.holdsSlot, LoopPc.holdsSlot,
                RunfPc.holdsSlot, JobQueue.EnQueue, JobQueue.Close] at * <;>
            first | assumption | omega
    · rename_i job hget
      simp only [Option.some.injEq] at h; subst h
      have hs := sum_map_set RunfPc.holdsSlot s.runfs i RunfPc.returned _ hget
      refine ⟨?_, ?_, ?_, ?_, ?_, ?_, ?_⟩ <;>
        simp only [slotsHeld, runJob, stepClose, casCount_append, addCount_append,
            runJobCount_append, runJobCount, casOlds_append, casCount, addCount, casOlds,
            List.append_nil, Nat.add_zero, List.map_append, List.sum_append, List.map_cons,
            List.map_nil, List.sum_cons, List.sum_nil, GoPc.holdsSlot, LoopPc.holdsSlot,
            RunfPc.holdsSlot, JobQueue.EnQueue, JobQueue.Close] at * <;>
        first | assumption | omega
    · simp at h
    · simp at h
    · simp at h
  | deQueue k ack =>
    simp only [stepDeQueue] at h
    split at h
    · rename_i hpc
      split at h
      · rename_i job q heq
        simp only [Option.some.injEq] at h; subst h
        simp only [slotsHeld, hpc, LoopPc.holdsSlot] at hc hcs
        refine ⟨?_, ?_, ?_, ?_, ?_, ?_, ?_⟩ <;>
          simp only [slotsHeld, runJob, stepClose, casCount_append, addCount_append,
              runJobCount_append, runJobCount, casOlds_append, casCount, addCount, casOlds,
              List.append_nil, Nat.add_zero, List.map_append, List.sum_append, List.map_cons,
              List.map_nil, List.sum_cons, List.sum_nil, GoPc.holdsSlot, LoopPc.holdsSlot,
              RunfPc.holdsSlot, JobQueue.EnQueue, JobQueue.Close] at * <;>
          first | assumption | omega
      · simp at h
    · simp at h
  | deQueueOther job ack =>
    simp only [stepDeQueueOther] at h
    split at h
    · rename_i hpc
      simp only [Option.some.injEq] at h; subst h
      simp only [slotsHeld, hpc, LoopPc.holdsSlot] at hc hcs
      refine ⟨?_, ?_, ?_, ?_, ?_, ?_, ?_⟩ <;>
        simp only [slotsHeld, runJob, stepClose, casCount_append, addCount_append,
            runJobCount_append, runJobCount, casOlds_append, casCount, addCount, casOlds,
            List.append_nil, Nat.add_zero, List.map_append, List.sum_append, List.map_cons,
            List.map_nil, List.sum_cons, List.sum_nil, GoPc.holdsSlot, LoopPc.holdsSlot,
            RunfPc.holdsSlot, JobQueue.EnQueue, JobQueue.Close] at * <;>
        first | assumption | omega
    · simp at h
  | deQueueClosed =>
    simp only [stepDeQueueClosed] at h
    split at h
    · rename_i hpc
      simp only [Option.some.injEq] at h; subst h
      simp only [slotsHeld, hpc, LoopPc.holdsSlot] at hc hcs
      refine ⟨?_, ?_, ?_, ?_, ?_, ?_, ?_⟩ <;>
        simp only [slotsHeld, runJob, stepClose, casCount_append, addCount_append,
            runJobCount_append, runJobCount, casOlds_append, casCount, addCount, casOlds,
            List.append_nil, Nat.add_zero, List.map_append, List.sum_append, List.map_cons,
            List.map_nil, List.sum_cons, List.sum_nil, GoPc.holdsSlot, LoopPc.holdsSlot,
            RunfPc.holdsSlot, JobQueue.EnQueue, JobQueue.Close] at * <;>
        first | assumption | omega
    · simp at h
  | loop =>
    simp only [stepLoop] at h
    split at h
    · simp at h
    · rename_i job ack hpc
      simp only [Option.some.injEq] at h; subst h
      simp only [slotsHeld, hpc, LoopPc.holdsSlot] at hc hcs
      refine ⟨?_, ?_, ?_, ?_, ?_, ?_, ?_⟩ <;>
        simp only [slotsHeld, runJob, stepClose, casCount_append, addCount_append,
            runJobCount_append, runJobCount, casOlds_append, casCount, addCount, casOlds,
            List.append_nil, Nat.add_zero, List.map_append, List.sum_append, List.map_cons,
            List.map_nil, List.sum_cons, List.sum_nil, GoPc.holdsSlot, LoopPc.holdsSlot,
            RunfPc.holdsSlot, JobQueue.EnQueue, JobQueue.Close] at * <;>
        first | assumption | omega
    · rename_i job ack v hpc
      split at h
      · rename_i hge
        simp only [Option.some.injEq] at h; subst h
        simp only [slotsHeld, hpc, LoopPc.holdsSlot] at hc hcs
        refine ⟨?_, ?_, ?_, ?_, ?_, ?_, ?_⟩ <;>
          simp only [slotsHeld, runJob, stepClose, casCount_append, addCount_append,
              runJobCount_append, runJobCount, casOlds_append, casCount, addCount, casOlds,
              List.append_nil, Nat.add_zero, List.map_append, List.sum_append, List.map_cons,
              List.map_nil, List.sum_cons, List.sum_nil, GoPc.holdsSlot, LoopPc.holdsSlot,
              RunfPc.holdsSlot, JobQueue.EnQueue, JobQueue.Close] at * <;>
          first | assumption | omega
      · rename_i hlt
        split at h
        · rename_i hcas
          simp only [Option.some.injEq] at h; subst h
          simp only [slotsHeld, hpc, LoopPc.holdsSlot] at hc hcs
          have h0 : 0 ≤ v := by rw [← hcas, hc]; positivity
          have hw : wrap64 (v + 1) = v + 1 := wrap64_eq _ (by omega) (by omega)
          rw [hw] at *
          refine ⟨?_, ?_, ?_, ?_, ?_, ?_, ?_⟩ <;>
            simp only [slotsHeld, runJob, stepClose, casCount_append, addCount_append,
                runJobCount_append, runJobCount, casOlds_append, casCount, addCount, casOlds,
                List.append_nil, Nat.add_zero, List.map_append, List.sum_append, List.map_cons,
                List.map_nil, List.sum_cons, List.sum_nil, GoPc.holdsSlot, LoopPc.holdsSlot,
                RunfPc.holdsSlot, JobQueue.EnQueue, JobQueue.Close] at * <;>
            first | assumption | omega | skip
          intro x hx
          rcases List.mem_append.mp hx with hx | hx
          · exact hold x hx
          · rw [List.mem_singleton.mp hx]; omega
        · rename_i hne
          simp only [Option.some.injEq] at h; subst h
          simp only [slotsHeld, hpc, LoopPc.holdsSlot] at hc hcs
          refine ⟨?_, ?_, ?_, ?_, ?_, ?_, ?_⟩ <;>
            simp only [slotsHeld, runJob, stepClose, casCount_append, addCount_append,
                runJobCount_append, runJobCount, casOlds_append, casCount, addCount, casOlds,
                List.append_nil, Nat.add_zero, List.map_append, List.sum_append, List.map_cons,
                List.map_nil, List.sum_cons, List.sum_nil, GoPc.holdsSlot, LoopPc.holdsSlot,
                RunfPc.holdsSlot, JobQueue.EnQueue, JobQueue.Close] at * <;>
            first | assumption | omega
    · rename_i job ack hpc
      simp only [Option.some.injEq] at h; subst h
      simp only [slotsHeld, hpc, LoopPc.holdsSlot] at hc hcs
      refine ⟨?_, ?_, ?_, ?_, ?_, ?_, ?_⟩ <;>
        simp only [slotsHeld, runJob, stepClose, casCount_append, addCount_append,
            runJobCount_append, runJobCount, casOlds_append, casCount, addCount, casOlds,
            List.append_nil, Nat.add_zero, List.map_append, List.sum_append, List.map_cons,
            List.map_nil, List.sum_cons, List.sum_nil, GoPc.holdsSlot, LoopPc.holdsSlot,
            RunfPc.holdsSlot, JobQueue.EnQueue, JobQueue.Close] at * <;>
        first | assumption | omega
    · rename_i job ack hpc
      cases ack with
      | some a =>
        simp only [Option.some.injEq] at h; subst h
        simp only [slotsHeld, hpc, LoopPc.holdsSlot] at hc hcs
        refine ⟨?_, ?_, ?_, ?_, ?_, ?_, ?_⟩ <;>
          simp only [slotsHeld, runJob, stepClose, casCount_append, addCount_append,
              runJobCount_append, runJobCount, casOlds_append, casCount, addCount, casOlds,
              List.append_nil, Nat.add_zero, List.map_append, List.sum_append, List.map_cons,
              List.map_nil, List.sum_cons, List.sum_nil, GoPc.holdsSlot, LoopPc.holdsSlot,
              RunfPc.holdsSlot, JobQueue.EnQueue, JobQueue.Close] at * <;>
          first | assumption | omega
      | none =>
        simp only [Option.some.injEq] at h; subst h
        simp only [slotsHeld, hpc, LoopPc.holdsSlot] at hc hcs
        refine ⟨?_, ?_, ?_, ?_, ?_, ?_, ?_⟩ <;>
          simp only [slotsHeld, runJob, stepClose, casCount_append, addCount_append,
              runJobCount_append, runJobCount, casOlds_append, casCount, addCount, casOlds,
              List.append_nil, Nat.add_zero, List.map_append, List.sum_append, List.map_cons,
              List.map_nil, List.sum_cons, List.sum_nil, GoPc.holdsSlot, LoopPc.holdsSlot,
              RunfPc.holdsSlot, JobQueue.EnQueue, JobQueue.Close] at * <;>
          first | assumption | omega
    · simp at h
  | go g =>
    simp only [stepGo] at h
    split at h
    · rename_i job hget
      simp only [Option.some.injEq] at h; subst h
      have hs := sum_map_set GoPc.holdsSlot s.gos g (GoPc.atRecover (decide (job.f job.ctx job.args = Outcome.panicked))) _ hget
      refine ⟨?_, ?_, ?_, ?_, ?_, ?_, ?_⟩ <;>
        simp only [slotsHeld, runJob, stepClose, casCount_append, addCount_append,
            runJobCount_append, runJobCount, casOlds_append, casCount, addCount, casOlds,
            List.append_nil, Nat.add_zero, List.map_append, List.sum_append, List.map_cons,
            List.map_nil, List.sum_cons, List.sum_nil, GoPc.holdsSlot, LoopPc.holdsSlot,
            RunfPc.holdsSlot, JobQueue.EnQueue, JobQueue.Close] at * <;>
        first | assumption | omega
    · rename_i p hget
      split at h
      · rename_i hout
        simp only [Option.some.injEq] at h; subst h
        have hs := sum_map_set GoPc.holdsSlot s.gos g (GoPc.atDone (s.recoverFunc.call p)) _ hget
        refine ⟨?_, ?_, ?_, ?_, ?_, ?_, ?_⟩ <;>
          simp only [slotsHeld, runJob, stepClose, casCount_append, addCount_append,
              runJobCount_append, runJobCount, casOlds_append, casCount, addCount, casOlds,
              List.append_nil, Nat.add_zero, List.map_append, List.sum_append, List.map_cons,
              List.map_nil, List.sum_cons, List.sum_nil, GoPc.holdsSlot, LoopPc.holdsSlot,
              RunfPc.holdsSlot, JobQueue.EnQueue, JobQueue.Close] at * <;>
          first | assumption | omega
      · rename_i hout
        simp only [Option.some.injEq] at h; subst h
        have hs := sum_map_set GoPc.holdsSlot s.gos g GoPc.inGuard _ hget
        refine ⟨?_, ?_, ?_, ?_, ?_, ?_, ?_⟩ <;>
          simp only [slotsHeld, runJob, stepClose, casCount_append, addCount_append,
              runJobCount_append, runJobCount, casOlds_append, casCount, addCount, casOlds,
              List.append_nil, Nat.add_zero, List.map_append, List.sum_append, List.map_cons,
              List.map_nil, List.sum_cons, List.sum_nil, GoPc.holdsSlot, LoopPc.holdsSlot,
              RunfPc.holdsSlot, JobQueue.EnQueue, JobQueue.Close] at * <;>
          first | assumption | omega
      · rename_i hout
        simp only [Option.some.injEq] at h; subst h
        have hs := sum_map_set GoPc.holdsSlot s.gos g GoPc.inGuard _ hget
        refine ⟨?_, ?_, ?_, ?_, ?_, ?_, ?_⟩ <;>
          simp only [slotsHeld, runJob, stepClose, casCount_append, addCount_append,
              runJobCount_append, runJobCount, casOlds_append, casCount, addCount, casOlds,
              List.append_nil, Nat.add_zero, List.map_append, List.sum_append, List.map_cons,
              List.map_nil, List.sum_cons, List.sum_nil, GoPc.holdsSlot, LoopPc.holdsSlot,
              RunfPc.holdsSlot, JobQueue.EnQueue, JobQueue.Close] at * <;>
          first | assumption | omega
    · rename_i p hget
      split at h
      · rename_i hneg
        simp only [Option.some.injEq] at h; subst h
        have hs := sum_map_set GoPc.holdsSlot s.gos g (GoPc.atAdd p) _ hget
        refine ⟨?_, ?_, ?_, ?_, ?_, ?_, ?_⟩ <;>
          simp only [slotsHeld, runJob, stepClose, casCount_append, addCount_append,
              runJobCount_append, runJobCount, casOlds_append, casCount, addCount, casOlds,
              List.append_nil, Nat.add_zero, List.map_append, List.sum_append, List.map_cons,
              List.map_nil, List.sum_cons, List.sum_nil, GoPc.holdsSlot, LoopPc.holdsSlot,
              RunfPc.holdsSlot, JobQueue.EnQueue, JobQueue.Close] at * <;>
          first | assumption | omega
      · rename_i hok
        simp only [Option.some.injEq] at h; subst h
        have hs := sum_map_set GoPc.holdsSlot s.gos g (GoPc.atAdd p) _ hget
        refine ⟨?_, ?_, ?_, ?_, ?_, ?_, ?_⟩ <;>
          simp only [slotsHeld, runJob, stepClose, casCount_append, addCount_append,
              runJobCount_append, runJobCount, casOlds_append, casCount, addCount, casOlds,
              List.append_nil, Nat.add_zero, List.map_append, List.sum_append, List.map_cons,
              List.map_nil, List.sum_cons, List.sum_nil, GoPc.holdsSlot, LoopPc.holdsSlot,
              RunfPc.holdsSlot, JobQueue.EnQueue, JobQueue.Close] at * <;>
          first | assumption | omega
    · rename_i p hget
      simp only [Option.some.injEq] at h; subst h
      have hs := sum_map_set GoPc.holdsSlot s.gos g (GoPc.atExit p) _ hget
      simp only [GoPc.holdsSlot] at hs
      have hw : wrap64 (s.count - 1) = s.count - 1 := by
        apply wrap64_eq
        · rw [hc]; simp only [slotsHeld]; omega
        · omega
      rw [hw] at *
      refine ⟨?_, ?_, ?_, ?_, ?_, ?_, ?_⟩ <;>
        simp only [slotsHeld, runJob, stepClose, casCount_append, addCount_append,
            runJobCount_append, runJobCount, casOlds_append, casCount, addCount, casOlds,
            List.append_nil, Nat.add_zero, List.map_append, List.sum_append, List.map_cons,
            List.map_nil, List.sum_cons, List.sum_nil, GoPc.holdsSlot, LoopPc.holdsSlot,
            RunfPc.holdsSlot, JobQueue.EnQueue, JobQueue.Close] at * <;>
        first | assumption | omega
    · rename_i p hget
      split at h
      · rename_i hp
        simp only [Option.some.injEq] at h; subst h
        have hs := sum_map_set GoPc.holdsSlot s.gos g GoPc.exited _ hget
        refine ⟨?_, ?_, ?_, ?_, ?_, ?_, ?_⟩ <;>
          simp only [slotsHeld, runJob, stepClose, casCount_append, addCount_append,
              runJobCount_append, runJobCount, casOlds_append, casCount, addCount, casOlds,
              List.append_nil, Nat.add_zero, List.map_append, List.sum_append, List.map_cons,
              List.map_nil, List.sum_cons, List.sum_nil, GoPc.holdsSlot, LoopPc.holdsSlot,
              RunfPc.holdsSlot, JobQueue.EnQueue, JobQueue.Close] at * <;>
          first | assumption | omega
      · rename_i hp
        simp only [Option.some.injEq] at h; subst h
        have hs := sum_map_set GoPc.holdsSlot s.gos g GoPc.exited _ hget
        refine ⟨?_, ?_, ?_, ?_, ?_, ?_, ?_⟩ <;>
          simp only [slotsHeld, runJob, stepClose, casCount_append, addCount_append,
              runJobCount_append, runJobCount, casOlds_append, casCount, addCount, casOlds,
              List.append_nil, Nat.add_zero, List.map_append, List.sum_append, List.map_cons,
              List.map_nil, List.sum_cons, List.sum_nil, GoPc.holdsSlot, LoopPc.holdsSlot,
              RunfPc.holdsSlot, JobQueue.EnQueue, JobQueue.Close] at * <;>
          first | assumption | omega
    · simp at h
    · simp at h
    · simp at h
  | Close =>
    simp only [Option.some.injEq] at h; subst h
    refine ⟨?_, ?_, ?_, ?_, ?_, ?_, ?_⟩ <;>
      simp only [slotsHeld, runJob, stepClose, casCount_append, addCount_append,
          runJobCount_append, runJobCount, casOlds_append, casCount, addCount, casOlds,
          List.append_nil, Nat.add_zero, List.map_append, List.sum_append, List.map_cons,
          List.map_nil, List.sum_cons, List.sum_nil, GoPc.holdsSlot, LoopPc.holdsSlot,
          RunfPc.holdsSlot, JobQueue.EnQueue, JobQueue.Close] at * <;>
      first | assumption | omega
  | wait =>
    simp only [stepWait] at h
    split at h
    · rename_i hcl
      split at h
      · rename_i hz
        simp only [Option.some.injEq] at h; subst h
        refine ⟨?_, ?_, ?_, ?_, ?_, ?_, ?_⟩ <;>
          simp only [slotsHeld, runJob, stepClose, casCount_append, addCount_append,
              runJobCount_append, runJobCount, casOlds_append, casCount, addCount, casOlds,
              List.append_nil, Nat.add_zero, List.map_append, List.sum_append, List.map_cons,
              List.map_nil, List.sum_cons, List.sum_nil, GoPc.holdsSlot, LoopPc.holdsSlot,
              RunfPc.holdsSlot, JobQueue.EnQueue, JobQueue.Close] at * <;>
          first | assumption | omega
      · rename_i hnz
        simp only [Option.some.injEq] at h; subst h
        refine ⟨?_, ?_, ?_, ?_, ?_, ?_, ?_⟩ <;>
          simp only [slotsHeld, runJob, stepClose, casCount_append, addCount_append,
              runJobCount_append, runJobCount, casOlds_append, casCount, addCount, casOlds,
              List.append_nil, Nat.add_zero, List.map_append, List.sum_append, List.map_cons,
              List.map_nil, List.sum_cons, List.sum_nil, GoPc.holdsSlot, LoopPc.holdsSlot,
              RunfPc.holdsSlot, JobQueue.EnQueue, JobQueue.Close] at * <;>
          first | assumption | omega
    · simp at h
  | waitReturn =>
    simp only [stepWaitReturn] at h
    split at h
    · rename_i hrel
      simp only [Option.some.injEq] at h; subst h
      refine ⟨?_, ?_, ?_, ?_, ?_, ?_, ?_⟩ <;>
        simp only [slotsHeld, runJob, stepClose, casCount_append, addCount_append,
            runJobCount_append, runJobCount, casOlds_append, casCount, addCount, casOlds,
            List.append_nil, Nat.add_zero, List.map_append, List.sum_append, List.map_cons,
            List.map_nil, List.sum_cons, List.sum_nil, GoPc.holdsSlot, LoopPc.holdsSlot,
            RunfPc.holdsSlot, JobQueue.EnQueue, JobQueue.Close] at * <;>
        first | assumption | omega
    · simp at h

theorem countInv_exec (N : Int) (hN : N < 2 ^ 63) (acts : List Action) (s s1 : State)
    (inv : CountInv N s) (h : exec s acts = some s1) : CountInv N s1 := by
  induction acts generalizing s with
  | nil =>
    simp only [exec, Option.some.injEq] at h
    exact h ▸ inv
  | cons a rest ih =>
    simp only [exec] at h
    split at h
    · rename_i s2 hs2
      exact ih s2 (countInv_step N hN s s2 a inv hs2) h
    · simp at h

/-! ## The writes to `count` do not wrap around -/

theorem slotInv_fresh (N : Int) (hN : N < 2 ^ 63) : SlotInv (fresh N) := by
  constructor
  · simp [fresh, New, applyOptions, withSize, slotsHeld, LoopPc.holdsSlot]
  · show (if (applyOptions [withSize N]).size = 0 then DEFAULT_EGO_SIZE
      else (applyOptions [withSize N]).size) < 2 ^ 63
    have hsz : (applyOptions [withSize N]).size = N := rfl
    rw [hsz]
    split
    · decide
    · exact hN
  · right
    rfl

theorem slotInv_step (s s1 : State) (a : Action)
    (inv : SlotInv s) (h : step s a = some s1) : SlotInv s1 := by
  obtain ⟨hc, hsz, hle⟩ := inv
  unfold step at h
  split at h
  · simp at h
  rename_i hcr
  cases a with
  | Runf ctx task args =>
    simp only [Option.some.injEq, enterRunf] at h
    split at h
    · rename_i hneg
      subst h
      refine ⟨?_, hsz, ?_⟩ <;>
        simp only [slotsHeld, runJob, stepClose, List.append_nil, Nat.add_zero, List.map_append,
            List.sum_append, List.map_cons, List.map_nil, List.sum_cons, List.sum_nil,
            GoPc.holdsSlot, LoopPc.holdsSlot, RunfPc.holdsSlot, JobQueue.EnQueue,
            JobQueue.Close] at * <;>
        first | assumption | omega
    · rename_i hok
      subst h
      refine ⟨?_, hsz, ?_⟩ <;>
        simp only [slotsHeld, runJob, stepClose, List.append_nil, Nat.add_zero, List.map_append,
            List.sum_append, List.map_cons, List.map_nil, List.sum_cons, List.sum_nil,
            GoPc.holdsSlot, LoopPc.holdsSlot, RunfPc.holdsSlot, JobQueue.EnQueue,
            JobQueue.Close] at * <;>
        first | assumption | omega
  | Run ctx task =>
    simp only [Option.some.injEq, enterRun, enterRunf] at h
    split at h
    · rename_i hneg
      subst h
      refine ⟨?_, hsz, ?_⟩ <;>
        simp only [slotsHeld, runJob, stepClose, List.append_nil, Nat.add_zero, List.map_append,
            List.sum_append, List.map_cons, List.map_nil, List.sum_cons, List.sum_nil,
            GoPc.holdsSlot, LoopPc.holdsSlot, RunfPc.holdsSlot, JobQueue.EnQueue,
            JobQueue.Close] at * <;>
        first | assumption | omega
    · rename_i hok
      subst h
      refine ⟨?_, hsz, ?_⟩ <;>
        simp only [slotsHeld, runJob, stepClose, List.append_nil, Nat.add_zero, List.map_append,
            List.sum_append, List.map_cons, List.map_nil, List.sum_cons, List.sum_nil,
            GoPc.holdsSlot, LoopPc.holdsSlot, RunfPc.holdsSlot, JobQueue.EnQueue,
            JobQueue.Close] at * <;>
        first | assumption | omega
  | runf i =>
    simp only [stepRunf] at h
    split at h
    · rename_i job hget
      simp only [Option.some.injEq] at h; subst h
      have hs := sum_map_set RunfPc.holdsSlot s.runfs i (RunfPc.atCheck job s.count) _ hget
      refine ⟨?_, hsz, ?_⟩ <;>
        simp only [slotsHeld, runJob, stepClose, List.append_nil, Nat.add_zero, List.map_append,
            List.sum_append, List.map_cons, List.map_nil, List.sum_cons, List.sum_nil,
            GoPc.holdsSlot, LoopPc.holdsSlot, RunfPc.holdsSlot, JobQueue.EnQueue,
            JobQueue.Close] at * <;>
        first | assumption | omega
    · rename_i job v hget
      split at h
      · rename_i hge
        simp only [Option.some.injEq] at h; subst h
        have hs := sum_map_set RunfPc.holdsSlot s.runfs i RunfPc.returned _ hget
        refine ⟨?_, hsz, ?_⟩ <;>
          simp only [slotsHeld, runJob, stepClose, List.append_nil, Nat.add_zero, List.map_append,
              List.sum_append, List.map_cons, List.map_nil, List.sum_cons, List.sum_nil,
              GoPc.holdsSlot, LoopPc.holdsSlot, RunfPc.holdsSlot, JobQueue.EnQueue,
              JobQueue.Close] at * <;>
          first | assumption | omega
      · rename_i hlt
        split at h
        · rename_i hcas
          simp only [Option.some.injEq] at h; subst h
          have hs := sum_map_set RunfPc.holdsSlot s.runfs i (RunfPc.atRunJob job) _ hget
          have h0 : 0 ≤ v := by rw [← hcas, hc]; positivity
          have hw : wrap64 (v + 1) = v + 1 := wrap64_eq _ (by omega) (by omega)
          rw [hw]
          refine ⟨?_, hsz, ?_⟩ <;>
            simp only [slotsHeld, runJob, stepClose, List.append_nil, Nat.add_zero,
                List.map_append, List.sum_append, List.map_cons, List.map_nil, List.sum_cons,
                List.sum_nil, GoPc.holdsSlot, LoopPc.holdsSlot, RunfPc.holdsSlot, JobQueue.EnQueue,
                JobQueue.Close] at * <;>
            first | assumption | omega
        · rename_i hne
          simp only [Option.some.injEq] at h; subst h
          have hs := sum_map_set RunfPc.holdsSlot s.runfs i (RunfPc.atLoad job) _ hget
          refine ⟨?_, hsz, ?_⟩ <;>
            simp only [slotsHeld, runJob, stepClose, List.append_nil, Nat.add_zero,
                List.map_append, List.sum_append, List.map_cons, List.map_nil, List.sum_cons,
                List.sum_nil, GoPc.holdsSlot, LoopPc.holdsSlot, RunfPc.holdsSlot, JobQueue.EnQueue,
                JobQueue.Close] at * <;>
            first | assumption | omega
    · rename_i job hget
      simp only [Option.some.injEq] at h; subst h
      have hs := sum_map_set RunfPc.holdsSlot s.runfs i RunfPc.returned _ hget
      refine ⟨?_, hsz, ?_⟩ <;>
        simp only [slotsHeld, runJob, stepClose, List.append_nil, Nat.add_zero, List.map_append,
            List.sum_append, List.map_cons, List.map_nil, List.sum_cons, List.sum_nil,
            GoPc.holdsSlot, LoopPc.holdsSlot, RunfPc.holdsSlot, JobQueue.EnQueue,
            JobQueue.Close] at * <;>
        first | assumption | omega
    · simp at h
    · simp at h
    · simp at h
  | deQueue k ack =>
    simp only [stepDeQueue] at h
    split at h
    · rename_i hpc
      split at h
      · rename_i job q heq
        simp only [Option.some.injEq] at h; subst h
        simp only [slotsHeld, hpc, LoopPc.holdsSlot] at hc
        refine ⟨?_, hsz, ?_⟩ <;>
          simp only [slotsHeld, runJob, stepClose, List.append_nil, Nat.add_zero, List.map_append,
              List.sum_append, List.map_cons, List.map_nil, List.sum_cons, List.sum_nil,
              GoPc.holdsSlot, LoopPc.holdsSlot, RunfPc.holdsSlot, JobQueue.EnQueue,
              JobQueue.Close] at * <;>
          first | assumption | omega
      · simp at h
    · simp at h
  | deQueueOther job ack =>
    simp only [stepDeQueueOther] at h
    split at h
    · rename_i hpc
      simp only [Option.some.injEq] at h; subst h
      simp only [slotsHeld, hpc, LoopPc.holdsSlot] at hc
      refine ⟨?_, hsz, ?_⟩ <;>
        simp only [slotsHeld, runJob, stepClose, List.append_nil, Nat.add_zero, List.map_append,
            List.sum_append, List.map_cons, List.map_nil, List.sum_cons, List.sum_nil,
            GoPc.holdsSlot, LoopPc.holdsSlot, RunfPc.holdsSlot, JobQueue.EnQueue,
            JobQueue.Close] at * <;>
        first | assumption | omega
    · simp at h
  | deQueueClosed =>
    simp only [stepDeQueueClosed] at h
    split at h
    · rename_i hpc
      simp only [Option.some.injEq] at h; subst h
      simp only [slotsHeld, hpc, LoopPc.holdsSlot] at hc
      refine ⟨?_, hsz, ?_⟩ <;>
        simp only [slotsHeld, runJob, stepClose, List.append_nil, Nat.add_zero, List.map_append,
            List.sum_append, List.map_cons, List.map_nil, List.sum_cons, List.sum_nil,
            GoPc.holdsSlot, LoopPc.holdsSlot, RunfPc.holdsSlot, JobQueue.EnQueue,
            JobQueue.Close] at * <;>
        first | assumption | omega
    · simp at h
  | loop =>
    simp only [stepLoop] at h
    split at h
    · simp at h
    · rename_i job ack hpc
      simp only [Option.some.injEq] at h; subst h
      simp only [slotsHeld, hpc, LoopPc.holdsSlot] at hc
      refine ⟨?_, hsz, ?_⟩ <;>
        simp only [slotsHeld, runJob, stepClose, List.append_nil, Nat.add_zero, List.map_append,
            List.sum_append, List.map_cons, List.map_nil, List.sum_cons, List.sum_nil,
            GoPc.holdsSlot, LoopPc.holdsSlot, RunfPc.holdsSlot, JobQueue.EnQueue,
            JobQueue.Close] at * <;>
        first | assumption | omega
    · rename_i job ack v hpc
      split at h
      · rename_i hge
        simp only [Option.some.injEq] at h; subst h
        simp only [slotsHeld, hpc, LoopPc.holdsSlot] at hc
        refine ⟨?_, hsz, ?_⟩ <;>
          simp only [slotsHeld, runJob, stepClose, List.append_nil, Nat.add_zero, List.map_append,
              List.sum_append, List.map_cons, List.map_nil, List.sum_cons, List.sum_nil,
              GoPc.holdsSlot, LoopPc.holdsSlot, RunfPc.holdsSlot, JobQueue.EnQueue,
              JobQueue.Close] at * <;>
          first | assumption | omega
      · rename_i hlt
        split at h
        · rename_i hcas
          simp only [Option.some.injEq] at h; subst h
          simp only [slotsHeld, hpc, LoopPc.holdsSlot] at hc
          have h0 : 0 ≤ v := by rw [← hcas, hc]; positivity
          have hw : wrap64 (v + 1) = v + 1 := wrap64_eq _ (by omega) (by omega)
          rw [hw]
          refine ⟨?_, hsz, ?_⟩ <;>
            simp only [slotsHeld, runJob, stepClose, List.append_nil, Nat.add_zero,
                List.map_append, List.sum_append, List.map_cons, List.map_nil, List.sum_cons,
                List.sum_nil, GoPc.holdsSlot, LoopPc.holdsSlot, RunfPc.holdsSlot, JobQueue.EnQueue,
                JobQueue.Close] at * <;>
            first | assumption | omega
        · rename_i hne
          simp only [Option.some.injEq] at h; subst h
          simp only [slotsHeld, hpc, LoopPc.holdsSlot] at hc
          refine ⟨?_, hsz, ?_⟩ <;>
            simp only [slotsHeld, runJob, stepClose, List.append_nil, Nat.add_zero,
                List.map_append, List.sum_append, List.map_cons, List.map_nil, List.sum_cons,
                List.sum_nil, GoPc.holdsSlot, LoopPc.holdsSlot, RunfPc.holdsSlot, JobQueue.EnQueue,
                JobQueue.Close] at * <;>
            first | assumption | omega
    · rename_i job ack hpc
      simp only [Option.some.injEq] at h; subst h
      simp only [slotsHeld, hpc, LoopPc.holdsSlot] at hc
      refine ⟨?_, hsz, ?_⟩ <;>
        simp only [slotsHeld, runJob, stepClose, List.append_nil, Nat.add_zero, List.map_append,
            List.sum_append, List.map_cons, List.map_nil, List.sum_cons, List.sum_nil,
            GoPc.holdsSlot, LoopPc.holdsSlot, RunfPc.holdsSlot, JobQueue.EnQueue,
            JobQueue.Close] at * <;>
        first | assumption | omega
    · rename_i job ack hpc
      cases ack with
      | some a =>
        simp only [Option.some.injEq] at h; subst h
        simp only [slotsHeld, hpc, LoopPc.holdsSlot] at hc
        refine ⟨?_, hsz, ?_⟩ <;>
          simp only [slotsHeld, runJob, stepClose, List.append_nil, Nat.add_zero, List.map_append,
              List.sum_append, List.map_cons, List.map_nil, List.sum_cons, List.sum_nil,
              GoPc.holdsSlot, LoopPc.holdsSlot, RunfPc.holdsSlot, JobQueue.EnQueue,
              JobQueue.Close] at * <;>
          first | assumption | omega
      | none =>
        simp only [Option.some.injEq] at h; subst h
        simp only [slotsHeld, hpc, LoopPc.holdsSlot] at hc
        refine ⟨?_, hsz, ?_⟩ <;>
          simp only [slotsHeld, runJob, stepClose, List.append_nil, Nat.add_zero, List.map_append,
              List.sum_append, List.map_cons, List.map_nil, List.sum_cons, List.sum_nil,
              GoPc.holdsSlot, LoopPc.holdsSlot, RunfPc.holdsSlot, JobQueue.EnQueue,
              JobQueue.Close] at * <;>
          first | assumption | omega
    · simp at h
  | go g =>
    simp only [stepGo] at h
    split at h
    · rename_i job hget
      simp only [Option.some.injEq] at h; subst h
      have hs := sum_map_set GoPc.holdsSlot s.gos g (GoPc.atRecover (decide (job.f job.ctx job.args = Outcome.panicked))) _ hget
      refine ⟨?_, hsz, ?_⟩ <;>
        simp only [slotsHeld, runJob, stepClose, List.append_nil, Nat.add_zero, List.map_append,
            List.sum_append, List.map_cons, List.map_nil, List.sum_cons, List.sum_nil,
            GoPc.holdsSlot, LoopPc.holdsSlot, RunfPc.holdsSlot, JobQueue.EnQueue,
            JobQueue.Close] at * <;>
        first | assumption | omega
    · rename_i p hget
      split at h
      · rename_i hout
        simp only [Option.some.injEq] at h; subst h
        have hs := sum_map_set GoPc.holdsSlot s.gos g (GoPc.atDone (s.recoverFunc.call p)) _ hget
        refine ⟨?_, hsz, ?_⟩ <;>
          simp only [slotsHeld, runJob, stepClose, List.append_nil, Nat.add_zero, List.map_append,
              List.sum_append, List.map_cons, List.map_nil, List.sum_cons, List.sum_nil,
              GoPc.holdsSlot, LoopPc.holdsSlot, RunfPc.holdsSlot, JobQueue.EnQueue,
              JobQueue.Close] at * <;>
          first | assumption | omega
      · rename_i hout
        simp only [Option.some.injEq] at h; subst h
        have hs := sum_map_set GoPc.holdsSlot s.gos g GoPc.inGuard _ hget
        refine ⟨?_, hsz, ?_⟩ <;>
          simp only [slotsHeld, runJob, stepClose, List.append_nil, Nat.add_zero, List.map_append,
              List.sum_append, List.map_cons, List.map_nil, List.sum_cons, List.sum_nil,
              GoPc.holdsSlot, LoopPc.holdsSlot, RunfPc.holdsSlot, JobQueue.EnQueue,
              JobQueue.Close] at * <;>
          first | assumption | omega
      · rename_i hout
        simp only [Option.some.injEq] at h; subst h
        have hs := sum_map_set GoPc.holdsSlot s.gos g GoPc.inGuard _ hget
        refine ⟨?_, hsz, ?_⟩ <;>
          simp only [slotsHeld, runJob, stepClose, List.append_nil, Nat.add_zero, List.map_append,
              List.sum_append, List.map_cons, List.map_nil, List.sum_cons, List.sum_nil,
              GoPc.holdsSlot, LoopPc.holdsSlot, RunfPc.holdsSlot, JobQueue.EnQueue,
              JobQueue.Close] at * <;>
          first | assumption | omega
    · rename_i p hget
      split at h
      · rename_i hneg
        simp only [Option.some.injEq] at h; subst h
        have hs := sum_map_set GoPc.holdsSlot s.gos g (GoPc.atAdd p) _ hget
        refine ⟨?_, hsz, ?_⟩ <;>
          simp only [slotsHeld, runJob, stepClose, List.append_nil, Nat.add_zero, List.map_append,
              List.sum_append, List.map_cons, List.map_nil, List.sum_cons, List.sum_nil,
              GoPc.holdsSlot, LoopPc.holdsSlot, RunfPc.holdsSlot, JobQueue.EnQueue,
              JobQueue.Close] at * <;>
          first | assumption | omega
      · rename_i hok
        simp only [Option.some.injEq] at h; subst h
        have hs := sum_map_set GoPc.holdsSlot s.gos g (GoPc.atAdd p) _ hget
        refine ⟨?_, hsz, ?_⟩ <;>
          simp only [slotsHeld, runJob, stepClose, List.append_nil, Nat.add_zero, List.map_append,
              List.sum_append, List.map_cons, List.map_nil, List.sum_cons, List.sum_nil,
              GoPc.holdsSlot, LoopPc.holdsSlot, RunfPc.holdsSlot, JobQueue.EnQueue,
              JobQueue.Close] at * <;>
          first | assumption | omega
    · rename_i p hget
      simp only [Option.some.injEq] at h; subst h
      have hs := sum_map_set GoPc.holdsSlot s.gos g (GoPc.atExit p) _ hget
      simp only [GoPc.holdsSlot] at hs
      have hw : wrap64 (s.count - 1) = s.count - 1 := by
        apply wrap64_eq
        · rw [hc]; simp only [slotsHeld]; omega
        · omega
      rw [hw]
      refine ⟨?_, hsz, ?_⟩ <;>
        simp only [slotsHeld, runJob, stepClose, List.append_nil, Nat.add_zero, List.map_append,
            List.sum_append, List.map_cons, List.map_nil, List.sum_cons, List.sum_nil,
            GoPc.holdsSlot, LoopPc.holdsSlot, RunfPc.holdsSlot, JobQueue.EnQueue,
            JobQueue.Close] at * <;>
        first | assumption | omega
    · rename_i p hget
      split at h
      · rename_i hp
        simp only [Option.some.injEq] at h; subst h
        have hs := sum_map_set GoPc.holdsSlot s.gos g GoPc.exited _ hget
        refine ⟨?_, hsz, ?_⟩ <;>
          simp only [slotsHeld, runJob, stepClose, List.append_nil, Nat.add_zero, List.map_append,
              List.sum_append, List.map_cons, List.map_nil, List.sum_cons, List.sum_nil,
              GoPc.holdsSlot, LoopPc.holdsSlot, RunfPc.holdsSlot, JobQueue.EnQueue,
              JobQueue.Close] at * <;>
          first | assumption | omega
      · rename_i hp
        simp only [Option.some.injEq] at h; subst h
        have hs := sum_map_set GoPc.holdsSlot s.gos g GoPc.exited _ hget
        refine ⟨?_, hsz, ?_⟩ <;>
          simp only [slotsHeld, runJob, stepClose, List.append_nil, Nat.add_zero, List.map_append,
              List.sum_append, List.map_cons, List.map_nil, List.sum_cons, List.sum_nil,
              GoPc.holdsSlot, LoopPc.holdsSlot, RunfPc.holdsSlot, JobQueue.EnQueue,
              JobQueue.Close] at * <;>
          first | assumption | omega
    · simp at h
    · simp at h
    · simp at h
  | Close =>
    simp only [Option.some.injEq] at h; subst h
    refine ⟨?_, hsz, ?_⟩ <;>
      simp only [slotsHeld, runJob, stepClose, List.append_nil, Nat.add_zero, List.map_append,
          List.sum_append, List.map_cons, List.map_nil, List.sum_cons, List.sum_nil,
          GoPc.holdsSlot, LoopPc.holdsSlot, RunfPc.holdsSlot, JobQueue.EnQueue,
          JobQueue.Close] at * <;>
      first | assumption | omega
  | wait =>
    simp only [stepWait] at h
    split at h
    · rename_i hcl
      split at h
      · rename_i hz
        simp only [Option.some.injEq] at h; subst h
        refine ⟨?_, hsz, ?_⟩ <;>
          simp only [slotsHeld, runJob, stepClose, List.append_nil, Nat.add_zero, List.map_append,
              List.sum_append, List.map_cons, List.map_nil, List.sum_cons, List.sum_nil,
              GoPc.holdsSlot, LoopPc.holdsSlot, RunfPc.holdsSlot, JobQueue.EnQueue,
              JobQueue.Close] at * <;>
          first | assumption | omega
      · rename_i hnz
        simp only [Option.some.injEq] at h; subst h
        refine ⟨?_, hsz, ?_⟩ <;>
          simp only [slotsHeld, runJob, stepClose, List.append_nil, Nat.add_zero, List.map_append,
              List.sum_append, List.map_cons, List.map_nil, List.sum_cons, List.sum_nil,
              GoPc.holdsSlot, LoopPc.holdsSlot, RunfPc.holdsSlot, JobQueue.EnQueue,
              JobQueue.Close] at * <;>
          first | assumption | omega
    · simp at h
  | waitReturn =>
    simp only [stepWaitReturn] at h
    split at h
    · rename_i hrel
      simp only [Option.some.injEq] at h; subst h
      refine ⟨?_, hsz, ?_⟩ <;>
        simp only [slotsHeld, runJob, stepClose, List.append_nil, Nat.add_zero, List.map_append,
            List.sum_append, List.map_cons, List.map_nil, List.sum_cons, List.sum_nil,
            GoPc.holdsSlot, LoopPc.holdsSlot, RunfPc.holdsSlot, JobQueue.EnQueue,
            JobQueue.Close] at * <;>
        first | assumption | omega
    · simp at h

theorem slotInv_exec (acts : List Action) (s s1 : State)
    (inv : SlotInv s) (h : exec s acts = some s1) : SlotInv s1 := by
  induction acts generalizing s with
  | nil =>
    simp only [exec, Option.some.injEq] at h
    exact h ▸ inv
  | cons a rest ih =>
    simp only [exec] at h
    split at h
    · rename_i s2 hs2
      exact ih s2 (slotInv_step s s2 a inv hs2) h
    · simp at h

/-! ## What each recorded statement does -/

/-- A step appends at most one event, and the event tells what the step did to
the counters, the queue, the goroutines and the loop. -/
theorem step_effect (s s1 : State) (a : Action) (h : step s a = some s1) :
    (s1.trace = s.trace ∨ ∃ e, s1.trace = s.trace ++ [e])
    ∧ (s1.trace = s.trace →
        s1.wg = s.wg ∧ s1.count = s.count ∧ s1.jobs = s.jobs
          ∧ s1.gos.length = s.gos.length)
    ∧ (∀ job, s1.trace = s.trace ++ [Event.wgAdd job] →
        s1.wg = wrap32 (s.wg + 1) ∧ 0 ≤ s1.wg ∧ s1.count = s.count ∧ s1.jobs = s.jobs
          ∧ s1.gos = s.gos)
    ∧ (s1.trace = s.trace ++ [Event.wgNegative] →
        s1.wg = wrap32 (s.wg + 1) ∧ s1.wg < 0 ∧ s1.count = s.count ∧ s1.jobs = s.jobs
          ∧ s1.gos = s.gos)
    ∧ (∀ job, s1.trace = s.trace ++ [Event.enQueue job] →
        s1.jobs = s.jobs.EnQueue job ∧ s1.wg = s.wg ∧ s1.count = s.count ∧ s1.gos = s.gos)
    ∧ (∀ w v, s1.trace = s.trace ++ [Event.cas w v] →
        s.count = v ∧ v < s.size ∧ s1.count = wrap64 (v + 1) ∧ s1.wg = s.wg
          ∧ s1.jobs = s.jobs ∧ s1.gos = s.gos)
    ∧ (∀ w job, s1.trace = s.trace ++ [Event.runJob w job] →
        s1.gos = s.gos ++ [GoPc.atCall job] ∧ s1.wg = s.wg ∧ s1.count = s.count
          ∧ s1.jobs = s.jobs)
    ∧ (∀ job ack, s1.trace = s.trace ++ [Event.deQueue job ack] →
        s.loop = LoopPc.atDeQueue ∧ s1.loop = LoopPc.atLoad job ack ∧ s1.wg = s.wg
          ∧ s1.count = s.count ∧ s1.gos = s.gos)
    ∧ (s1.trace = s.trace ++ [Event.deQueueClosed] →
        s.loop = LoopPc.atDeQueue ∧ s1.loop = LoopPc.returned ∧ s1.wg = s.wg
          ∧ s1.count = s.count ∧ s1.gos = s.gos ∧ s1.jobs = s.jobs)
    ∧ (∀ a1, s1.trace = s.trace ++ [Event.ack a1] →
        (∃ job, s.loop = LoopPc.atAck job (some a1)) ∧ s1.loop = LoopPc.atDeQueue
          ∧ s1.wg = s.wg ∧ s1.count = s.count ∧ s1.gos = s.gos ∧ s1.jobs = s.jobs)
    ∧ (∀ g, s1.trace = s.trace ++ [Event.recoverFunc g] →
        (∃ p, s.gos[g]? = some (GoPc.atRecover p)) ∧ s1.wg = s.wg ∧ s1.count = s.count
          ∧ s1.jobs = s.jobs)
    ∧ (∀ g, s1.trace = s.trace ++ [Event.wgDone g] →
        (∃ p, s.gos[g]? = some (GoPc.atDone p)) ∧ s1.wg = wrap32 (s.wg - 1)
          ∧ s1.count = s.count ∧ s1.jobs = s.jobs)
    ∧ (∀ g, s1.trace = s.trace ++ [Event.countAdd g] →
        (∃ p, s.gos[g]? = some (GoPc.atAdd p)) ∧ s1.count = wrap64 (s.count - 1)
          ∧ s1.wg = s.wg ∧ s1.jobs = s.jobs) := by
  unfold step at h
  split at h
  · simp at h
  rename_i hcr
  cases a with
  | Runf ctx task args =>
    simp only [Option.some.injEq, enterRunf] at h
    split at h
    · rename_i hneg
      subst h
      refine ⟨by right; exact ⟨_, rfl⟩, ?_, ?_, ?_, ?_, ?_, ?_, ?_, ?_, ?_, ?_, ?_, ?_⟩ <;>
        intros <;> simp_all [runJob, stepClose, JobQueue.Close]
    · rename_i hok
      subst h
      refine ⟨by right; exact ⟨_, rfl⟩, ?_, ?_, ?_, ?_, ?_, ?_, ?_, ?_, ?_, ?_, ?_, ?_⟩ <;>
        intros <;> simp_all [runJob, stepClose, JobQueue.Close]
  | Run ctx task =>
    simp only [Option.some.injEq, enterRun, enterRunf] at h
    split at h
    · rename_i hneg
      subst h
      refine ⟨by right; exact ⟨_, rfl⟩, ?_, ?_, ?_, ?_, ?_, ?_, ?_, ?_, ?_, ?_, ?_, ?_⟩ <;>
        intros <;> simp_all [runJob, stepClose, JobQueue.Close]
    · rename_i hok
      subst h
      refine ⟨by right; exact ⟨_, rfl⟩, ?_, ?_, ?_, ?_, ?_, ?_, ?_, ?_, ?_, ?_, ?_, ?_⟩ <;>
        intros <;> simp_all [runJob, stepClose, JobQueue.Close]
  | runf i =>
    simp only [stepRunf] at h
    split at h
    · rename_i job hget
      simp only [Option.some.injEq] at h; subst h
      refine ⟨by left; rfl, ?_, ?_, ?_, ?_, ?_, ?_, ?_, ?_, ?_, ?_, ?_, ?_⟩ <;>
        intros <;> simp_all [runJob, stepClose, JobQueue.Close]
    · rename_i job v hget
      split at h
      · rename_i hge
        simp only [Option.some.injEq] at h; subst h
        refine ⟨by right; exact ⟨_, rfl⟩, ?_, ?_, ?_, ?_, ?_, ?_, ?_, ?_, ?_, ?_, ?_, ?_⟩ <;>
          intros <;> simp_all [runJob, stepClose, JobQueue.Close]
      · rename_i hlt
        split at h
        · rename_i hcas
          simp only [Option.some.injEq] at h; subst h
          refine ⟨by right; exact ⟨_, rfl⟩, ?_, ?_, ?_, ?_, ?_, ?_, ?_, ?_, ?_, ?_, ?_, ?_⟩ <;>
            intros <;> simp_all [runJob, stepClose, JobQueue.Close]
        · rename_i hne
          simp only [Option.some.injEq] at h; subst h
          refine ⟨by left; rfl, ?_, ?_, ?_, ?_, ?_, ?_, ?_, ?_, ?_, ?_, ?_, ?_⟩ <;>
            intros <;> simp_all [runJob, stepClose, JobQueue.Close]
    · rename_i job hget
      simp only [Option.some.injEq] at h; subst h
      refine ⟨by right; exact ⟨_, rfl⟩, ?_, ?_, ?_, ?_, ?_, ?_, ?_, ?_, ?_, ?_, ?_, ?_⟩ <;>
        intros <;> simp_all [runJob, stepClose, JobQueue.Close]
    · simp at h
    · simp at h
    · simp at h
  | deQueue k ack =>
    simp only [stepDeQueue] at h
    split at h
    · rename_i hpc
      split at h
      · rename_i job q heq
        simp only [Option.some.injEq] at h; subst h
        refine ⟨by right; exact ⟨_, rfl⟩, ?_, ?_, ?_, ?_, ?_, ?_, ?_, ?_, ?_, ?_, ?_, ?_⟩ <;>
          intros <;> simp_all [runJob, stepClose, JobQueue.Close]
      · simp at h
    · simp at h
  | deQueueOther job ack =>
    simp only [stepDeQueueOther] at h
    split at h
    · rename_i hpc
      simp only [Option.some.injEq] at h; subst h
      refine ⟨by right; exact ⟨_, rfl⟩, ?_, ?_, ?_, ?_, ?_, ?_, ?_, ?_, ?_, ?_, ?_, ?_⟩ <;>
        intros <;> simp_all [runJob, stepClose, JobQueue.Close]
    · simp at h
  | deQueueClosed =>
    simp only [stepDeQueueClosed] at h
    split at h
    · rename_i hpc
      simp only [Option.some.injEq] at h; subst h
      refine ⟨by right; exact ⟨_, rfl⟩, ?_, ?_, ?_, ?_, ?_, ?_, ?_, ?_, ?_, ?_, ?_, ?_⟩ <;>
        intros <;> simp_all [runJob, stepClose, JobQueue.Close]
    · simp at h
  | loop =>
    simp only [stepLoop] at h
    split at h
    · simp at h
    · rename_i job ack hpc
      simp only [Option.some.injEq] at h; subst h
      refine ⟨by left; rfl, ?_, ?_, ?_, ?_, ?_, ?_, ?_, ?_, ?_, ?_, ?_, ?_⟩ <;>
        intros <;> simp_all [runJob, stepClose, JobQueue.Close]
    · rename_i job ack v hpc
      split at h
      · rename_i hge
        simp only [Option.some.injEq] at h; subst h
        refine ⟨by left; rfl, ?_, ?_, ?_, ?_, ?_, ?_, ?_, ?_, ?_, ?_, ?_, ?_⟩ <;>
          intros <;> simp_all [runJob, stepClose, JobQueue.Close]
      · rename_i hlt
        split at h
        · rename_i hcas
          simp only [Option.some.injEq] at h; subst h
          refine ⟨by right; exact ⟨_, rfl⟩, ?_, ?_, ?_, ?_, ?_, ?_, ?_, ?_, ?_, ?_, ?_, ?_⟩ <;>
            intros <;> simp_all [runJob, stepClose, JobQueue.Close]
        · rename_i hne
          simp only [Option.some.injEq] at h; subst h
          refine ⟨by left; rfl, ?_, ?_, ?_, ?_, ?_, ?_, ?_, ?_, ?_, ?_, ?_, ?_⟩ <;>
            intros <;> simp_all [runJob, stepClose, JobQueue.Close]
    · rename_i job ack hpc
      simp only [Option.some.injEq] at h; subst h
      refine ⟨by right; exact ⟨_, rfl⟩, ?_, ?_, ?_, ?_, ?_, ?_, ?_, ?_, ?_, ?_, ?_, ?_⟩ <;>
        intros <;> simp_all [runJob, stepClose, JobQueue.Close]
    · rename_i job ack hpc
      cases ack with
      | some a =>
        simp only [Option.some.injEq] at h; subst h
        refine ⟨by right; exact ⟨_, rfl⟩, ?_, ?_, ?_, ?_, ?_, ?_, ?_, ?_, ?_, ?_, ?_, ?_⟩ <;>
          intros <;> simp_all [runJob, stepClose, JobQueue.Close]
      | none =>
        simp only [Option.some.injEq] at h; subst h
        refine ⟨by left; rfl, ?_, ?_, ?_, ?_, ?_, ?_, ?_, ?_, ?_, ?_, ?_, ?_⟩ <;>
          intros <;> simp_all [runJob, stepClose, JobQueue.Close]
    · simp at h
  | go g =>
    simp only [stepGo] at h
    split at h
    · rename_i job hget
      simp only [Option.some.injEq] at h; subst h
      refine ⟨by left; rfl, ?_, ?_, ?_, ?_, ?_, ?_, ?_, ?_, ?_, ?_, ?_, ?_⟩ <;>
        intros <;> simp_all [runJob, stepClose, JobQueue.Close]
    · rename_i p hget
      split at h
      · rename_i hout
        simp only [Option.some.injEq] at h; subst h
        refine ⟨by right; exact ⟨_, rfl⟩, ?_, ?_, ?_, ?_, ?_, ?_, ?_, ?_, ?_, ?_, ?_, ?_⟩ <;>
          intros <;> simp_all [runJob, stepClose, JobQueue.Close]
      · rename_i hout
        simp only [Option.some.injEq] at h; subst h
        refine ⟨by right; exact ⟨_, rfl⟩, ?_, ?_, ?_, ?_, ?_, ?_, ?_, ?_, ?_, ?_, ?_, ?_⟩ <;>
          intros <;> simp_all [runJob, stepClose, JobQueue.Close]
      · rename_i hout
        simp only [Option.some.injEq] at h; subst h
        refine ⟨by right; exact ⟨_, rfl⟩, ?_, ?_, ?_, ?_, ?_, ?_, ?_, ?_, ?_, ?_, ?_, ?_⟩ <;>
          intros <;> simp_all [runJob, stepClose, JobQueue.Close]
    · rename_i p hget
      split at h
      · rename_i hneg
        simp only [Option.some.injEq] at h; subst h
        refine ⟨by right; exact ⟨_, rfl⟩, ?_, ?_, ?_, ?_, ?_, ?_, ?_, ?_, ?_, ?_, ?_, ?_⟩ <;>
          intros <;> simp_all [runJob, stepClose, JobQueue.Close]
      · rename_i hok
        simp only [Option.some.injEq] at h; subst h
        refine ⟨by right; exact ⟨_, rfl⟩, ?_, ?_, ?_, ?_, ?_, ?_, ?_, ?_, ?_, ?_, ?_, ?_⟩ <;>
          intros <;> simp_all [runJob, stepClose, JobQueue.Close]
    · rename_i p hget
      simp only [Option.some.injEq] at h; subst h
      refine ⟨by right; exact ⟨_, rfl⟩, ?_, ?_, ?_, ?_, ?_, ?_, ?_, ?_, ?_, ?_, ?_, ?_⟩ <;>
        intros <;> simp_all [runJob, stepClose, JobQueue.Close]
    · rename_i p hget
      split at h
      · rename_i hp
        simp only [Option.some.injEq] at h; subst h
        refine ⟨by right; exact ⟨_, rfl⟩, ?_, ?_, ?_, ?_, ?_, ?_, ?_, ?_, ?_, ?_, ?_, ?_⟩ <;>
          intros <;> simp_all [runJob, stepClose, JobQueue.Close]
      · rename_i hp
        simp only [Option.some.injEq] at h; subst h
        refine ⟨by left; rfl, ?_, ?_, ?_, ?_, ?_, ?_, ?_, ?_, ?_, ?_, ?_, ?_⟩ <;>
          intros <;> simp_all [runJob, stepClose, JobQueue.Close]
    · simp at h
    · simp at h
    · simp at h
  | Close =>
    simp only [Option.some.injEq] at h; subst h
    refine ⟨by right; exact ⟨_, rfl⟩, ?_, ?_, ?_, ?_, ?_, ?_, ?_, ?_, ?_, ?_, ?_, ?_⟩ <;>
      intros <;> simp_all [runJob, stepClose, JobQueue.Close]
  | wait =>
    simp only [stepWait] at h
    split at h
    · rename_i hcl
      split at h
      · rename_i hz
        simp only [Option.some.injEq] at h; subst h
        refine ⟨by right; exact ⟨_, rfl⟩, ?_, ?_, ?_, ?_, ?_, ?_, ?_, ?_, ?_, ?_, ?_, ?_⟩ <;>
          intros <;> simp_all [runJob, stepClose, JobQueue.Close]
      · rename_i hnz
        simp only [Option.some.injEq] at h; subst h
        refine ⟨by left; rfl, ?_, ?_, ?_, ?_, ?_, ?_, ?_, ?_, ?_, ?_, ?_, ?_⟩ <;>
          intros <;> simp_all [runJob, stepClose, JobQueue.Close]
    · simp at h
  | waitReturn =>
    simp only [stepWaitReturn] at h
    split at h
    · rename_i hrel
      simp only [Option.some.injEq] at h; subst h
      refine ⟨by right; exact ⟨_, rfl⟩, ?_, ?_, ?_, ?_, ?_, ?_, ?_, ?_, ?_, ?_, ?_, ?_⟩ <;>
        intros <;> simp_all [runJob, stepClose, JobQueue.Close]
    · simp at h

/-! ## The in-flight invariant -/

theorem wgInv_fresh (N : Int) : WgInv (fresh N) := by
  constructor
  · simp [fresh, New, applyOptions, withSize, unfinishedJobs, LoopPc.holdsJob, newJobChan]
  · show (0 : Int) < 2 ^ 31
    decide

theorem wgInv_step (s s1 : State) (a : Action)
    (inv : WgInv s) (h : step s a = some s1) (hfs : a.fromStore = true)
    (hno : wgOverflowed s1.trace = false) : WgInv s1 := by
  obtain ⟨hw, hb⟩ := inv
  unfold step at h
  split at h
  · simp at h
  rename_i hcr
  cases a with
  | Runf ctx task args =>
    simp only [Option.some.injEq, enterRunf] at h
    split at h
    · rename_i hneg
      subst h
      simp [wgOverflowed_append, Event.isWgNegative] at hno
    · rename_i hok
      subst h
      have h0 : 0 ≤ s.wg := by rw [hw]; positivity
      have hlt : s.wg + 1 < 2 ^ 31 := by
        unfold wrap32 at hok
        omega
      have hwr : wrap32 (s.wg + 1) = s.wg + 1 := wrap32_eq _ (by omega) hlt
      rw [hwr]
      refine ⟨?_, ?_⟩ <;>
        simp only [unfinishedJobs, runJob, stepClose, List.append_nil, Nat.add_zero,
            List.map_append, List.sum_append, List.map_cons, List.map_nil, List.sum_cons,
            List.sum_nil, List.length_append, List.length_cons, List.length_nil, GoPc.unfinished,
            LoopPc.holdsJob, RunfPc.unplaced, JobQueue.EnQueue, JobQueue.Close] at * <;>
        first | assumption | omega
  | Run ctx task =>
    simp only [Option.some.injEq, enterRun, enterRunf] at h
    split at h
    · rename_i hneg
      subst h
      simp [wgOverflowed_append, Event.isWgNegative] at hno
    · rename_i hok
      subst h
      have h0 : 0 ≤ s.wg := by rw [hw]; positivity
      have hlt : s.wg + 1 < 2 ^ 31 := by
        unfold wrap32 at hok
        omega
      have hwr : wrap32 (s.wg + 1) = s.wg + 1 := wrap32_eq _ (by omega) hlt
      rw [hwr]
      refine ⟨?_, ?_⟩ <;>
        simp only [unfinishedJobs, runJob, stepClose, List.append_nil, Nat.add_zero,
            List.map_append, List.sum_append, List.map_cons, List.map_nil, List.sum_cons,
            List.sum_nil, List.length_append, List.length_cons, List.length_nil, GoPc.unfinished,
            LoopPc.holdsJob, RunfPc.unplaced, JobQueue.EnQueue, JobQueue.Close] at * <;>
        first | assumption | omega
  | runf i =>
    simp only [stepRunf] at h
    split at h
    · rename_i job hget
      simp only [Option.some.injEq] at h; subst h
      have hs := sum_map_set RunfPc.unplaced s.runfs i (RunfPc.atCheck job s.count) _ hget
      refine ⟨?_, ?_⟩ <;>
        simp only [unfinishedJobs, runJob, stepClose, List.append_nil, Nat.add_zero,
            List.map_append, List.sum_append, List.map_cons, List.map_nil, List.sum_cons,
            List.sum_nil, List.length_append, List.length_cons, List.length_nil, GoPc.unfinished,
            LoopPc.holdsJob, RunfPc.unplaced, JobQueue.EnQueue, JobQueue.Close] at * <;>
        first | assumption | omega
    · rename_i job v hget
      split at h
      · rename_i hge
        simp only [Option.some.injEq] at h; subst h
        have hs := sum_map_set RunfPc.unplaced s.runfs i RunfPc.returned _ hget
        refine ⟨?_, ?_⟩ <;>
          simp only [unfinishedJobs, runJob, stepClose, List.append_nil, Nat.add_zero,
              List.map_append, List.sum_append, List.map_cons, List.map_nil, List.sum_cons,
              List.sum_nil, List.length_append, List.length_cons, List.length_nil, GoPc.unfinished,
              LoopPc.holdsJob, RunfPc.unplaced, JobQueue.EnQueue, JobQueue.Close] at * <;>
          first | assumption | omega
      · rename_i hlt
        split at h
        · rename_i hcas
          simp only [Option.some.injEq] at h; subst h
          have hs := sum_map_set RunfPc.unplaced s.runfs i (RunfPc.atRunJob job) _ hget
          refine ⟨?_, ?_⟩ <;>
            simp only [unfinishedJobs, runJob, stepClose, List.append_nil, Nat.add_zero,
                List.map_append, List.sum_append, List.map_cons, List.map_nil, List.sum_cons,
                List.sum_nil, List.length_append, List.length_cons, List.length_nil,
                GoPc.unfinished, LoopPc.holdsJob, RunfPc.unplaced, JobQueue.EnQueue,
                JobQueue.Close] at * <;>
            first | assumption | omega
        · rename_i hne
          simp only [Option.some.injEq] at h; subst h
          have hs := sum_map_set RunfPc.unplaced s.runfs i (RunfPc.atLoad job) _ hget
          refine ⟨?_, ?_⟩ <;>
            simp only [unfinishedJobs, runJob, stepClose, List.append_nil, Nat.add_zero,
                List.map_append, List.sum_append, List.map_cons, List.map_nil, List.sum_cons,
                List.sum_nil, List.length_append, List.length_cons, List.length_nil,
                GoPc.unfinished, LoopPc.holdsJob, RunfPc.unplaced, JobQueue.EnQueue,
                JobQueue.Close] at * <;>
            first | assumption | omega
    · rename_i job hget
      simp only [Option.some.injEq] at h; subst h
      have hs := sum_map_set RunfPc.unplaced s.runfs i RunfPc.returned _ hget
      refine ⟨?_, ?_⟩ <;>
        simp only [unfinishedJobs, runJob, stepClose, List.append_nil, Nat.add_zero,
            List.map_append, List.sum_append, List.map_cons, List.map_nil, List.sum_cons,
            List.sum_nil, List.length_append, List.length_cons, List.length_nil, GoPc.unfinished,
            LoopPc.holdsJob, RunfPc.unplaced, JobQueue.EnQueue, JobQueue.Close] at * <;>
        first | assumption | omega
    · simp at h
    · simp at h
    · simp at h
  | deQueue k ack =>
    simp only [stepDeQueue] at h
    split at h
    · rename_i hpc
      split at h
      · rename_i job q heq
        simp only [Option.some.injEq] at h; subst h
        simp only [unfinishedJobs, hpc, LoopPc.holdsJob] at hw
        obtain ⟨hq1, hq2, hq3⟩ := deQueue_some _ _ _ _ heq
        have hlen := length_eraseIdx_add_one _ _ _ hq1
        rw [← hq2] at hlen
        refine ⟨?_, ?_⟩ <;>
          simp only [unfinishedJobs, runJob, stepClose, List.append_nil, Nat.add_zero,
              List.map_append, List.sum_append, List.map_cons, List.map_nil, List.sum_cons,
              List.sum_nil, List.length_append, List.length_cons, List.length_nil, GoPc.unfinished,
              LoopPc.holdsJob, RunfPc.unplaced, JobQueue.EnQueue, JobQueue.Close] at * <;>
          first | assumption | omega
      · simp at h
    · simp at h
  | deQueueOther job ack =>
    simp only [stepDeQueueOther] at h
    split at h
    · rename_i hpc
      simp only [Option.some.injEq] at h; subst h
      simp [Action.fromStore] at hfs
    · simp at h
  | deQueueClosed =>
    simp only [stepDeQueueClosed] at h
    split at h
    · rename_i hpc
      simp only [Option.some.injEq] at h; subst h
      simp only [unfinishedJobs, hpc, LoopPc.holdsJob] at hw
      refine ⟨?_, ?_⟩ <;>
        simp only [unfinishedJobs, runJob, stepClose, List.append_nil, Nat.add_zero,
            List.map_append, List.sum_append, List.map_cons, List.map_nil, List.sum_cons,
            List.sum_nil, List.length_append, List.length_cons, List.length_nil, GoPc.unfinished,
            LoopPc.holdsJob, RunfPc.unplaced, JobQueue.EnQueue, JobQueue.Close] at * <;>
        first | assumption | omega
    · simp at h
  | loop =>
    simp only [stepLoop] at h
    split at h
    · simp at h
    · rename_i job ack hpc
      simp only [Option.some.injEq] at h; subst h
      simp only [unfinishedJobs, hpc, LoopPc.holdsJob] at hw
      refine ⟨?_, ?_⟩ <;>
        simp only [unfinishedJobs, runJob, stepClose, List.append_nil, Nat.add_zero,
            List.map_append, List.sum_append, List.map_cons, List.map_nil, List.sum_cons,
            List.sum_nil, List.length_append, List.length_cons, List.length_nil, GoPc.unfinished,
            LoopPc.holdsJob, RunfPc.unplaced, JobQueue.EnQueue, JobQueue.Close] at * <;>
        first | assumption | omega
    · rename_i job ack v hpc
      split at h
      · rename_i hge
        simp only [Option.some.injEq] at h; subst h
        simp only [unfinishedJobs, hpc, LoopPc.holdsJob] at hw
        refine ⟨?_, ?_⟩ <;>
          simp only [unfinishedJobs, runJob, stepClose, List.append_nil, Nat.add_zero,
              List.map_append, List.sum_append, List.map_cons, List.map_nil, List.sum_cons,
              List.sum_nil, List.length_append, List.length_cons, List.length_nil, GoPc.unfinished,
              LoopPc.holdsJob, RunfPc.unplaced, JobQueue.EnQueue, JobQueue.Close] at * <;>
          first | assumption | omega
      · rename_i hlt
        split at h
        · rename_i hcas
          simp only [Option.some.injEq] at h; subst h
          simp only [unfinishedJobs, hpc, LoopPc.holdsJob] at hw
          refine ⟨?_, ?_⟩ <;>
            simp only [unfinishedJobs, runJob, stepClose, List.append_nil, Nat.add_zero,
                List.map_append, List.sum_append, List.map_cons, List.map_nil, List.sum_cons,
                List.sum_nil, List.length_append, List.length_cons, List.length_nil,
                GoPc.unfinished, LoopPc.holdsJob, RunfPc.unplaced, JobQueue.EnQueue,
                JobQueue.Close] at * <;>
            first | assumption | omega
        · rename_i hne
          simp only [Option.some.injEq] at h; subst h
          simp only [unfinishedJobs, hpc, LoopPc.holdsJob] at hw
          refine ⟨?_, ?_⟩ <;>
            simp only [unfinishedJobs, runJob, stepClose, List.append_nil, Nat.add_zero,
                List.map_append, List.sum_append, List.map_cons, List.map_nil, List.sum_cons,
                List.sum_nil, List.length_append, List.length_cons, List.length_nil,
                GoPc.unfinished, LoopPc.holdsJob, RunfPc.unplaced, JobQueue.EnQueue,
                JobQueue.Close] at * <;>
            first | assumption | omega
    · rename_i job ack hpc
      simp only [Option.some.injEq] at h; subst h
      simp only [unfinishedJobs, hpc, LoopPc.holdsJob] at hw
      refine ⟨?_, ?_⟩ <;>
        simp only [unfinishedJobs, runJob, stepClose, List.append_nil, Nat.add_zero,
            List.map_append, List.sum_append, List.map_cons, List.map_nil, List.sum_cons,
            List.sum_nil, List.length_append, List.length_cons, List.length_nil, GoPc.unfinished,
            LoopPc.holdsJob, RunfPc.unplaced, JobQueue.EnQueue, JobQueue.Close] at * <;>
        first | assumption | omega
    · rename_i job ack hpc
      cases ack with
      | some a =>
        simp only [Option.some.injEq] at h; subst h
        simp only [unfinishedJobs, hpc, LoopPc.holdsJob] at hw
        refine ⟨?_, ?_⟩ <;>
          simp only [unfinishedJobs, runJob, stepClose, List.append_nil, Nat.add_zero,
              List.map_append, List.sum_append, List.map_cons, List.map_nil, List.sum_cons,
              List.sum_nil, List.length_append, List.length_cons, List.length_nil, GoPc.unfinished,
              LoopPc.holdsJob, RunfPc.unplaced, JobQueue.EnQueue, JobQueue.Close] at * <;>
          first | assumption | omega
      | none =>
        simp only [Option.some.injEq] at h; subst h
        simp only [unfinishedJobs, hpc, LoopPc.holdsJob] at hw
        refine ⟨?_, ?_⟩ <;>
          simp only [unfinishedJobs, runJob, stepClose, List.append_nil, Nat.add_zero,
              List.map_append, List.sum_append, List.map_cons, List.map_nil, List.sum_cons,
              List.sum_nil, List.length_append, List.length_cons, List.length_nil, GoPc.unfinished,
              LoopPc.holdsJob, RunfPc.unplaced, JobQueue.EnQueue, JobQueue.Close] at * <;>
          first | assumption | omega
    · simp at h
  | go g =>
    simp only [stepGo] at h
    split at h
    · rename_i job hget
      simp only [Option.some.injEq] at h; subst h
      have hs := sum_map_set GoPc.unfinished s.gos g (GoPc.atRecover (decide (job.f job.ctx job.args = Outcome.panicked))) _ hget
      refine ⟨?_, ?_⟩ <;>
        simp only [unfinishedJobs, runJob, stepClose, List.append_nil, Nat.add_zero,
            List.map_append, List.sum_append, List.map_cons, List.map_nil, List.sum_cons,
            List.sum_nil, List.length_append, List.length_cons, List.length_nil, GoPc.unfinished,
            LoopPc.holdsJob, RunfPc.unplaced, JobQueue.EnQueue, JobQueue.Close] at * <;>
        first | assumption | omega
    · rename_i p hget
      split at h
      · rename_i hout
        simp only [Option.some.injEq] at h; subst h
        have hs := sum_map_set GoPc.unfinished s.gos g (GoPc.atDone (s.recoverFunc.call p)) _ hget
        refine ⟨?_, ?_⟩ <;>
          simp only [unfinishedJobs, runJob, stepClose, List.append_nil, Nat.add_zero,
              List.map_append, List.sum_append, List.map_cons, List.map_nil, List.sum_cons,
              List.sum_nil, List.length_append, List.length_cons, List.length_nil, GoPc.unfinished,
              LoopPc.holdsJob, RunfPc.unplaced, JobQueue.EnQueue, JobQueue.Close] at * <;>
          first | assumption | omega
      · rename_i hout
        simp only [Option.some.injEq] at h; subst h
        have hs := sum_map_set GoPc.unfinished s.gos g GoPc.inGuard _ hget
        refine ⟨?_, ?_⟩ <;>
          simp only [unfinishedJobs, runJob, stepClose, List.append_nil, Nat.add_zero,
              List.map_append, List.sum_append, List.map_cons, List.map_nil, List.sum_cons,
              List.sum_nil, List.length_append, List.length_cons, List.length_nil, GoPc.unfinished,
              LoopPc.holdsJob, RunfPc.unplaced, JobQueue.EnQueue, JobQueue.Close] at * <;>
          first | assumption | omega
      · rename_i hout
        simp only [Option.some.injEq] at h; subst h
        have hs := sum_map_set GoPc.unfinished s.gos g GoPc.inGuard _ hget
        refine ⟨?_, ?_⟩ <;>
          simp only [unfinishedJobs, runJob, stepClose, List.append_nil, Nat.add_zero,
              List.map_append, List.sum_append, List.map_cons, List.map_nil, List.sum_cons,
              List.sum_nil, List.length_append, List.length_cons, List.length_nil, GoPc.unfinished,
              LoopPc.holdsJob, RunfPc.unplaced, JobQueue.EnQueue, JobQueue.Close] at * <;>
          first | assumption | omega
    · rename_i p hget
      split at h
      · rename_i hneg
        simp only [Option.some.injEq] at h; subst h
        have hs := sum_map_set GoPc.unfinished s.gos g (GoPc.atAdd p) _ hget
        simp only [GoPc.unfinished] at hs
        have hwr : wrap32 (s.wg - 1) = s.wg - 1 := by
          apply wrap32_eq
          · rw [hw]; simp only [unfinishedJobs]; omega
          · omega
        exfalso
        rw [hwr, hw] at hneg
        simp only [unfinishedJobs] at hneg
        omega
      · rename_i hok
        simp only [Option.some.injEq] at h; subst h
        have hs := sum_map_set GoPc.unfinished s.gos g (GoPc.atAdd p) _ hget
        simp only [GoPc.unfinished] at hs
        have hwr : wrap32 (s.wg - 1) = s.wg - 1 := by
          apply wrap32_eq
          · rw [hw]; simp only [unfinishedJobs]; omega
          · omega
        rw [hwr]
        refine ⟨?_, ?_⟩ <;>
          simp only [unfinishedJobs, runJob, stepClose, List.append_nil, Nat.add_zero,
              List.map_append, List.sum_append, List.map_cons, List.map_nil, List.sum_cons,
              List.sum_nil, List.length_append, List.length_cons, List.length_nil, GoPc.unfinished,
              LoopPc.holdsJob, RunfPc.unplaced, JobQueue.EnQueue, JobQueue.Close] at * <;>
          first | assumption | omega
    · rename_i p hget
      simp only [Option.some.injEq] at h; subst h
      have hs := sum_map_set GoPc.unfinished s.gos g (GoPc.atExit p) _ hget
      refine ⟨?_, ?_⟩ <;>
        simp only [unfinishedJobs, runJob, stepClose, List.append_nil, Nat.add_zero,
            List.map_append, List.sum_append, List.map_cons, List.map_nil, List.sum_cons,
            List.sum_nil, List.length_append, List.length_cons, List.length_nil, GoPc.unfinished,
            LoopPc.holdsJob, RunfPc.unplaced, JobQueue.EnQueue, JobQueue.Close] at * <;>
        first | assumption | omega
    · rename_i p hget
      split at h
      · rename_i hp
        simp only [Option.some.injEq] at h; subst h
        have hs := sum_map_set GoPc.unfinished s.gos g GoPc.exited _ hget
        refine ⟨?_, ?_⟩ <;>
          simp only [unfinishedJobs, runJob, stepClose, List.append_nil, Nat.add_zero,
              List.map_append, List.sum_append, List.map_cons, List.map_nil, List.sum_cons,
              List.sum_nil, List.length_append, List.length_cons, List.length_nil, GoPc.unfinished,
              LoopPc.holdsJob, RunfPc.unplaced, JobQueue.EnQueue, JobQueue.Close] at * <;>
          first | assumption | omega
      · rename_i hp
        simp only [Option.some.injEq] at h; subst h
        have hs := sum_map_set GoPc.unfinished s.gos g GoPc.exited _ hget
        refine ⟨?_, ?_⟩ <;>
          simp only [unfinishedJobs, runJob, stepClose, List.append_nil, Nat.add_zero,
              List.map_append, List.sum_append, List.map_cons, List.map_nil, List.sum_cons,
              List.sum_nil, List.length_append, List.length_cons, List.length_nil, GoPc.unfinished,
              LoopPc.holdsJob, RunfPc.unplaced, JobQueue.EnQueue, JobQueue.Close] at * <;>
          first | assumption | omega
    · simp at h
    · simp at h
    · simp at h
  | Close =>
    simp only [Option.some.injEq] at h; subst h
    refine ⟨?_, ?_⟩ <;>
      simp only [unfinishedJobs, runJob, stepClose, List.append_nil, Nat.add_zero, List.map_append,
          List.sum_append, List.map_cons, List.map_nil, List.sum_cons, List.sum_nil,
          List.length_append, List.length_cons, List.length_nil, GoPc.unfinished, LoopPc.holdsJob,
          RunfPc.unplaced, JobQueue.EnQueue, JobQueue.Close] at * <;>
      first | assumption | omega
  | wait =>
    simp only [stepWait] at h
    split at h
    · rename_i hcl
      split at h
      · rename_i hz
        simp only [Option.some.injEq] at h; subst h
        refine ⟨?_, ?_⟩ <;>
          simp only [unfinishedJobs, runJob, stepClose, List.append_nil, Nat.add_zero,
              List.map_append, List.sum_append, List.map_cons, List.map_nil, List.sum_cons,
              List.sum_nil, List.length_append, List.length_cons, List.length_nil, GoPc.unfinished,
              LoopPc.holdsJob, RunfPc.unplaced, JobQueue.EnQueue, JobQueue.Close] at * <;>
          first | assumption | omega
      · rename_i hnz
        simp only [Option.some.injEq] at h; subst h
        refine ⟨?_, ?_⟩ <;>
          simp only [unfinishedJobs, runJob, stepClose, List.append_nil, Nat.add_zero,
              List.map_append, List.sum_append, List.map_cons, List.map_nil, List.sum_cons,
              List.sum_nil, List.length_append, List.length_cons, List.length_nil, GoPc.unfinished,
              LoopPc.holdsJob, RunfPc.unplaced, JobQueue.EnQueue, JobQueue.Close] at * <;>
          first | assumption | omega
    · simp at h
  | waitReturn =>
    simp only [stepWaitReturn] at h
    split at h
    · rename_i hrel
      simp only [Option.some.injEq] at h; subst h
      refine ⟨?_, ?_⟩ <;>
        simp only [unfinishedJobs, runJob, stepClose, List.append_nil, Nat.add_zero,
            List.map_append, List.sum_append, List.map_cons, List.map_nil, List.sum_cons,
            List.sum_nil, List.length_append, List.length_cons, List.length_nil, GoPc.unfinished,
            LoopPc.holdsJob, RunfPc.unplaced, JobQueue.EnQueue, JobQueue.Close] at * <;>
        first | assumption | omega
    · simp at h

theorem overflow_step (s s1 : State) (a : Action) (h : step s a = some s1)
    (ho : wgOverflowed s.trace = true) : wgOverflowed s1.trace = true := by
  rcases (step_effect s s1 a h).1 with h1 | ⟨e, h1⟩
  · rw [h1]
    exact ho
  · rw [h1, wgOverflowed_append, ho]
    rfl

theorem overflow_exec (acts : List Action) (s s1 : State) (h : exec s acts = some s1)
    (ho : wgOverflowed s.trace = true) : wgOverflowed s1.trace = true := by
  induction acts generalizing s with
  | nil =>
    simp only [exec, Option.some.injEq] at h
    exact h ▸ ho
  | cons a rest ih =>
    simp only [exec] at h
    split at h
    · rename_i s2 hs2
      exact ih s2 h (overflow_step s s2 a hs2 ho)
    · simp at h

theorem wgInv_exec (acts : List Action) (s s1 : State) (inv : WgInv s)
    (h : exec s acts = some s1) (hfs : ∀ a ∈ acts, Action.fromStore a = true)
    (hno : wgOverflowed s1.trace = false) : WgInv s1 := by
  induction acts generalizing s with
  | nil =>
    simp only [exec, Option.some.injEq] at h
    exact h ▸ inv
  | cons a rest ih =>
    simp only [exec] at h
    split at h
    · rename_i s2 hs2
      have hno2 : wgOverflowed s2.trace = false := by
        cases ho : wgOverflowed s2.trace
        · rfl
        · rw [overflow_exec rest s2 s1 h ho] at hno
          exact absurd hno (by decide)
      exact ih s2 (wgInv_step s s2 a inv hs2 (hfs a (List.mem_cons_self a rest)) hno2) h
        (fun b hb => hfs b (List.mem_cons_of_mem a hb))
    · simp at h

/-! ## The goroutine invariant -/

theorem goInv_fresh (N : Int) : GoInv (fresh N) := by
  constructor
  · intro g
    simp [fresh, New, handlerTrace, handlerStepsOf]
  · simp [fresh, New, runJobCount]

theorem goInv_step (s s1 : State) (a : Action)
    (inv : GoInv s) (h : step s a = some s1) : GoInv s1 := by
  obtain ⟨hh, hst⟩ := inv
  unfold step at h
  split at h
  · simp at h
  rename_i hcr
  cases a with
  | Runf ctx task args =>
    simp only [Option.some.injEq, enterRunf] at h
    split at h
    · rename_i hneg
      subst h
      refine ⟨?_, ?_⟩
      · intro g1
        have hg := hh g1
        simp only [handlerStepsOf, handlerTrace, List.filter_append, runJob, stepClose] at hg ⊢
        simp [hg, Event.inHandler]
      · simpa [runJob, stepClose, runJobCount_append, runJobCount] using hst
    · rename_i hok
      subst h
      refine ⟨?_, ?_⟩
      · intro g1
        have hg := hh g1
        simp only [handlerStepsOf, handlerTrace, List.filter_append, runJob, stepClose] at hg ⊢
        simp [hg, Event.inHandler]
      · simpa [runJob, stepClose, runJobCount_append, runJobCount] using hst
  | Run ctx task =>
    simp only [Option.some.injEq, enterRun, enterRunf] at h
    split at h
    · rename_i hneg
      subst h
      refine ⟨?_, ?_⟩
      · intro g1
        have hg := hh g1
        simp only [handlerStepsOf, handlerTrace, List.filter_append, runJob, stepClose] at hg ⊢
        simp [hg, Event.inHandler]
      · simpa [runJob, stepClose, runJobCount_append, runJobCount] using hst
    · rename_i hok
      subst h
      refine ⟨?_, ?_⟩
      · intro g1
        have hg := hh g1
        simp only [handlerStepsOf, handlerTrace, List.filter_append, runJob, stepClose] at hg ⊢
        simp [hg, Event.inHandler]
      · simpa [runJob, stepClose, runJobCount_append, runJobCount] using hst
  | runf i =>
    simp only [stepRunf] at h
    split at h
    · rename_i job hget
      simp only [Option.some.injEq] at h; subst h
      refine ⟨?_, ?_⟩
      · intro g1
        have hg := hh g1
        simp only [handlerStepsOf, handlerTrace, List.filter_append, runJob, stepClose] at hg ⊢
        simp [hg, Event.inHandler]
      · simpa [runJob, stepClose, runJobCount_append, runJobCount] using hst
    · rename_i job v hget
      split at h
      · rename_i hge
        simp only [Option.some.injEq] at h; subst h
        refine ⟨?_, ?_⟩
        · intro g1
          have hg := hh g1
          simp only [handlerStepsOf, handlerTrace, List.filter_append, runJob, stepClose] at hg ⊢
          simp [hg, Event.inHandler]
        · simpa [runJob, stepClose, runJobCount_append, runJobCount] using hst
      · rename_i hlt
        split at h
        · rename_i hcas
          simp only [Option.some.injEq] at h; subst h
          refine ⟨?_, ?_⟩
          · intro g1
            have hg := hh g1
            simp only [handlerStepsOf, handlerTrace, List.filter_append, runJob, stepClose] at hg ⊢
            simp [hg, Event.inHandler]
          · simpa [runJob, stepClose, runJobCount_append, runJobCount] using hst
        · rename_i hne
          simp only [Option.some.injEq] at h; subst h
          refine ⟨?_, ?_⟩
          · intro g1
            have hg := hh g1
            simp only [handlerStepsOf, handlerTrace, List.filter_append, runJob, stepClose] at hg ⊢
            simp [hg, Event.inHandler]
          · simpa [runJob, stepClose, runJobCount_append, runJobCount] using hst
    · rename_i job hget
      simp only [Option.some.injEq] at h; subst h
      refine ⟨?_, ?_⟩
      · intro g1
        have hg := hh g1
        simp only [handlerStepsOf, handlerTrace, List.filter_append, runJob] at hg ⊢
        rw [get_append_one]
        by_cases e : g1 = s.gos.length
        · subst e
          simp [hg, Event.inHandler, GoPc.handlerSteps] at hg ⊢
        · simp [e, hg, Event.inHandler]
      · simp [runJob, runJobCount_append, runJobCount, hst]
    · simp at h
    · simp at h
    · simp at h
  | deQueue k ack =>
    simp only [stepDeQueue] at h
    split at h
    · rename_i hpc
      split at h
      · rename_i job q heq
        simp only [Option.some.injEq] at h; subst h
        refine ⟨?_, ?_⟩
        · intro g1
          have hg := hh g1
          simp only [handlerStepsOf, handlerTrace, List.filter_append, runJob, stepClose] at hg ⊢
          simp [hg, Event.inHandler]
        · simpa [runJob, stepClose, runJobCount_append, runJobCount] using hst
      · simp at h
    · simp at h
  | deQueueOther job ack =>
    simp only [stepDeQueueOther] at h
    split at h
    · rename_i hpc
      simp only [Option.some.injEq] at h; subst h
      refine ⟨?_, ?_⟩
      · intro g1
        have hg := hh g1
        simp only [handlerStepsOf, handlerTrace, List.filter_append, runJob, stepClose] at hg ⊢
        simp [hg, Event.inHandler]
      · simpa [runJob, stepClose, runJobCount_append, runJobCount] using hst
    · simp at h
  | deQueueClosed =>
    simp only [stepDeQueueClosed] at h
    split at h
    · rename_i hpc
      simp only [Option.some.injEq] at h; subst h
      refine ⟨?_, ?_⟩
      · intro g1
        have hg := hh g1
        simp only [handlerStepsOf, handlerTrace, List.filter_append, runJob, stepClose] at hg ⊢
        simp [hg, Event.inHandler]
      · simpa [runJob, stepClose, runJobCount_append, runJobCount] using hst
    · simp at h
  | loop =>
    simp only [stepLoop] at h
    split at h
    · simp at h
    · rename_i job ack hpc
      simp only [Option.some.injEq] at h; subst h
      refine ⟨?_, ?_⟩
      · intro g1
        have hg := hh g1
        simp only [handlerStepsOf, handlerTrace, List.filter_append, runJob, stepClose] at hg ⊢
        simp [hg, Event.inHandler]
      · simpa [runJob, stepClose, runJobCount_append, runJobCount] using hst
    · rename_i job ack v hpc
      split at h
      · rename_i hge
        simp only [Option.some.injEq] at h; subst h
        refine ⟨?_, ?_⟩
        · intro g1
          have hg := hh g1
          simp only [handlerStepsOf, handlerTrace, List.filter_append, runJob, stepClose] at hg ⊢
          simp [hg, Event.inHandler]
        · simpa [runJob, stepClose, runJobCount_append, runJobCount] using hst
      · rename_i hlt
        split at h
        · rename_i hcas
          simp only [Option.some.injEq] at h; subst h
          refine ⟨?_, ?_⟩
          · intro g1
            have hg := hh g1
            simp only [handlerStepsOf, handlerTrace, List.filter_append, runJob, stepClose] at hg ⊢
            simp [hg, Event.inHandler]
          · simpa [runJob, stepClose, runJobCount_append, runJobCount] using hst
        · rename_i hne
          simp only [Option.some.injEq] at h; subst h
          refine ⟨?_, ?_⟩
          · intro g1
            have hg := hh g1
            simp only [handlerStepsOf, handlerTrace, List.filter_append, runJob, stepClose] at hg ⊢
            simp [hg, Event.inHandler]
          · simpa [runJob, stepClose, runJobCount_append, runJobCount] using hst
    · rename_i job ack hpc
      simp only [Option.some.injEq] at h; subst h
      refine ⟨?_, ?_⟩
      · intro g1
        have hg := hh g1
        simp only [handlerStepsOf, handlerTrace, List.filter_append, runJob] at hg ⊢
        rw [get_append_one]
        by_cases e : g1 = s.gos.length
        · subst e
          simp [hg, Event.inHandler, GoPc.handlerSteps] at hg ⊢
        · simp [e, hg, Event.inHandler]
      · simp [runJob, runJobCount_append, runJobCount, hst]
    · rename_i job ack hpc
      cases ack with
      | some a =>
        simp only [Option.some.injEq] at h; subst h
        refine ⟨?_, ?_⟩
        · intro g1
          have hg := hh g1
          simp only [handlerStepsOf, handlerTrace, List.filter_append, runJob, stepClose] at hg ⊢
          simp [hg, Event.inHandler]
        · simpa [runJob, stepClose, runJobCount_append, runJobCount] using hst
      | none =>
        simp only [Option.some.injEq] at h; subst h
        refine ⟨?_, ?_⟩
        · intro g1
          have hg := hh g1
          simp only [handlerStepsOf, handlerTrace, List.filter_append, runJob, stepClose] at hg ⊢
          simp [hg, Event.inHandler]
        · simpa [runJob, stepClose, runJobCount_append, runJobCount] using hst
    · simp at h
  | go g =>
    simp only [stepGo] at h
    split at h
    · rename_i job hget
      simp only [Option.some.injEq] at h; subst h
      refine ⟨?_, ?_⟩
      · intro g1
        have hg := hh g1
        simp only [handlerStepsOf, handlerTrace, List.filter_append] at hg ⊢
        rw [get_set_cases _ _ _ _ _ hget]
        by_cases e : g1 = g
        · subst e
          rw [hget] at hg
          simp [hg, Event.inHandler, GoPc.handlerSteps, handlerEvents] at hg ⊢
        · have e2 : ¬ g = g1 := fun h => e h.symm
          simp [e, e2, hg, Event.inHandler]
      · simpa [runJobCount_append, runJobCount] using hst
    · rename_i p hget
      split at h
      · rename_i hout
        simp only [Option.some.injEq] at h; subst h
        refine ⟨?_, ?_⟩
        · intro g1
          have hg := hh g1
          simp only [handlerStepsOf, handlerTrace, List.filter_append] at hg ⊢
          rw [get_set_cases _ _ _ _ _ hget]
          by_cases e : g1 = g
          · subst e
            rw [hget] at hg
            simp [hg, Event.inHandler, GoPc.handlerSteps, handlerEvents] at hg ⊢
          · have e2 : ¬ g = g1 := fun h => e h.symm
            simp [e, e2, hg, Event.inHandler]
        · simpa [runJobCount_append, runJobCount] using hst
      · rename_i hout
        simp only [Option.some.injEq] at h; subst h
        refine ⟨?_, ?_⟩
        · intro g1
          have hg := hh g1
          simp only [handlerStepsOf, handlerTrace, List.filter_append] at hg ⊢
          rw [get_set_cases _ _ _ _ _ hget]
          by_cases e : g1 = g
          · subst e
            rw [hget] at hg
            simp [hg, Event.inHandler, GoPc.handlerSteps, handlerEvents] at hg ⊢
          · have e2 : ¬ g = g1 := fun h => e h.symm
            simp [e, e2, hg, Event.inHandler]
        · simpa [runJobCount_append, runJobCount] using hst
      · rename_i hout
        simp only [Option.some.injEq] at h; subst h
        refine ⟨?_, ?_⟩
        · intro g1
          have hg := hh g1
          simp only [handlerStepsOf, handlerTrace, List.filter_append] at hg ⊢
          rw [get_set_cases _ _ _ _ _ hget]
          by_cases e : g1 = g
          · subst e
            rw [hget] at hg
            simp [hg, Event.inHandler, GoPc.handlerSteps, handlerEvents] at hg ⊢
          · have e2 : ¬ g = g1 := fun h => e h.symm
            simp [e, e2, hg, Event.inHandler]
        · simpa [runJobCount_append, runJobCount] using hst
    · rename_i p hget
      split at h
      · rename_i hneg
        simp only [Option.some.injEq] at h; subst h
        refine ⟨?_, ?_⟩
        · intro g1
          have hg := hh g1
          simp only [handlerStepsOf, handlerTrace, List.filter_append] at hg ⊢
          rw [get_set_cases _ _ _ _ _ hget]
          by_cases e : g1 = g
          · subst e
            rw [hget] at hg
            simp [hg, Event.inHandler, GoPc.handlerSteps, handlerEvents] at hg ⊢
          · have e2 : ¬ g = g1 := fun h => e h.symm
            simp [e, e2, hg, Event.inHandler]
        · simpa [runJobCount_append, runJobCount] using hst
      · rename_i hok
        simp only [Option.some.injEq] at h; subst h
        refine ⟨?_, ?_⟩
        · intro g1
          have hg := hh g1
          simp only [handlerStepsOf, handlerTrace, List.filter_append] at hg ⊢
          rw [get_set_cases _ _ _ _ _ hget]
          by_cases e : g1 = g
          · subst e
            rw [hget] at hg
            simp [hg, Event.inHandler, GoPc.handlerSteps, handlerEvents] at hg ⊢
          · have e2 : ¬ g = g1 := fun h => e h.symm
            simp [e, e2, hg, Event.inHandler]
        · simpa [runJobCount_append, runJobCount] using hst
    · rename_i p hget
      simp only [Option.some.injEq] at h; subst h
      refine ⟨?_, ?_⟩
      · intro g1
        have hg := hh g1
        simp only [handlerStepsOf, handlerTrace, List.filter_append] at hg ⊢
        rw [get_set_cases _ _ _ _ _ hget]
        by_cases e : g1 = g
        · subst e
          rw [hget] at hg
          simp [hg, Event.inHandler, GoPc.handlerSteps, handlerEvents] at hg ⊢
        · have e2 : ¬ g = g1 := fun h => e h.symm
          simp [e, e2, hg, Event.inHandler]
      · simpa [runJobCount_append, runJobCount] using hst
    · rename_i p hget
      split at h
      · rename_i hp
        simp only [Option.some.injEq] at h; subst h
        refine ⟨?_, ?_⟩
        · intro g1
          have hg := hh g1
          simp only [handlerStepsOf, handlerTrace, List.filter_append] at hg ⊢
          rw [get_set_cases _ _ _ _ _ hget]
          by_cases e : g1 = g
          · subst e
            rw [hget] at hg
            simp [hg, Event.inHandler, GoPc.handlerSteps, handlerEvents] at hg ⊢
          · have e2 : ¬ g = g1 := fun h => e h.symm
            simp [e, e2, hg, Event.inHandler]
        · simpa [runJobCount_append, runJobCount] using hst
      · rename_i hp
        simp only [Option.some.injEq] at h; subst h
        refine ⟨?_, ?_⟩
        · intro g1
          have hg := hh g1
          simp only [handlerStepsOf, handlerTrace, List.filter_append] at hg ⊢
          rw [get_set_cases _ _ _ _ _ hget]
          by_cases e : g1 = g
          · subst e
            rw [hget] at hg
            simp [hg, Event.inHandler, GoPc.handlerSteps, handlerEvents] at hg ⊢
          · have e2 : ¬ g = g1 := fun h => e h.symm
            simp [e, e2, hg, Event.inHandler]
        · simpa [runJobCount_append, runJobCount] using hst
    · simp at h
    · simp at h
    · simp at h
  | Close =>
    simp only [Option.some.injEq] at h; subst h
    refine ⟨?_, ?_⟩
    · intro g1
      have hg := hh g1
      simp only [handlerStepsOf, handlerTrace, List.filter_append, runJob, stepClose] at hg ⊢
      simp [hg, Event.inHandler]
    · simpa [runJob, stepClose, runJobCount_append, runJobCount] using hst
  | wait =>
    simp only [stepWait] at h
    split at h
    · rename_i hcl
      split at h
      · rename_i hz
        simp only [Option.some.injEq] at h; subst h
        refine ⟨?_, ?_⟩
        · intro g1
          have hg := hh g1
          simp only [handlerStepsOf, handlerTrace, List.filter_append, runJob, stepClose] at hg ⊢
          simp [hg, Event.inHandler]
        · simpa [runJob, stepClose, runJobCount_append, runJobCount] using hst
      · rename_i hnz
        simp only [Option.some.injEq] at h; subst h
        refine ⟨?_, ?_⟩
        · intro g1
          have hg := hh g1
          simp only [handlerStepsOf, handlerTrace, List.filter_append, runJob, stepClose] at hg ⊢
          simp [hg, Event.inHandler]
        · simpa [runJob, stepClose, runJobCount_append, runJobCount] using hst
    · simp at h
  | waitReturn =>
    simp only [stepWaitReturn] at h
    split at h
    · rename_i hrel
      simp only [Option.some.injEq] at h; subst h
      refine ⟨?_, ?_⟩
      · intro g1
        have hg := hh g1
        simp only [handlerStepsOf, handlerTrace, List.filter_append, runJob, stepClose] at hg ⊢
        simp [hg, Event.inHandler]
      · simpa [runJob, stepClose, runJobCount_append, runJobCount] using hst
    · simp at h

theorem goInv_exec (acts : List Action) (s s1 : State)
    (inv : GoInv s) (h : exec s acts = some s1) : GoInv s1 := by
  induction acts generalizing s with
  | nil =>
    simp only [exec, Option.some.injEq] at h
    exact h ▸ inv
  | cons a rest ih =>
    simp only [exec] at h
    split at h
    · rename_i s2 hs2
      exact ih s2 (goInv_step s s2 a inv hs2) h
    · simp at h

/-! ## The dispatch-loop invariant -/

theorem loopInv_fresh (N : Int) : LoopInv (fresh N) := by
  refine ⟨?_, ?_, ⟨[], 0, ?_⟩⟩ <;>
    simp [fresh, New, dequeuedJobs, loopStarted, LoopPc.heldJob, closedSeen, loopTrace,
      LoopPc.events]

theorem loopInv_step (s s1 : State) (a : Action)
    (inv : LoopInv s) (h : step s a = some s1) : LoopInv s1 := by
  obtain ⟨ho, hc2, hsh⟩ := inv
  unfold step at h
  split at h
  · simp at h
  rename_i hcr
  cases a with
  | Runf ctx task args =>
    simp only [Option.some.injEq, enterRunf] at h
    split at h
    · rename_i hneg
      subst h
      obtain ⟨its, v0, hl⟩ := hsh
      refine ⟨?_, ?_, ⟨its, v0, ?_⟩⟩
      · simp [dequeuedJobs, loopStarted, List.filterMap_append, Event.dequeuedJob,
          Event.loopStartedJob,
          LoopPc.heldJob, runJob, stepClose] at ho ⊢
        try simp [ho]
      · simp [closedSeen_append, Event.isClosed, runJob, stepClose] at hc2 ⊢
        try simp [hc2]
      · simp [loopTrace, List.filter_append, Event.byLoop, LoopPc.events, LoopIter.events,
          ackEvents,
          runJob, stepClose] at hl ⊢
        try simp [hl]
    · rename_i hok
      subst h
      obtain ⟨its, v0, hl⟩ := hsh
      refine ⟨?_, ?_, ⟨its, v0, ?_⟩⟩
      · simp [dequeuedJobs, loopStarted, List.filterMap_append, Event.dequeuedJob,
          Event.loopStartedJob,
          LoopPc.heldJob, runJob, stepClose] at ho ⊢
        try simp [ho]
      · simp [closedSeen_append, Event.isClosed, runJob, stepClose] at hc2 ⊢
        try simp [hc2]
      · simp [loopTrace, List.filter_append, Event.byLoop, LoopPc.events, LoopIter.events,
          ackEvents,
          runJob, stepClose] at hl ⊢
        try simp [hl]
  | Run ctx task =>
    simp only [Option.some.injEq, enterRun, enterRunf] at h
    split at h
    · rename_i hneg
      subst h
      obtain ⟨its, v0, hl⟩ := hsh
      refine ⟨?_, ?_, ⟨its, v0, ?_⟩⟩
      · simp [dequeuedJobs, loopStarted, List.filterMap_append, Event.dequeuedJob,
          Event.loopStartedJob,
          LoopPc.heldJob, runJob, stepClose] at ho ⊢
        try simp [ho]
      · simp [closedSeen_append, Event.isClosed, runJob, stepClose] at hc2 ⊢
        try simp [hc2]
      · simp [loopTrace, List.filter_append, Event.byLoop, LoopPc.events, LoopIter.events,
          ackEvents,
          runJob, stepClose] at hl ⊢
        try simp [hl]
    · rename_i hok
      subst h
      obtain ⟨its, v0, hl⟩ := hsh
      refine ⟨?_, ?_, ⟨its, v0, ?_⟩⟩
      · simp [dequeuedJobs, loopStarted, List.filterMap_append, Event.dequeuedJob,
          Event.loopStartedJob,
          LoopPc.heldJob, runJob, stepClose] at ho ⊢
        try simp [ho]
      · simp [closedSeen_append, Event.isClosed, runJob, stepClose] at hc2 ⊢
        try simp [hc2]
      · simp [loopTrace, List.filter_append, Event.byLoop, LoopPc.events, LoopIter.events,
          ackEvents,
          runJob, stepClose] at hl ⊢
        try simp [hl]
  | runf i =>
    simp only [stepRunf] at h
    split at h
    · rename_i job hget
      simp only [Option.some.injEq] at h; subst h
      obtain ⟨its, v0, hl⟩ := hsh
      refine ⟨?_, ?_, ⟨its, v0, ?_⟩⟩
      · simp [dequeuedJobs, loopStarted, List.filterMap_append, Event.dequeuedJob,
          Event.loopStartedJob,
          LoopPc.heldJob, runJob, stepClose] at ho ⊢
        try simp [ho]
      · simp [closedSeen_append, Event.isClosed, runJob, stepClose] at hc2 ⊢
        try simp [hc2]
      · simp [loopTrace, List.filter_append, Event.byLoop, LoopPc.events, LoopIter.events,
          ackEvents,
          runJob, stepClose] at hl ⊢
        try simp [hl]
    · rename_i job v hget
      split at h
      · rename_i hge
        simp only [Option.some.injEq] at h; subst h
        obtain ⟨its, v0, hl⟩ := hsh
        refine ⟨?_, ?_, ⟨its, v0, ?_⟩⟩
        · simp [dequeuedJobs, loopStarted, List.filterMap_append, Event.dequeuedJob,
            Event.loopStartedJob,
            LoopPc.heldJob, runJob, stepClose] at ho ⊢
          try simp [ho]
        · simp [closedSeen_append, Event.isClosed, runJob, stepClose] at hc2 ⊢
          try simp [hc2]
        · simp [loopTrace, List.filter_append, Event.byLoop, LoopPc.events, LoopIter.events,
            ackEvents,
            runJob, stepClose] at hl ⊢
          try simp [hl]
      · rename_i hlt
        split at h
        · rename_i hcas
          simp only [Option.some.injEq] at h; subst h
          obtain ⟨its, v0, hl⟩ := hsh
          refine ⟨?_, ?_, ⟨its, v0, ?_⟩⟩
          · simp [dequeuedJobs, loopStarted, List.filterMap_append, Event.dequeuedJob,
              Event.loopStartedJob,
              LoopPc.heldJob, runJob, stepClose] at ho ⊢
            try simp [ho]
          · simp [closedSeen_append, Event.isClosed, runJob, stepClose] at hc2 ⊢
            try simp [hc2]
          · simp [loopTrace, List.filter_append, Event.byLoop, LoopPc.events, LoopIter.events,
              ackEvents,
              runJob, stepClose] at hl ⊢
            try simp [hl]
        · rename_i hne
          simp only [Option.some.injEq] at h; subst h
          obtain ⟨its, v0, hl⟩ := hsh
          refine ⟨?_, ?_, ⟨its, v0, ?_⟩⟩
          · simp [dequeuedJobs, loopStarted, List.filterMap_append, Event.dequeuedJob,
              Event.loopStartedJob,
              LoopPc.heldJob, runJob, stepClose] at ho ⊢
            try simp [ho]
          · simp [closedSeen_append, Event.isClosed, runJob, stepClose] at hc2 ⊢
            try simp [hc2]
          · simp [loopTrace, List.filter_append, Event.byLoop, LoopPc.events, LoopIter.events,
              ackEvents,
              runJob, stepClose] at hl ⊢
            try simp [hl]
    · rename_i job hget
      simp only [Option.some.injEq] at h; subst h
      obtain ⟨its, v0, hl⟩ := hsh
      refine ⟨?_, ?_, ⟨its, v0, ?_⟩⟩
      · simp [dequeuedJobs, loopStarted, List.filterMap_append, Event.dequeuedJob,
          Event.loopStartedJob,
          LoopPc.heldJob, runJob, stepClose] at ho ⊢
        try simp [ho]
      · simp [closedSeen_append, Event.isClosed, runJob, stepClose] at hc2 ⊢
        try simp [hc2]
      · simp [loopTrace, List.filter_append, Event.byLoop, LoopPc.events, LoopIter.events,
          ackEvents,
          runJob, stepClose] at hl ⊢
        try simp [hl]
    · simp at h
    · simp at h
    · simp at h
  | deQueue k ack =>
    simp only [stepDeQueue] at h
    split at h
    · rename_i hpc
      split at h
      · rename_i job q heq
        simp only [Option.some.injEq] at h; subst h
        obtain ⟨its, v0, hl⟩ := hsh
        simp only [hpc] at ho hc2 hl
        refine ⟨?_, ?_, ⟨its, v0, ?_⟩⟩
        · simp [dequeuedJobs, loopStarted, List.filterMap_append, Event.dequeuedJob,
            Event.loopStartedJob,
            LoopPc.heldJob, runJob, stepClose] at ho ⊢
          try simp [ho]
        · simp [closedSeen_append, Event.isClosed, runJob, stepClose] at hc2 ⊢
          try simp [hc2]
        · simp [loopTrace, List.filter_append, Event.byLoop, LoopPc.events, LoopIter.events,
            ackEvents,
            runJob, stepClose] at hl ⊢
          try simp [hl]
      · simp at h
    · simp at h
  | deQueueOther job ack =>
    simp only [stepDeQueueOther] at h
    split at h
    · rename_i hpc
      simp only [Option.some.injEq] at h; subst h
      obtain ⟨its, v0, hl⟩ := hsh
      simp only [hpc] at ho hc2 hl
      refine ⟨?_, ?_, ⟨its, v0, ?_⟩⟩
      · simp [dequeuedJobs, loopStarted, List.filterMap_append, Event.dequeuedJob,
          Event.loopStartedJob,
          LoopPc.heldJob, runJob, stepClose] at ho ⊢
        try simp [ho]
      · simp [closedSeen_append, Event.isClosed, runJob, stepClose] at hc2 ⊢
        try simp [hc2]
      · simp [loopTrace, List.filter_append, Event.byLoop, LoopPc.events, LoopIter.events,
          ackEvents,
          runJob, stepClose] at hl ⊢
        try simp [hl]
    · simp at h
  | deQueueClosed =>
    simp only [stepDeQueueClosed] at h
    split at h
    · rename_i hpc
      simp only [Option.some.injEq] at h; subst h
      obtain ⟨its, v0, hl⟩ := hsh
      simp only [hpc] at ho hc2 hl
      refine ⟨?_, ?_, ⟨its, v0, ?_⟩⟩
      · simp [dequeuedJobs, loopStarted, List.filterMap_append, Event.dequeuedJob,
          Event.loopStartedJob,
          LoopPc.heldJob, runJob, stepClose] at ho ⊢
        try simp [ho]
      · simp [closedSeen_append, Event.isClosed, runJob, stepClose] at hc2 ⊢
        try simp [hc2]
      · simp [loopTrace, List.filter_append, Event.byLoop, LoopPc.events, LoopIter.events,
          ackEvents,
          runJob, stepClose] at hl ⊢
        try simp [hl]
    · simp at h
  | loop =>
    simp only [stepLoop] at h
    split at h
    · simp at h
    · rename_i job ack hpc
      simp only [Option.some.injEq] at h; subst h
      obtain ⟨its, v0, hl⟩ := hsh
      simp only [hpc] at ho hc2 hl
      refine ⟨?_, ?_, ⟨its, v0, ?_⟩⟩
      · simp [dequeuedJobs, loopStarted, List.filterMap_append, Event.dequeuedJob,
          Event.loopStartedJob,
          LoopPc.heldJob, runJob, stepClose] at ho ⊢
        try simp [ho]
      · simp [closedSeen_append, Event.isClosed, runJob, stepClose] at hc2 ⊢
        try simp [hc2]
      · simp [loopTrace, List.filter_append, Event.byLoop, LoopPc.events, LoopIter.events,
          ackEvents,
          runJob, stepClose] at hl ⊢
        try simp [hl]
    · rename_i job ack v hpc
      split at h
      · rename_i hge
        simp only [Option.some.injEq] at h; subst h
        obtain ⟨its, v0, hl⟩ := hsh
        simp only [hpc] at ho hc2 hl
        refine ⟨?_, ?_, ⟨its, v0, ?_⟩⟩
        · simp [dequeuedJobs, loopStarted, List.filterMap_append, Event.dequeuedJob,
            Event.loopStartedJob,
            LoopPc.heldJob, runJob, stepClose] at ho ⊢
          try simp [ho]
        · simp [closedSeen_append, Event.isClosed, runJob, stepClose] at hc2 ⊢
          try simp [hc2]
        · simp [loopTrace, List.filter_append, Event.byLoop, LoopPc.events, LoopIter.events,
            ackEvents,
            runJob, stepClose] at hl ⊢
          try simp [hl]
      · rename_i hlt
        split at h
        · rename_i hcas
          simp only [Option.some.injEq] at h; subst h
          obtain ⟨its, v0, hl⟩ := hsh
          simp only [hpc] at ho hc2 hl
          refine ⟨?_, ?_, ⟨its, v, ?_⟩⟩
          · simp [dequeuedJobs, loopStarted, List.filterMap_append, Event.dequeuedJob,
              Event.loopStartedJob,
              LoopPc.heldJob, runJob, stepClose] at ho ⊢
            try simp [ho]
          · simp [closedSeen_append, Event.isClosed, runJob, stepClose] at hc2 ⊢
            try simp [hc2]
          · simp [loopTrace, List.filter_append, Event.byLoop, LoopPc.events, LoopIter.events,
              ackEvents,
              runJob, stepClose] at hl ⊢
            try simp [hl]
        · rename_i hne
          simp only [Option.some.injEq] at h; subst h
          obtain ⟨its, v0, hl⟩ := hsh
          simp only [hpc] at ho hc2 hl
          refine ⟨?_, ?_, ⟨its, v0, ?_⟩⟩
          · simp [dequeuedJobs, loopStarted, List.filterMap_append, Event.dequeuedJob,
              Event.loopStartedJob,
              LoopPc.heldJob, runJob, stepClose] at ho ⊢
            try simp [ho]
          · simp [closedSeen_append, Event.isClosed, runJob, stepClose] at hc2 ⊢
            try simp [hc2]
          · simp [loopTrace, List.filter_append, Event.byLoop, LoopPc.events, LoopIter.events,
              ackEvents,
              runJob, stepClose] at hl ⊢
            try simp [hl]
    · rename_i job ack hpc
      simp only [Option.some.injEq] at h; subst h
      obtain ⟨its, v0, hl⟩ := hsh
      simp only [hpc] at ho hc2 hl
      refine ⟨?_, ?_, ⟨its, v0, ?_⟩⟩
      · simp [dequeuedJobs, loopStarted, List.filterMap_append, Event.dequeuedJob,
          Event.loopStartedJob,
          LoopPc.heldJob, runJob, stepClose] at ho ⊢
        try simp [ho]
      · simp [closedSeen_append, Event.isClosed, runJob, stepClose] at hc2 ⊢
        try simp [hc2]
      · simp [loopTrace, List.filter_append, Event.byLoop, LoopPc.events, LoopIter.events,
          ackEvents,
          runJob, stepClose] at hl ⊢
        try simp [hl]
    · rename_i job ack hpc
      cases ack with
      | some a =>
        simp only [Option.some.injEq] at h; subst h
        obtain ⟨its, v0, hl⟩ := hsh
        simp only [hpc] at ho hc2 hl
        refine ⟨?_, ?_, ⟨its ++ [LoopIter.mk job (some a) v0], v0, ?_⟩⟩
        · simp [dequeuedJobs, loopStarted, List.filterMap_append, Event.dequeuedJob,
            Event.loopStartedJob,
            LoopPc.heldJob, runJob, stepClose] at ho ⊢
          try simp [ho]
        · simp [closedSeen_append, Event.isClosed, runJob, stepClose] at hc2 ⊢
          try simp [hc2]
        · simp [loopTrace, List.filter_append, Event.byLoop, LoopPc.events, LoopIter.events,
            ackEvents,
            runJob, stepClose] at hl ⊢
          try simp [hl]
      | none =>
        simp only [Option.some.injEq] at h; subst h
        obtain ⟨its, v0, hl⟩ := hsh
        simp only [hpc] at ho hc2 hl
        refine ⟨?_, ?_, ⟨its ++ [LoopIter.mk job none v0], v0, ?_⟩⟩
        · simp [dequeuedJobs, loopStarted, List.filterMap_append, Event.dequeuedJob,
            Event.loopStartedJob,
            LoopPc.heldJob, runJob, stepClose] at ho ⊢
          try simp [ho]
        · simp [closedSeen_append, Event.isClosed, runJob, stepClose] at hc2 ⊢
          try simp [hc2]
        · simp [loopTrace, List.filter_append, Event.byLoop, LoopPc.events, LoopIter.events,
            ackEvents,
            runJob, stepClose] at hl ⊢
          try simp [hl]
    · simp at h
  | go g =>
    simp only [stepGo] at h
    split at h
    · rename_i job hget
      simp only [Option.some.injEq] at h; subst h
      obtain ⟨its, v0, hl⟩ := hsh
      refine ⟨?_, ?_, ⟨its, v0, ?_⟩⟩
      · simp [dequeuedJobs, loopStarted, List.filterMap_append, Event.dequeuedJob,
          Event.loopStartedJob,
          LoopPc.heldJob, runJob, stepClose] at ho ⊢
        try simp [ho]
      · simp [closedSeen_append, Event.isClosed, runJob, stepClose] at hc2 ⊢
        try simp [hc2]
      · simp [loopTrace, List.filter_append, Event.byLoop, LoopPc.events, LoopIter.events,
          ackEvents,
          runJob, stepClose] at hl ⊢
        try simp [hl]
    · rename_i p hget
      split at h
      · rename_i hout
        simp only [Option.some.injEq] at h; subst h
        obtain ⟨its, v0, hl⟩ := hsh
        refine ⟨?_, ?_, ⟨its, v0, ?_⟩⟩
        · simp [dequeuedJobs, loopStarted, List.filterMap_append, Event.dequeuedJob,
            Event.loopStartedJob,
            LoopPc.heldJob, runJob, stepClose] at ho ⊢
          try simp [ho]
        · simp [closedSeen_append, Event.isClosed, runJob, stepClose] at hc2 ⊢
          try simp [hc2]
        · simp [loopTrace, List.filter_append, Event.byLoop, LoopPc.events, LoopIter.events,
            ackEvents,
            runJob, stepClose] at hl ⊢
          try simp [hl]
      · rename_i hout
        simp only [Option.some.injEq] at h; subst h
        obtain ⟨its, v0, hl⟩ := hsh
        refine ⟨?_, ?_, ⟨its, v0, ?_⟩⟩
        · simp [dequeuedJobs, loopStarted, List.filterMap_append, Event.dequeuedJob,
            Event.loopStartedJob,
            LoopPc.heldJob, runJob, stepClose] at ho ⊢
          try simp [ho]
        · simp [closedSeen_append, Event.isClosed, runJob, stepClose] at hc2 ⊢
          try simp [hc2]
        · simp [loopTrace, List.filter_append, Event.byLoop, LoopPc.events, LoopIter.events,
            ackEvents,
            runJob, stepClose] at hl ⊢
          try simp [hl]
      · rename_i hout
        simp only [Option.some.injEq] at h; subst h
        obtain ⟨its, v0, hl⟩ := hsh
        refine ⟨?_, ?_, ⟨its, v0, ?_⟩⟩
        · simp [dequeuedJobs, loopStarted, List.filterMap_append, Event.dequeuedJob,
            Event.loopStartedJob,
            LoopPc.heldJob, runJob, stepClose] at ho ⊢
          try simp [ho]
        · simp [closedSeen_append, Event.isClosed, runJob, stepClose] at hc2 ⊢
          try simp [hc2]
        · simp [loopTrace, List.filter_append, Event.byLoop, LoopPc.events, LoopIter.events,
            ackEvents,
            runJob, stepClose] at hl ⊢
          try simp [hl]
    · rename_i p hget
      split at h
      · rename_i hneg
        simp only [Option.some.injEq] at h; subst h
        obtain ⟨its, v0, hl⟩ := hsh
        refine ⟨?_, ?_, ⟨its, v0, ?_⟩⟩
        · simp [dequeuedJobs, loopStarted, List.filterMap_append, Event.dequeuedJob,
            Event.loopStartedJob,
            LoopPc.heldJob, runJob, stepClose] at ho ⊢
          try simp [ho]
        · simp [closedSeen_append, Event.isClosed, runJob, stepClose] at hc2 ⊢
          try simp [hc2]
        · simp [loopTrace, List.filter_append, Event.byLoop, LoopPc.events, LoopIter.events,
            ackEvents,
            runJob, stepClose] at hl ⊢
          try simp [hl]
      · rename_i hok
        simp only [Option.some.injEq] at h; subst h
        obtain ⟨its, v0, hl⟩ := hsh
        refine ⟨?_, ?_, ⟨its, v0, ?_⟩⟩
        · simp [dequeuedJobs, loopStarted, List.filterMap_append, Event.dequeuedJob,
            Event.loopStartedJob,
            LoopPc.heldJob, runJob, stepClose] at ho ⊢
          try simp [ho]
        · simp [closedSeen_append, Event.isClosed, runJob, stepClose] at hc2 ⊢
          try simp [hc2]
        · simp [loopTrace, List.filter_append, Event.byLoop, LoopPc.events, LoopIter.events,
            ackEvents,
            runJob, stepClose] at hl ⊢
          try simp [hl]
    · rename_i p hget
      simp only [Option.some.injEq] at h; subst h
      obtain ⟨its, v0, hl⟩ := hsh
      refine ⟨?_, ?_, ⟨its, v0, ?_⟩⟩
      · simp [dequeuedJobs, loopStarted, List.filterMap_append, Event.dequeuedJob,
          Event.loopStartedJob,
          LoopPc.heldJob, runJob, stepClose] at ho ⊢
        try simp [ho]
      · simp [closedSeen_append, Event.isClosed, runJob, stepClose] at hc2 ⊢
        try simp [hc2]
      · simp [loopTrace, List.filter_append, Event.byLoop, LoopPc.events, LoopIter.events,
          ackEvents,
          runJob, stepClose] at hl ⊢
        try simp [hl]
    · rename_i p hget
      split at h
      · rename_i hp
        simp only [Option.some.injEq] at h; subst h
        obtain ⟨its, v0, hl⟩ := hsh
        refine ⟨?_, ?_, ⟨its, v0, ?_⟩⟩
        · simp [dequeuedJobs, loopStarted, List.filterMap_append, Event.dequeuedJob,
            Event.loopStartedJob,
            LoopPc.heldJob, runJob, stepClose] at ho ⊢
          try simp [ho]
        · simp [closedSeen_append, Event.isClosed, runJob, stepClose] at hc2 ⊢
          try simp [hc2]
        · simp [loopTrace, List.filter_append, Event.byLoop, LoopPc.events, LoopIter.events,
            ackEvents,
            runJob, stepClose] at hl ⊢
          try simp [hl]
      · rename_i hp
        simp only [Option.some.injEq] at h; subst h
        obtain ⟨its, v0, hl⟩ := hsh
        refine ⟨?_, ?_, ⟨its, v0, ?_⟩⟩
        · simp [dequeuedJobs, loopStarted, List.filterMap_append, Event.dequeuedJob,
            Event.loopStartedJob,
            LoopPc.heldJob, runJob, stepClose] at ho ⊢
          try simp [ho]
        · simp [closedSeen_append, Event.isClosed, runJob, stepClose] at hc2 ⊢
          try simp [hc2]
        · simp [loopTrace, List.filter_append, Event.byLoop, LoopPc.events, LoopIter.events,
            ackEvents,
            runJob, stepClose] at hl ⊢
          try simp [hl]
    · simp at h
    · simp at h
    · simp at h
  | Close =>
    simp only [Option.some.injEq] at h; subst h
    obtain ⟨its, v0, hl⟩ := hsh
    refine ⟨?_, ?_, ⟨its, v0, ?_⟩⟩
    · simp [dequeuedJobs, loopStarted, List.filterMap_append, Event.dequeuedJob,
        Event.loopStartedJob,
        LoopPc.heldJob, runJob, stepClose] at ho ⊢
      try simp [ho]
    · simp [closedSeen_append, Event.isClosed, runJob, stepClose] at hc2 ⊢
      try simp [hc2]
    · simp [loopTrace, List.filter_append, Event.byLoop, LoopPc.events, LoopIter.events, ackEvents,
        runJob, stepClose] at hl ⊢
      try simp [hl]
  | wait =>
    simp only [stepWait] at h
    split at h
    · rename_i hcl
      split at h
      · rename_i hz
        simp only [Option.some.injEq] at h; subst h
        obtain ⟨its, v0, hl⟩ := hsh
        refine ⟨?_, ?_, ⟨its, v0, ?_⟩⟩
        · simp [dequeuedJobs, loopStarted, List.filterMap_append, Event.dequeuedJob,
            Event.loopStartedJob,
            LoopPc.heldJob, runJob, stepClose] at ho ⊢
          try simp [ho]
        · simp [closedSeen_append, Event.isClosed, runJob, stepClose] at hc2 ⊢
          try simp [hc2]
        · simp [loopTrace, List.filter_append, Event.byLoop, LoopPc.events, LoopIter.events,
            ackEvents,
            runJob, stepClose] at hl ⊢
          try simp [hl]
      · rename_i hnz
        simp only [Option.some.injEq] at h; subst h
        obtain ⟨its, v0, hl⟩ := hsh
        refine ⟨?_, ?_, ⟨its, v0, ?_⟩⟩
        · simp [dequeuedJobs, loopStarted, List.filterMap_append, Event.dequeuedJob,
            Event.loopStartedJob,
            LoopPc.heldJob, runJob, stepClose] at ho ⊢
          try simp [ho]
        · simp [closedSeen_append, Event.isClosed, runJob, stepClose] at hc2 ⊢
          try simp [hc2]
        · simp [loopTrace, List.filter_append, Event.byLoop, LoopPc.events, LoopIter.events,
            ackEvents,
            runJob, stepClose] at hl ⊢
          try simp [hl]
    · simp at h
  | waitReturn =>
    simp only [stepWaitReturn] at h
    split at h
    · rename_i hrel
      simp only [Option.some.injEq] at h; subst h
      obtain ⟨its, v0, hl⟩ := hsh
      refine ⟨?_, ?_, ⟨its, v0, ?_⟩⟩
      · simp [dequeuedJobs, loopStarted, List.filterMap_append, Event.dequeuedJob,
          Event.loopStartedJob,
          LoopPc.heldJob, runJob, stepClose] at ho ⊢
        try simp [ho]
      · simp [closedSeen_append, Event.isClosed, runJob, stepClose] at hc2 ⊢
        try simp [hc2]
      · simp [loopTrace, List.filter_append, Event.byLoop, LoopPc.events, LoopIter.events,
          ackEvents,
          runJob, stepClose] at hl ⊢
        try simp [hl]
    · simp at h

theorem loopInv_exec (acts : List Action) (s s1 : State)
    (inv : LoopInv s) (h : exec s acts = some s1) : LoopInv s1 := by
  induction acts generalizing s with
  | nil =>
    simp only [exec, Option.some.injEq] at h
    exact h ▸ inv
  | cons a rest ih =>
    simp only [exec] at h
    split at h
    · rename_i s2 hs2
      exact ih s2 (loopInv_step s s2 a inv hs2) h
    · simp at h

theorem count_step_cases (N : Int) (hN : N < 2 ^ 63) (s s1 : State) (a : Action)
    (inv : CountInv N s) (h : step s a = some s1) :
    (s1.count = s.count ∧ casOlds s1.trace = casOlds s.trace
        ∧ addCount s1.trace = addCount s.trace)
      ∨ (s.count < N ∧ s1.count = s.count + 1
          ∧ ∃ w, s1.trace = s.trace ++ [Event.cas w s.count])
      ∨ (s1.count = s.count - 1 ∧ ∃ g, s1.trace = s.trace ++ [Event.countAdd g]) := by
  obtain ⟨hsz, hc, hle, htr, hold, hcs, has⟩ := inv
  unfold step at h
  split at h
  · simp at h
  rename_i hcr
  cases a with
  | Runf ctx task args =>
    simp only [Option.some.injEq, enterRunf] at h
    split at h
    · rename_i hneg
      subst h
      left
      simp [runJob, stepClose, casOlds_append, addCount_append, casOlds, addCount]
    · rename_i hok
      subst h
      left
      simp [runJob, stepClose, casOlds_append, addCount_append, casOlds, addCount]
  | Run ctx task =>
    simp only [Option.some.injEq, enterRun, enterRunf] at h
    split at h
    · rename_i hneg
      subst h
      left
      simp [runJob, stepClose, casOlds_append, addCount_append, casOlds, addCount]
    · rename_i hok
      subst h
      left
      simp [runJob, stepClose, casOlds_append, addCount_append, casOlds, addCount]
  | runf i =>
    simp only [stepRunf] at h
    split at h
    · rename_i job hget
      simp only [Option.some.injEq] at h; subst h
      left
      simp [runJob, stepClose, casOlds_append, addCount_append, casOlds, addCount]
    · rename_i job v hget
      split at h
      · rename_i hge
        simp only [Option.some.injEq] at h; subst h
        left
        simp [runJob, stepClose, casOlds_append, addCount_append, casOlds, addCount]
      · rename_i hlt
        split at h
        · rename_i hcas
          simp only [Option.some.injEq] at h; subst h
          have h0 : 0 ≤ v := by rw [← hcas, hc]; positivity
          have hw : wrap64 (v + 1) = v + 1 := wrap64_eq _ (by omega) (by omega)
          right; left
          refine ⟨by omega, ?_, Who.runf i, ?_⟩
          · simp only [hw, hcas]
          · simp only [hcas]
        · rename_i hne
          simp only [Option.some.injEq] at h; subst h
          left
          simp [runJob, stepClose, casOlds_append, addCount_append, casOlds, addCount]
    · rename_i job hget
      simp only [Option.some.injEq] at h; subst h
      left
      simp [runJob, stepClose, casOlds_append, addCount_append, casOlds, addCount]
    · simp at h
    · simp at h
    · simp at h
  | deQueue k ack =>
    simp only [stepDeQueue] at h
    split at h
    · rename_i hpc
      split at h
      · rename_i job q heq
        simp only [Option.some.injEq] at h; subst h
        left
        simp [runJob, stepClose, casOlds_append, addCount_append, casOlds, addCount]
      · simp at h
    · simp at h
  | deQueueOther job ack =>
    simp only [stepDeQueueOther] at h
    split at h
    · rename_i hpc
      simp only [Option.some.injEq] at h; subst h
      left
      simp [runJob, stepClose, casOlds_append, addCount_append, casOlds, addCount]
    · simp at h
  | deQueueClosed =>
    simp only [stepDeQueueClosed] at h
    split at h
    · rename_i hpc
      simp only [Option.some.injEq] at h; subst h
      left
      simp [runJob, stepClose, casOlds_append, addCount_append, casOlds, addCount]
    · simp at h
  | loop =>
    simp only [stepLoop] at h
    split at h
    · simp at h
    · rename_i job ack hpc
      simp only [Option.some.injEq] at h; subst h
      left
      simp [runJob, stepClose, casOlds_append, addCount_append, casOlds, addCount]
    · rename_i job ack v hpc
      split at h
      · rename_i hge
        simp only [Option.some.injEq] at h; subst h
        left
        simp [runJob, stepClose, casOlds_append, addCount_append, casOlds, addCount]
      · rename_i hlt
        split at h
        · rename_i hcas
          simp only [Option.some.injEq] at h; subst h
          simp only [slotsHeld, hpc, LoopPc.holdsSlot] at hc
          have h0 : 0 ≤ v := by rw [← hcas, hc]; positivity
          have hw : wrap64 (v + 1) = v + 1 := wrap64_eq _ (by omega) (by omega)
          right; left
          refine ⟨by omega, ?_, Who.loop, ?_⟩
          · simp only [hw, hcas]
          · simp only [hcas]
        · rename_i hne
          simp only [Option.some.injEq] at h; subst h
          left
          simp [runJob, stepClose, casOlds_append, addCount_append, casOlds, addCount]
    · rename_i job ack hpc
      simp only [Option.some.injEq] at h; subst h
      left
      simp [runJob, stepClose, casOlds_append, addCount_append, casOlds, addCount]
    · rename_i job ack hpc
      cases ack with
      | some a =>
        simp only [Option.some.injEq] at h; subst h
        left
        simp [runJob, stepClose, casOlds_append, addCount_append, casOlds, addCount]
      | none =>
        simp only [Option.some.injEq] at h; subst h
        left
        simp [runJob, stepClose, casOlds_append, addCount_append, casOlds, addCount]
    · simp at h
  | go g =>
    simp only [stepGo] at h
    split at h
    · rename_i job hget
      simp only [Option.some.injEq] at h; subst h
      left
      simp [runJob, stepClose, casOlds_append, addCount_append, casOlds, addCount]
    · rename_i p hget
      split at h
      · rename_i hout
        simp only [Option.some.injEq] at h; subst h
        left
        simp [runJob, stepClose, casOlds_append, addCount_append, casOlds, addCount]
      · rename_i hout
        simp only [Option.some.injEq] at h; subst h
        left
        simp [runJob, stepClose, casOlds_append, addCount_append, casOlds, addCount]
      · rename_i hout
        simp only [Option.some.injEq] at h; subst h
        left
        simp [runJob, stepClose, casOlds_append, addCount_append, casOlds, addCount]
    · rename_i p hget
      split at h
      · rename_i hneg
        simp only [Option.some.injEq] at h; subst h
        left
        simp [runJob, stepClose, casOlds_append, addCount_append, casOlds, addCount]
      · rename_i hok
        simp only [Option.some.injEq] at h; subst h
        left
        simp [runJob, stepClose, casOlds_append, addCount_append, casOlds, addCount]
    · rename_i p hget
      simp only [Option.some.injEq] at h; subst h
      have hs := sum_map_set GoPc.holdsSlot s.gos g (GoPc.atExit p) _ hget
      simp only [GoPc.holdsSlot] at hs
      have hw : wrap64 (s.count - 1) = s.count - 1 := by
        apply wrap64_eq
        · rw [hc]; simp only [slotsHeld]; omega
        · omega
      right; right
      exact ⟨hw, g, rfl⟩
    · rename_i p hget
      split at h
      · rename_i hp
        simp only [Option.some.injEq] at h; subst h
        left
        simp [runJob, stepClose, casOlds_append, addCount_append, casOlds, addCount]
      · rename_i hp
        simp only [Option.some.injEq] at h; subst h
        left
        simp [runJob, stepClose, casOlds_append, addCount_append, casOlds, addCount]
    · simp at h
    · simp at h
    · simp at h
  | Close =>
    simp only [Option.some.injEq] at h; subst h
    left
    simp [runJob, stepClose, casOlds_append, addCount_append, casOlds, addCount]
  | wait =>
    simp only [stepWait] at h
    split at h
    · rename_i hcl
      split at h
      · rename_i hz
        simp only [Option.some.injEq] at h; subst h
        left
        simp [runJob, stepClose, casOlds_append, addCount_append, casOlds, addCount]
      · rename_i hnz
        simp only [Option.some.injEq] at h; subst h
        left
        simp [runJob, stepClose, casOlds_append, addCount_append, casOlds, addCount]
    · simp at h
  | waitReturn =>
    simp only [stepWaitReturn] at h
    split at h
    · rename_i hrel
      simp only [Option.some.injEq] at h; subst h
      left
      simp [runJob, stepClose, casOlds_append, addCount_append, casOlds, addCount]
    · simp at h

theorem isCountAdd_inHandler (g : Nat) (e : Event) :
    (Event.isCountAdd g e && Event.inHandler g e) = Event.isCountAdd g e := by
  cases e <;> simp [Event.isCountAdd, Event.inHandler]

theorem addsOf_handlerTrace (g : Nat) (tr : List Event) :
    addsOf g (handlerTrace g tr) = addsOf g tr := by
  simp only [addsOf, handlerTrace, List.filter_filter, isCountAdd_inHandler]

theorem addsOf_take_le (g k : Nat) : addsOf g ((handlerEvents g).take k) ≤ 1 := by
  rcases k with _ | _ | _ | _ | k <;> simp [addsOf, handlerEvents, Event.isCountAdd]

theorem addsOf_le_one (s : State) (inv : GoInv s) (g : Nat) : addsOf g s.trace ≤ 1 := by
  rw [← addsOf_handlerTrace, inv.handler g]
  exact addsOf_take_le g _

theorem addsOf_not_started (s : State) (inv : GoInv s) (g : Nat) (hg : s.gos.length ≤ g) :
    addsOf g s.trace = 0 := by
  rw [← addsOf_handlerTrace, inv.handler g]
  have h0 : handlerStepsOf s g = 0 := by
    simp [handlerStepsOf, List.getElem?_eq_none hg]
  simp [h0, addsOf]

/-! ## Handler, loop and acknowledge lemmas -/

theorem sum_map_eq_zero {α : Type} (w : α → Nat) (l : List α) (h : (l.map w).sum = 0) :
    ∀ x ∈ l, w x = 0 := by
  induction l with
  | nil => simp
  | cons a t ih =>
    simp only [List.map_cons, List.sum_cons] at h
    intro x hx
    rcases List.mem_cons.mp hx with hx | hx
    · subst hx
      omega
    · exact ih (by omega) x hx

theorem unplaced_eq_zero (pc : RunfPc) (h : pc.unplaced = 0) : pc.isOver = true := by
  cases pc <;> simp [RunfPc.unplaced, RunfPc.isOver] at h ⊢

theorem holdsJob_eq_zero (pc : LoopPc) (h : pc.holdsJob = 0) : pc.heldJob = [] := by
  cases pc <;> simp [LoopPc.holdsJob, LoopPc.heldJob] at h ⊢

theorem nothing_unfinished (s : State) (h : unfinishedJobs s = 0) :
    s.jobs.items = [] ∧ (∀ pc ∈ s.runfs, pc.isOver = true) ∧ s.loop.heldJob = []
      ∧ ∀ pc ∈ s.gos, pc.unfinished = 0 := by
  simp only [unfinishedJobs] at h
  refine ⟨?_, ?_, ?_, ?_⟩
  · exact List.length_eq_zero.mp (by omega)
  · intro pc hpc
    exact unplaced_eq_zero pc (sum_map_eq_zero RunfPc.unplaced s.runfs (by omega) pc hpc)
  · exact holdsJob_eq_zero s.loop (by omega)
  · exact sum_map_eq_zero GoPc.unfinished s.gos (by omega)

theorem get_lt_length {α : Type} (l : List α) (i : Nat) (y : α) (h : l[i]? = some y) :
    i < l.length := by
  rcases Nat.lt_or_ge i l.length with hlt | hge
  · exact hlt
  · rw [List.getElem?_eq_none hge] at h
    simp at h

theorem get_set_self {α : Type} (l : List α) (i : Nat) (x y : α) (h : l[i]? = some y) :
    (l.set i x)[i]? = some x := by
  rw [get_set_cases l i i x y h]
  simp

/-- The handler of goroutine `g`, run without interruption from line 96, when the
guard returns and `wg.Done()` does not leave the counter negative. -/
theorem handler_run (s : State) (g : Nat) (job : Job) (hcr : s.crashed = false)
    (hget : s.gos[g]? = some (GoPc.atCall job))
    (hout : s.recoverFunc.outcome = GuardOutcome.returns)
    (hd : 0 ≤ wrap32 (s.wg - 1)) :
    exec s [Action.go g, Action.go g, Action.go g, Action.go g]
      = some { s with
          wg := wrap32 (s.wg - 1)
          count := wrap64 (s.count - 1)
          gos := s.gos.set g (GoPc.atExit
            (s.recoverFunc.call (decide (job.f job.ctx job.args = Outcome.panicked))))
          waiters := if wrap32 (s.wg - 1) = 0 then 0 else s.waiters
          released := if wrap32 (s.wg - 1) = 0 then s.released + s.waiters else s.released
          trace := s.trace ++ handlerEvents g } := by
  have h1 := get_set_self s.gos g
    (GoPc.atRecover (decide (job.f job.ctx job.args = Outcome.panicked))) _ hget
  have h2 := get_set_self _ g
    (GoPc.atDone (s.recoverFunc.call (decide (job.f job.ctx job.args = Outcome.panicked)))) _ h1
  have h3 := get_set_self _ g
    (GoPc.atAdd (s.recoverFunc.call (decide (job.f job.ctx job.args = Outcome.panicked)))) _ h2
  have hd2 : ¬ wrap32 (s.wg - 1) < 0 := by omega
  simp only [List.set_set] at h2 h3
  simp [exec, step, stepGo, hcr, hget, h1, h2, h3, hout, hd2, List.set_set, handlerEvents]

theorem loop_run (s : State) (job : Job) (ack : Option Ack) (hcr : s.crashed = false)
    (hpc : s.loop = LoopPc.atLoad job ack) (hfree : s.count < s.size) :
    exec s [Action.loop, Action.loop, Action.loop]
      = some { s with
          count := wrap64 (s.count + 1)
          loop := LoopPc.atAck job ack
          gos := s.gos ++ [GoPc.atCall job]
          trace := s.trace ++ [Event.cas Who.loop s.count, Event.runJob Who.loop job] } := by
  have h1 : ¬ s.count ≥ s.size := by omega
  simp [exec, step, stepLoop, hcr, hpc, h1, runJob]

theorem filterMap_filter_byLoop (f : Event → Option Ack) (tr : List Event)
    (hf : ∀ e, Event.byLoop e = false → f e = none) :
    (tr.filter Event.byLoop).filterMap f = tr.filterMap f := by
  induction tr with
  | nil => simp
  | cons e t ih =>
    cases hb : Event.byLoop e
    · simp [List.filter_cons, hb, List.filterMap_cons, hf e hb, ih]
    · simp [List.filter_cons, hb, List.filterMap_cons, ih]

theorem ackOf_not_byLoop (e : Event) (h : Event.byLoop e = false) : Event.ackOf e = none := by
  cases e <;> simp [Event.byLoop, Event.ackOf] at h ⊢

theorem ackTrace_iters (its : List LoopIter) :
    (its.flatMap LoopIter.events).filterMap Event.ackOf = its.filterMap LoopIter.ack := by
  induction its with
  | nil => simp
  | cons it t ih =>
    rcases it with ⟨job, ack, old⟩
    cases ack <;>
      simp [List.flatMap_cons, List.filterMap_append, LoopIter.events, ackEvents, Event.ackOf,
        List.filterMap_cons, ih]

theorem ackTrace_pending (v : Int) (pc : LoopPc) : (pc.events v).filterMap Event.ackOf = [] := by
  cases pc <;> simp [LoopPc.events, Event.ackOf]

/-- Whether or not the guard calls `recover()`, a job whose callable panics ends
the process once its handler is through. -/
theorem panic_not_recovered (s : State) (g : Nat) (job : Job) (hcr : s.crashed = false)
    (hget : s.gos[g]? = some (GoPc.atCall job))
    (hout : s.recoverFunc.outcome = GuardOutcome.returns)
    (hd : 0 ≤ wrap32 (s.wg - 1))
    (hp : job.f job.ctx job.args = Outcome.panicked) :
    exec s [Action.go g, Action.go g, Action.go g, Action.go g, Action.go g]
      = some { s with
          wg := wrap32 (s.wg - 1)
          count := wrap64 (s.count - 1)
          gos := s.gos.set g GoPc.exited
          waiters := if wrap32 (s.wg - 1) = 0 then 0 else s.waiters
          released := if wrap32 (s.wg - 1) = 0 then s.released + s.waiters else s.released
          crashed := true
          trace := s.trace ++ handlerEvents g ++ [Event.crash g] } := by
  have hcall : s.recoverFunc.call true = true := by
    cases hr : s.recoverFunc.callsRecover <;> simp [RecoverFunc.call, hr, recover]
  have h1 := get_set_self s.gos g (GoPc.atRecover true) _ hget
  have h2 := get_set_self _ g (GoPc.atDone true) _ h1
  have h3 := get_set_self _ g (GoPc.atAdd true) _ h2
  have h4 := get_set_self _ g (GoPc.atExit true) _ h3
  have hd2 : ¬ wrap32 (s.wg - 1) < 0 := by omega
  simp only [List.set_set] at h2 h3 h4
  simp [exec, step, stepGo, hcr, hget, hp, hcall, hout, hd2, h1, h2, h3, h4, List.set_set,
    handlerEvents]


/-- A loop that holds a job and finds no free slot goes round its inner loop and
is where it was (lines 109-112). -/
theorem loop_spin (s : State) (job : Job) (ack : Option Ack) (hcr : s.crashed = false)
    (hpc : s.loop = LoopPc.atLoad job ack) (hfull : s.count ≥ s.size) :
    exec s [Action.loop, Action.loop] = some s := by
  simp only [exec, step, stepLoop, hcr, hpc, Bool.false_eq_true, if_false, hfull, if_true,
    Option.some.injEq]
  cases s
  simp_all

/-! ## Effects without wrap-around, and runs of submissions -/

theorem single_le_sum {α : Type} (w : α → Nat) (l : List α) (y : α) (h : y ∈ l) :
    w y ≤ (l.map w).sum := by
  induction l with
  | nil => simp at h
  | cons a t ih =>
    simp only [List.map_cons, List.sum_cons]
    rcases List.mem_cons.mp h with h | h
    · subst h
      omega
    · have := ih h
      omega

/-- A successful compare-and-swap raises `count` by one. -/
theorem cas_effect (s s1 : State) (a : Action) (inv : SlotInv s) (h : step s a = some s1)
    (w : Who) (v : Int) (htr : s1.trace = s.trace ++ [Event.cas w v]) :
    s.count = v ∧ v < s.size ∧ s1.count = s.count + 1 ∧ s1.wg = s.wg ∧ s1.gos = s.gos := by
  obtain ⟨h1, h2, h3, h4, _, h6⟩ := (step_effect s s1 a h).2.2.2.2.2.1 w v htr
  have h0 : 0 ≤ s.count := by rw [inv.count_eq]; positivity
  have hlt := inv.size_lt
  refine ⟨h1, h2, ?_, h4, h6⟩
  rw [h3, h1, wrap64_eq _ (by omega) (by omega)]

/-- The statement `e.count.Add(-1)` lowers `count` by one. -/
theorem add_effect (s s1 : State) (a : Action) (inv : SlotInv s) (h : step s a = some s1)
    (g : Nat) (htr : s1.trace = s.trace ++ [Event.countAdd g]) :
    s1.count = s.count - 1 ∧ s1.wg = s.wg := by
  obtain ⟨⟨p, hp⟩, h2, h3, _⟩ := (step_effect s s1 a h).2.2.2.2.2.2.2.2.2.2.2.2 g htr
  have hmem := single_le_sum GoPc.holdsSlot s.gos _ (List.getElem?_mem hp)
  simp only [GoPc.holdsSlot] at hmem
  have hc := inv.count_eq
  have hlt := inv.size_lt
  simp only [slotsHeld] at hc
  refine ⟨?_, h3⟩
  rw [h2, wrap64_eq _ (by omega) (by rcases inv.count_le with h | h <;> omega)]

theorem exec_append (s : State) (a b : List Action) :
    exec s (a ++ b) = (exec s a).bind (fun s1 => exec s1 b) := by
  induction a generalizing s with
  | nil => rfl
  | cons x rest ih =>
    simp only [List.cons_append, exec]
    split
    · rename_i s1 h1
      simp [ih]
    · simp

/-- The state after `n` calls of `Runf` have executed lines 57-58, as long as the
counter of the WaitGroup stays below `2^31`. -/
theorem entries_run (n : Nat) (s : State) (hcr : s.crashed = false) (h0 : 0 ≤ s.wg)
    (hlt : s.wg + (n : Int) < 2 ^ 31) :
    ∃ s1, exec s (List.replicate n enterOnly) = some s1 ∧ s1.crashed = false
      ∧ s1.wg = s.wg + (n : Int)
      ∧ unfinishedJobs s1 = unfinishedJobs s + n := by
  induction n generalizing s with
  | zero => exact ⟨s, rfl, hcr, by simp, rfl⟩
  | succ n ih =>
    push_cast at hlt
    have hwr : wrap32 (s.wg + 1) = s.wg + 1 := wrap32_eq _ (by omega) (by omega)
    have hok : ¬ wrap32 (s.wg + 1) < 0 := by omega
    have hstep : step s enterOnly = some (enterRunf s 0 returningJob []) := by
      simp [step, hcr, enterOnly]
    have hen : enterRunf s 0 returningJob []
        = { s with
            wg := wrap32 (s.wg + 1)
            runfs := s.runfs ++ [RunfPc.atLoad (NewJob 0 returningJob [])]
            trace := s.trace ++ [Event.wgAdd (NewJob 0 returningJob [])] } := by
      simp [enterRunf, hok]
    obtain ⟨s1, h1, h2, h3, h4⟩ := ih (enterRunf s 0 returningJob [])
      (by rw [hen]; exact hcr) (by rw [hen]; show 0 ≤ wrap32 (s.wg + 1); omega)
      (by rw [hen]; show wrap32 (s.wg + 1) + (n : Int) < 2 ^ 31; omega)
    refine ⟨s1, ?_, h2, ?_, ?_⟩
    · simp only [List.replicate_succ, exec, hstep]
      exact h1
    · rw [h3, hen]
      show wrap32 (s.wg + 1) + (n : Int) = s.wg + ((n + 1 : Nat) : Int)
      push_cast
      omega
    · rw [h4, hen]
      simp only [unfinishedJobs, List.map_append, List.sum_append, List.map_cons, List.map_nil,
        List.sum_cons, List.sum_nil, RunfPc.unplaced]
      omega

/-- The call of `Runf` that follows `2^31 - 1` unfinished jobs leaves the counter
of the WaitGroup negative. -/
theorem entries_overflow (N : Int) (n : Nat) (hn : (n : Int) + 1 = 2 ^ 31) :
    ∃ s, exec (fresh N) (List.replicate n enterOnly ++ [enterOnly]) = some s
      ∧ s.wg = -2 ^ 31 ∧ unfinishedJobs s = n := by
  obtain ⟨s1, h1, h2, h3, h4⟩ := entries_run n (fresh N) rfl (le_refl (0 : Int))
    (by show (0 : Int) + (n : Int) < 2 ^ 31; omega)
  have hw : s1.wg = (n : Int) := by
    rw [h3]
    show (0 : Int) + (n : Int) = n
    omega
  have hneg : wrap32 (s1.wg + 1) < 0 := by
    rw [hw, hn]
    decide
  have hval : wrap32 (s1.wg + 1) = -2 ^ 31 := by
    rw [hw, hn]
    decide
  refine ⟨enterRunf s1 0 returningJob [], ?_, ?_, ?_⟩
  · rw [exec_append, h1]
    simp [exec, step, h2, enterOnly]
  · simp only [enterRunf, hneg, if_true]
    exact hval
  · rw [show unfinishedJobs (enterRunf s1 0 returningJob []) = unfinishedJobs s1 from by
      simp [enterRunf, hneg, unfinishedJobs, RunfPc.unplaced]]
    rw [h4]
    show 0 + n = n
    omega

/-- A step of a goroutine that raises the number of released calls of `Wait` is a
`wg.Done()` that has brought the counter to zero. -/
theorem done_release (s s1 : State) (g : Nat) (hs : step s (Action.go g) = some s1)
    (hrel : s.released < s1.released) :
    s1.wg = 0 ∧ s1.trace = s.trace ++ [Event.wgDone g] := by
  unfold step at hs
  split at hs
  · simp at hs
  simp only [stepGo] at hs
  split at hs
  · simp only [Option.some.injEq] at hs; subst hs; simp at hrel
  · split at hs <;> (simp only [Option.some.injEq] at hs; subst hs; simp at hrel)
  · split at hs
    · simp only [Option.some.injEq] at hs; subst hs; simp at hrel
    · simp only [Option.some.injEq] at hs; subst hs
      by_cases hz : wrap32 (s.wg - 1) = 0
      · exact ⟨hz, rfl⟩
      · simp [hz] at hrel
  · simp only [Option.some.injEq] at hs; subst hs; simp at hrel
  · split at hs <;> (simp only [Option.some.injEq] at hs; subst hs; simp at hrel)
  · simp at hs
  · simp at hs
  · simp at hs

/-! ## Whole calls of `Runf` -/

theorem set_concat_length {α : Type} (l : List α) (x y : α) :
    (l ++ [x]).set l.length y = l ++ [y] := by
  induction l with
  | nil => rfl
  | cons a t ih => simp [ih]

/-- A call of `Runf` that finds the dispatcher saturated enqueues its job. -/
theorem callRunf_saturated (s : State) (ctx : Context) (task : FuncArgs) (args : List Any)
    (hcr : s.crashed = false) (hwg : 0 ≤ wrap32 (s.wg + 1)) (hge : s.count ≥ s.size) :
    callRunf s ctx task args
      = some { s with
          wg := wrap32 (s.wg + 1)
          jobs := s.jobs.EnQueue (NewJob ctx task args)
          runfs := s.runfs ++ [RunfPc.returned]
          trace := s.trace
            ++ [Event.wgAdd (NewJob ctx task args), Event.enQueue (NewJob ctx task args)] } := by
  have hok : ¬ wrap32 (s.wg + 1) < 0 := by omega
  simp [callRunf, step, hcr, enterRunf, hok, driveRunf, runfReturned, stepRunf, hge,
    set_concat_length]

/-- A call of `Runf` that finds a free slot takes it and starts its job. -/
theorem callRunf_free (s : State) (ctx : Context) (task : FuncArgs) (args : List Any)
    (hcr : s.crashed = false) (hwg : 0 ≤ wrap32 (s.wg + 1)) (hlt : s.count < s.size) :
    callRunf s ctx task args
      = some { s with
          wg := wrap32 (s.wg + 1)
          count := wrap64 (s.count + 1)
          runfs := s.runfs ++ [RunfPc.returned]
          gos := s.gos ++ [GoPc.atCall (NewJob ctx task args)]
          trace := s.trace
            ++ [Event.wgAdd (NewJob ctx task args), Event.cas (Who.runf s.runfs.length) s.count,
                Event.runJob (Who.runf s.runfs.length) (NewJob ctx task args)] } := by
  have h1 : ¬ s.count ≥ s.size := by omega
  have hok : ¬ wrap32 (s.wg + 1) < 0 := by omega
  simp [callRunf, step, hcr, enterRunf, hok, driveRunf, runfReturned, stepRunf, h1,
    set_concat_length, runJob]

/-- A call of `Runf` whose `wg.Add(1)` leaves the counter negative does not
return: it panics at line 57. -/
theorem callRunf_overflow (s : State) (ctx : Context) (task : FuncArgs) (args : List Any)
    (hwg : wrap32 (s.wg + 1) < 0) : callRunf s ctx task args = none := by
  cases hcr : s.crashed
  · simp [callRunf, step, hcr, enterRunf, hwg, driveRunf, runfReturned, stepRunf]
  · simp [callRunf, step, hcr]

theorem newJob_eta (job : Job) : NewJob job.ctx job.f job.args = job := by
  cases job
  rfl

theorem solo_fresh (N : Int) (hN : 0 < N) : Solo N [] (fresh N) := by
  have h0 : N ≠ 0 := by omega
  constructor <;>
    simp [fresh, New, applyOptions, withSize, h0, runfStarted, enqueuedJobs, loopStarted,
      newJobChan]
  omega

theorem solo_call (N : Int) (hN : 0 < N) (h64 : N < 2 ^ 63) (done : List Job) (s : State)
    (job : Job) (inv : Solo N done s) (hK : (done.length : Int) + 1 < 2 ^ 31) :
    ∃ s1, callRunf s job.ctx job.f job.args = some s1 ∧ Solo N (done ++ [job]) s1 := by
  obtain ⟨hsz, hcr, hc, hw, hst, henq, hit, hgl, hgos, hlp, hpc⟩ := inv
  have hn : (N.toNat : Int) = N := Int.toNat_of_nonneg (by omega)
  have hlen : (done ++ [job]).length = done.length + 1 := by simp
  have hwr : wrap32 (s.wg + 1) = s.wg + 1 := wrap32_eq _ (by omega) (by omega)
  have hwg : 0 ≤ wrap32 (s.wg + 1) := by omega
  rcases Nat.lt_or_ge done.length N.toNat with hlt | hge
  · have hcount : s.count = (done.length : Int) := by
      rw [hc]
      exact min_eq_left (by omega)
    have hfree : s.count < s.size := by omega
    refine ⟨_, callRunf_free s job.ctx job.f job.args hcr hwg hfree, ?_⟩
    rw [newJob_eta]
    have hwrap : wrap64 (s.count + 1) = s.count + 1 := wrap64_eq _ (by omega) (by omega)
    have ht1 : done.take N.toNat = done := List.take_of_length_le (by omega)
    have ht2 : (done ++ [job]).take N.toNat = done ++ [job] :=
      List.take_of_length_le (by omega)
    have hd1 : done.drop N.toNat = [] := List.drop_of_length_le (by omega)
    have hd2 : (done ++ [job]).drop N.toNat = [] := List.drop_of_length_le (by omega)
    refine ⟨hsz, hcr, ?_, ?_, ?_, ?_, ?_, ?_, ?_, ?_, hpc⟩
    · show wrap64 (s.count + 1) = _
      rw [hwrap, hlen, hcount]
      push_cast
      exact (min_eq_left (by omega)).symm
    · show wrap32 (s.wg + 1) = _
      rw [hwr, hlen, hw]
      push_cast
      rfl
    · show runfStarted (s.trace ++ _) = _
      unfold runfStarted at hst ⊢
      rw [List.filterMap_append, hst, ht1, ht2]
      rfl
    · show enqueuedJobs (s.trace ++ _) = _
      unfold enqueuedJobs at henq ⊢
      rw [List.filterMap_append, henq, hd1, hd2]
      rfl
    · show s.jobs.items = _
      rw [hit, hd1, hd2]
    · show (s.gos ++ _).length = _
      rw [List.length_append, hgl, hlen]
      simp only [List.length_singleton]
      omega
    · show s.gos ++ [GoPc.atCall job] = _
      rw [hgos, ht1, ht2, List.map_append]
      rfl
    · show loopStarted (s.trace ++ _) = _
      unfold loopStarted at hlp ⊢
      rw [List.filterMap_append, hlp]
      rfl
  · have hcount : s.count = N := by
      rw [hc]
      exact min_eq_right (by omega)
    have hfull : s.count ≥ s.size := by omega
    refine ⟨_, callRunf_saturated s job.ctx job.f job.args hcr hwg hfull, ?_⟩
    rw [newJob_eta]
    have ht2 : (done ++ [job]).take N.toNat = done.take N.toNat :=
      List.take_append_of_le_length hge
    have hd2 : (done ++ [job]).drop N.toNat = done.drop N.toNat ++ [job] :=
      List.drop_append_of_le_length hge
    refine ⟨hsz, hcr, ?_, ?_, ?_, ?_, ?_, ?_, ?_, ?_, hpc⟩
    · show s.count = _
      rw [hcount, hlen]
      push_cast
      exact (min_eq_right (by omega)).symm
    · show wrap32 (s.wg + 1) = _
      rw [hwr, hlen, hw]
      push_cast
      rfl
    · show runfStarted (s.trace ++ _) = _
      unfold runfStarted at hst ⊢
      rw [List.filterMap_append, hst, ht2]
      exact List.append_nil _
    · show enqueuedJobs (s.trace ++ _) = _
      unfold enqueuedJobs at henq ⊢
      rw [List.filterMap_append, henq, hd2]
      rfl
    · show s.jobs.items ++ [job] = _
      rw [hit, hd2]
    · show s.gos.length = _
      rw [hgl, hlen]
      omega
    · show s.gos = _
      rw [hgos, ht2]
    · show loopStarted (s.trace ++ _) = _
      unfold loopStarted at hlp ⊢
      rw [List.filterMap_append, hlp]
      rfl

theorem solo_submitAll (N : Int) (hN : 0 < N) (h64 : N < 2 ^ 63) (jobs done : List Job)
    (s : State) (inv : Solo N done s)
    (hK : (done.length : Int) + (jobs.length : Int) < 2 ^ 31) :
    ∃ s1, submitAll s jobs = some s1 ∧ Solo N (done ++ jobs) s1 := by
  induction jobs generalizing done s with
  | nil => exact ⟨s, rfl, by simpa using inv⟩
  | cons job rest ih =>
    simp only [List.length_cons] at hK
    push_cast at hK
    obtain ⟨s1, h1, inv1⟩ := solo_call N hN h64 done s job inv (by omega)
    obtain ⟨s2, h2, inv2⟩ := ih (done ++ [job]) s1 inv1 (by simp; omega)
    refine ⟨s2, ?_, by simpa using inv2⟩
    simp [submitAll, h1, h2]

theorem submitAll_append (s : State) (a b : List Job) :
    submitAll s (a ++ b) = (submitAll s a).bind (fun s1 => submitAll s1 b) := by
  induction a generalizing s with
  | nil => rfl
  | cons job rest ih =>
    simp only [List.cons_append, submitAll]
    split
    · rename_i s1 h1
      simp [ih]
    · simp

/-- After `2^31 - 1` jobs no further call of `Runf` returns. -/
theorem submitAll_overflow (N : Int) (hN : 0 < N) (h64 : N < 2 ^ 63) (job : Job) (n : Nat)
    (hn : (n : Int) + 1 = 2 ^ 31) :
    submitAll (fresh N) (List.replicate n job ++ [job]) = none := by
  obtain ⟨s1, h1, inv⟩ := solo_submitAll N hN h64 (List.replicate n job) []
    (fresh N) (solo_fresh N hN) (by
      rw [List.length_replicate, List.length_nil]
      push_cast
      omega)
  have hw : s1.wg = (n : Int) := by
    rw [inv.wg_eq, List.nil_append, List.length_replicate]
  have hneg : wrap32 (s1.wg + 1) < 0 := by
    rw [hw, hn]
    decide
  rw [submitAll_append, h1]
  simp only [Option.bind, submitAll, callRunf_overflow s1 job.ctx job.f job.args hneg]

/-! ## Submissions one after another -/

theorem proj_concat {β : Type} (f : Event → Option β) (tr : List Event) (e : Event) (j : β)
    (h : f e = some j) : (tr ++ [e]).filterMap f = tr.filterMap f ++ [j] := by
  simp [List.filterMap_append, List.filterMap_cons, h]

theorem proj_concat_none {β : Type} (f : Event → Option β) (tr : List Event) (e : Event)
    (h : f e = none) : (tr ++ [e]).filterMap f = tr.filterMap f := by
  simp [List.filterMap_append, List.filterMap_cons, h]

theorem flatMap_set_same {α β : Type} (f : α → List β) (l : List α) (i : Nat) (x y : α)
    (h : l[i]? = some y) (hf : f x = f y) : (l.set i x).flatMap f = l.flatMap f := by
  induction l generalizing i with
  | nil => simp at h
  | cons a t ih =>
    cases i with
    | zero =>
      simp at h
      subst h
      simp [List.flatMap_cons, hf]
    | succ n =>
      simp at h
      simp [List.flatMap_cons, ih n h]

theorem pending_of_unplaced_zero (pc : RunfPc) (h : pc.unplaced = 0) : pc.pending = [] := by
  cases pc <;> simp [RunfPc.unplaced, RunfPc.pending] at h ⊢

theorem holdsSlot_of_unplaced_zero (pc : RunfPc) (h : pc.unplaced = 0) : pc.holdsSlot = 0 := by
  cases pc <;> simp [RunfPc.unplaced, RunfPc.holdsSlot] at h ⊢

theorem unplaced_le_one (pc : RunfPc) : pc.unplaced ≤ 1 := by
  cases pc <;> simp [RunfPc.unplaced]

theorem pending_nil_of_idle (l : List RunfPc) (h : (l.map RunfPc.unplaced).sum = 0) :
    l.flatMap RunfPc.pending = [] ∧ (l.map RunfPc.holdsSlot).sum = 0 := by
  induction l with
  | nil => simp
  | cons a t ih =>
    simp only [List.map_cons, List.sum_cons] at h
    have ha : a.unplaced = 0 := by omega
    have ht := ih (by omega)
    simp [List.flatMap_cons, pending_of_unplaced_zero a ha, holdsSlot_of_unplaced_zero a ha, ht]

/-- With at most one call in progress, that call is the only one that counts. -/
theorem only_call (l : List RunfPc) (i : Nat) (x y : RunfPc)
    (hU : (l.map RunfPc.unplaced).sum ≤ 1) (h : l[i]? = some y) (hy : y.unplaced = 1) :
    l.flatMap RunfPc.pending = y.pending
      ∧ (l.set i x).flatMap RunfPc.pending = x.pending
      ∧ (l.map RunfPc.holdsSlot).sum = y.holdsSlot
      ∧ ((l.set i x).map RunfPc.holdsSlot).sum = x.holdsSlot := by
  induction l generalizing i with
  | nil => simp at h
  | cons a t ih =>
    simp only [List.map_cons, List.sum_cons] at hU
    cases i with
    | zero =>
      simp at h
      subst h
      have ht := pending_nil_of_idle t (by omega)
      simp [List.flatMap_cons, ht]
    | succ n =>
      simp at h
      have hs := sum_map_set RunfPc.unplaced t n y y h
      have hpos : 1 ≤ (t.map RunfPc.unplaced).sum := by
        have := sum_map_eq_zero RunfPc.unplaced t
        by_contra hc
        have h0 : (t.map RunfPc.unplaced).sum = 0 := by omega
        have := this h0 y (List.getElem?_mem h)
        omega
      have ha : a.unplaced = 0 := by omega
      obtain ⟨h1, h2, h3, h4⟩ := ih n (by omega) h
      refine ⟨?_, ?_, ?_, ?_⟩
      · rw [List.flatMap_cons, pending_of_unplaced_zero a ha, h1]
        rfl
      · rw [List.set_cons_succ, List.flatMap_cons, pending_of_unplaced_zero a ha, h2]
        rfl
      · rw [List.map_cons, List.sum_cons, holdsSlot_of_unplaced_zero a ha, h3]
        omega
      · rw [List.set_cons_succ, List.map_cons, List.sum_cons, holdsSlot_of_unplaced_zero a ha, h4]
        omega

theorem noCallInProgress_iff (s : State) :
    noCallInProgress s = true ↔ (s.runfs.map RunfPc.unplaced).sum = 0 := by
  unfold noCallInProgress
  induction s.runfs with
  | nil => simp
  | cons a t ih =>
    cases a <;> simp [RunfPc.isOver, RunfPc.unplaced, ih] <;> simpa using ih

theorem seqInv_fresh (N : Int) (hN : 0 < N) : SeqInv N (fresh N) := by
  have h0 : N ≠ 0 := by omega
  constructor <;>
    simp [fresh, New, applyOptions, withSize, h0, runfStarted, enqueuedJobs, loopStarted,
      submitted, newJobChan, LoopPc.pastCas, LoopPc.holdsJob]
  omega

theorem seqInv_step (N : Int) (hN : N < 2 ^ 63) (s s1 : State) (a : Action)
    (inv : SeqInv N s) (h : step s a = some s1) (hgo : ∀ g, a ≠ Action.go g)
    (hfs : a.fromStore = true)
    (hent : ∀ c t r, a = Action.Runf c t r → (s.runfs.map RunfPc.unplaced).sum = 0)
    (hent2 : ∀ c t, a = Action.Run c t → (s.runfs.map RunfPc.unplaced).sum = 0) :
    SeqInv N s1 := by
  obtain ⟨hsz, hU, hc, hle, hord, hfull, hchk, hcold, hlf, hif, hln, hgos⟩ := inv
  simp only [runfStarted, enqueuedJobs, submitted, loopStarted] at hc hord hfull hln hgos
  unfold step at h
  split at h
  · simp at h
  rename_i hcr
  cases a with
  | Runf ctx task args =>
    simp only [Option.some.injEq, enterRunf] at h
    split at h
    · rename_i hneg
      subst h
      have hU0 := hent _ _ _ rfl
      obtain ⟨hp0, hH0⟩ := pending_nil_of_idle s.runfs hU0
      refine ⟨hsz, ?_, ?_, ?_, ?_, ?_, ?chk, ?_, ?_, ?_, ?_, ?_⟩
      case chk =>
        intro i1 job1 v1 hi1
        try dsimp only at hi1 ⊢
        try simp only [runJob, stepClose, JobQueue.EnQueue, JobQueue.Close, List.map_append,
            List.sum_append, List.map_cons, List.map_nil, List.sum_cons, List.sum_nil,
            List.length_append, List.length_cons, List.length_nil, RunfPc.unplaced,
            RunfPc.holdsSlot, LoopPc.pastCas, LoopPc.holdsJob, Nat.add_zero] at hi1
        rw [get_append_one] at hi1
        split at hi1
        · simp at hi1
        · have := hchk i1 job1 v1 hi1
          first | assumption | omega
      all_goals
        (try simp only [runfStarted, enqueuedJobs, submitted, loopStarted, runJob, stepClose,
            JobQueue.EnQueue, JobQueue.Close, List.map_append, List.sum_append, List.map_cons,
            List.map_nil, List.sum_cons, List.sum_nil, List.length_append, List.length_cons,
            List.length_nil, RunfPc.unplaced, RunfPc.holdsSlot, LoopPc.pastCas, LoopPc.holdsJob,
            Nat.add_zero, proj_concat_none Event.submittedJob s.trace Event.wgNegative rfl,
            proj_concat_none Event.runfStartedJob s.trace Event.wgNegative rfl,
            proj_concat_none Event.enqueuedJob s.trace Event.wgNegative rfl,
            proj_concat_none Event.loopStartedJob s.trace Event.wgNegative rfl, hp0, hH0,
            List.flatMap_append, List.flatMap_cons, List.flatMap_nil, RunfPc.pending] at *) <;>
        first | assumption | omega | rfl | simp [hord]
    · rename_i hok
      subst h
      have hU0 := hent _ _ _ rfl
      obtain ⟨hp0, hH0⟩ := pending_nil_of_idle s.runfs hU0
      refine ⟨hsz, ?_, ?_, ?_, ?_, ?_, ?chk, ?_, ?_, ?_, ?_, ?_⟩
      case chk =>
        intro i1 job1 v1 hi1
        try dsimp only at hi1 ⊢
        try simp only [runJob, stepClose, JobQueue.EnQueue, JobQueue.Close, List.map_append,
            List.sum_append, List.map_cons, List.map_nil, List.sum_cons, List.sum_nil,
            List.length_append, List.length_cons, List.length_nil, RunfPc.unplaced,
            RunfPc.holdsSlot, LoopPc.pastCas, LoopPc.holdsJob, Nat.add_zero] at hi1
        rw [get_append_one] at hi1
        split at hi1
        · simp at hi1
        · have := hchk i1 job1 v1 hi1
          first | assumption | omega
      all_goals
        (try simp only [runfStarted, enqueuedJobs, submitted, loopStarted, runJob, stepClose,
            JobQueue.EnQueue, JobQueue.Close, List.map_append, List.sum_append, List.map_cons,
            List.map_nil, List.sum_cons, List.sum_nil, List.length_append, List.length_cons,
            List.length_nil, RunfPc.unplaced, RunfPc.holdsSlot, LoopPc.pastCas, LoopPc.holdsJob,
            Nat.add_zero,
            proj_concat Event.submittedJob s.trace (Event.wgAdd (NewJob ctx task args)) (NewJob ctx task args) rfl, proj_concat_none Event.runfStartedJob s.trace (Event.wgAdd (NewJob ctx task args)) rfl, proj_concat_none Event.enqueuedJob s.trace (Event.wgAdd (NewJob ctx task args)) rfl, proj_concat_none Event.loopStartedJob s.trace (Event.wgAdd (NewJob ctx task args)) rfl, hp0, hH0, List.flatMap_append, List.flatMap_cons, List.flatMap_nil, RunfPc.pending] at *) <;>
        first | assumption | omega | rfl | simp [hord]
  | Run ctx task =>
    simp only [Option.some.injEq, enterRun, enterRunf] at h
    split at h
    · rename_i hneg
      subst h
      have hU0 := hent2 _ _ rfl
      obtain ⟨hp0, hH0⟩ := pending_nil_of_idle s.runfs hU0
      refine ⟨hsz, ?_, ?_, ?_, ?_, ?_, ?chk, ?_, ?_, ?_, ?_, ?_⟩
      case chk =>
        intro i1 job1 v1 hi1
        try dsimp only at hi1 ⊢
        try simp only [runJob, stepClose, JobQueue.EnQueue, JobQueue.Close, List.map_append,
            List.sum_append, List.map_cons, List.map_nil, List.sum_cons, List.sum_nil,
            List.length_append, List.length_cons, List.length_nil, RunfPc.unplaced,
            RunfPc.holdsSlot, LoopPc.pastCas, LoopPc.holdsJob, Nat.add_zero] at hi1
        rw [get_append_one] at hi1
        split at hi1
        · simp at hi1
        · have := hchk i1 job1 v1 hi1
          first | assumption | omega
      all_goals
        (try simp only [runfStarted, enqueuedJobs, submitted, loopStarted, runJob, stepClose,
            JobQueue.EnQueue, JobQueue.Close, List.map_append, List.sum_append, List.map_cons,
            List.map_nil, List.sum_cons, List.sum_nil, List.length_append, List.length_cons,
            List.length_nil, RunfPc.unplaced, RunfPc.holdsSlot, LoopPc.pastCas, LoopPc.holdsJob,
            Nat.add_zero, proj_concat_none Event.submittedJob s.trace Event.wgNegative rfl,
            proj_concat_none Event.runfStartedJob s.trace Event.wgNegative rfl,
            proj_concat_none Event.enqueuedJob s.trace Event.wgNegative rfl,
            proj_concat_none Event.loopStartedJob s.trace Event.wgNegative rfl, hp0, hH0,
            List.flatMap_append, List.flatMap_cons, List.flatMap_nil, RunfPc.pending] at *) <;>
        first | assumption | omega | rfl | simp [hord]
    · rename_i hok
      subst h
      have hU0 := hent2 _ _ rfl
      obtain ⟨hp0, hH0⟩ := pending_nil_of_idle s.runfs hU0
      refine ⟨hsz, ?_, ?_, ?_, ?_, ?_, ?chk, ?_, ?_, ?_, ?_, ?_⟩
      case chk =>
        intro i1 job1 v1 hi1
        try dsimp only at hi1 ⊢
        try simp only [runJob, stepClose, JobQueue.EnQueue, JobQueue.Close, List.map_append,
            List.sum_append, List.map_cons, List.map_nil, List.sum_cons, List.sum_nil,
            List.length_append, List.length_cons, List.length_nil, RunfPc.unplaced,
            RunfPc.holdsSlot, LoopPc.pastCas, LoopPc.holdsJob, Nat.add_zero] at hi1
        rw [get_append_one] at hi1
        split at hi1
        · simp at hi1
        · have := hchk i1 job1 v1 hi1
          first | assumption | omega
      all_goals
        (try simp only [runfStarted, enqueuedJobs, submitted, loopStarted, runJob, stepClose,
            JobQueue.EnQueue, JobQueue.Close, List.map_append, List.sum_append, List.map_cons,
            List.map_nil, List.sum_cons, List.sum_nil, List.length_append, List.length_cons,
            List.length_nil, RunfPc.unplaced, RunfPc.holdsSlot, LoopPc.pastCas, LoopPc.holdsJob,
            Nat.add_zero,
            proj_concat Event.submittedJob s.trace (Event.wgAdd (NewJob ctx (runClosure task) [])) (NewJob ctx (runClosure task) []) rfl, proj_concat_none Event.runfStartedJob s.trace (Event.wgAdd (NewJob ctx (runClosure task) [])) rfl, proj_concat_none Event.enqueuedJob s.trace (Event.wgAdd (NewJob ctx (runClosure task) [])) rfl, proj_concat_none Event.loopStartedJob s.trace (Event.wgAdd (NewJob ctx (runClosure task) [])) rfl, hp0, hH0, List.flatMap_append, List.flatMap_cons, List.flatMap_nil, RunfPc.pending] at *) <;>
        first | assumption | omega | rfl | simp [hord]
  | runf i =>
    simp only [stepRunf] at h
    split at h
    · rename_i job hget
      simp only [Option.some.injEq] at h; subst h
      have hsU := sum_map_set RunfPc.unplaced s.runfs i (RunfPc.atCheck job s.count) _ hget
      have hsH := sum_map_set RunfPc.holdsSlot s.runfs i (RunfPc.atCheck job s.count) _ hget
      obtain ⟨ho1, ho2, ho3, ho4⟩ := only_call s.runfs i (RunfPc.atCheck job s.count) _ hU hget rfl
      simp only [RunfPc.pending, RunfPc.holdsSlot, RunfPc.unplaced] at ho1 ho2 ho3 ho4 hsU hsH
      refine ⟨hsz, ?_, ?_, ?_, ?_, ?_, ?chk, ?_, ?_, ?_, ?_, ?_⟩
      case chk =>
        intro i1 job1 v1 hi1
        try dsimp only at hi1 ⊢
        rw [get_set_cases _ _ _ _ _ hget] at hi1
        split at hi1
        · simp at hi1
          try omega
        · have := hchk i1 job1 v1 hi1
          first | assumption | omega
      all_goals
        (try simp only [runfStarted, enqueuedJobs, submitted, loopStarted, runJob, stepClose,
            JobQueue.EnQueue, JobQueue.Close, List.map_append, List.sum_append, List.map_cons,
            List.map_nil, List.sum_cons, List.sum_nil, List.length_append, List.length_cons,
            List.length_nil, RunfPc.unplaced, RunfPc.holdsSlot, LoopPc.pastCas, LoopPc.holdsJob,
            Nat.add_zero, ho1, ho2, ho3, ho4] at *) <;>
        first | assumption | omega | rfl | simp [hord]
    · rename_i job v hget
      split at h
      · rename_i hge
        simp only [Option.some.injEq] at h; subst h
        have hsU := sum_map_set RunfPc.unplaced s.runfs i RunfPc.returned _ hget
        have hsH := sum_map_set RunfPc.holdsSlot s.runfs i RunfPc.returned _ hget
        obtain ⟨ho1, ho2, ho3, ho4⟩ := only_call s.runfs i RunfPc.returned _ hU hget rfl
        simp only [RunfPc.pending, RunfPc.holdsSlot, RunfPc.unplaced] at ho1 ho2 ho3 ho4 hsU hsH
        have hv := hchk i job v hget
        refine ⟨hsz, ?_, ?_, ?_, ?_, ?_, ?chk, ?_, ?_, ?_, ?_, ?_⟩
        case chk =>
          intro i1 job1 v1 hi1
          try dsimp only at hi1 ⊢
          rw [get_set_cases _ _ _ _ _ hget] at hi1
          split at hi1
          · simp at hi1
            try omega
          · have := hchk i1 job1 v1 hi1
            first | assumption | omega
        all_goals
          (try simp only [runfStarted, enqueuedJobs, submitted, loopStarted, runJob, stepClose,
              JobQueue.EnQueue, JobQueue.Close, List.map_append, List.sum_append, List.map_cons,
              List.map_nil, List.sum_cons, List.sum_nil, List.length_append, List.length_cons,
              List.length_nil, RunfPc.unplaced, RunfPc.holdsSlot, LoopPc.pastCas, LoopPc.holdsJob,
              Nat.add_zero, proj_concat_none Event.submittedJob s.trace (Event.enQueue job) rfl,
              proj_concat_none Event.runfStartedJob s.trace (Event.enQueue job) rfl,
              proj_concat Event.enqueuedJob s.trace (Event.enQueue job) job rfl,
              proj_concat_none Event.loopStartedJob s.trace (Event.enQueue job) rfl, ho1, ho2, ho3,
              ho4] at *) <;>
          first | assumption | omega | rfl | simp [hord]
      · rename_i hlt
        split at h
        · rename_i hcas
          simp only [Option.some.injEq] at h; subst h
          have hsU := sum_map_set RunfPc.unplaced s.runfs i (RunfPc.atRunJob job) _ hget
          have hsH := sum_map_set RunfPc.holdsSlot s.runfs i (RunfPc.atRunJob job) _ hget
          obtain ⟨ho1, ho2, ho3, ho4⟩ := only_call s.runfs i (RunfPc.atRunJob job) _ hU hget rfl
          simp only [RunfPc.pending, RunfPc.holdsSlot, RunfPc.unplaced] at ho1 ho2 ho3 ho4 hsU hsH
          have h0 : 0 ≤ v := by rw [← hcas, hc]; positivity
          have hw : wrap64 (v + 1) = v + 1 := wrap64_eq _ (by omega) (by omega)
          rw [hw]
          refine ⟨hsz, ?_, ?_, ?_, ?_, ?_, ?chk, ?_, ?_, ?_, ?_, ?_⟩
          case chk =>
            intro i1 job1 v1 hi1
            try dsimp only at hi1 ⊢
            rw [get_set_cases _ _ _ _ _ hget] at hi1
            split at hi1
            · simp at hi1
              try omega
            · have := hchk i1 job1 v1 hi1
              first | assumption | omega
          all_goals
            (try simp only [runfStarted, enqueuedJobs, submitted, loopStarted, runJob, stepClose,
                JobQueue.EnQueue, JobQueue.Close, List.map_append, List.sum_append, List.map_cons,
                List.map_nil, List.sum_cons, List.sum_nil, List.length_append, List.length_cons,
                List.length_nil, RunfPc.unplaced, RunfPc.holdsSlot, LoopPc.pastCas,
                LoopPc.holdsJob, Nat.add_zero,
                proj_concat_none Event.submittedJob s.trace (Event.cas (Who.runf i) v) rfl,
                proj_concat_none Event.runfStartedJob s.trace (Event.cas (Who.runf i) v) rfl,
                proj_concat_none Event.enqueuedJob s.trace (Event.cas (Who.runf i) v) rfl,
                proj_concat_none Event.loopStartedJob s.trace (Event.cas (Who.runf i) v) rfl, ho1,
                ho2, ho3, ho4] at *) <;>
            first | assumption | omega | rfl | simp [hord]
        · rename_i hne
          simp only [Option.some.injEq] at h; subst h
          have hsU := sum_map_set RunfPc.unplaced s.runfs i (RunfPc.atLoad job) _ hget
          have hsH := sum_map_set RunfPc.holdsSlot s.runfs i (RunfPc.atLoad job) _ hget
          obtain ⟨ho1, ho2, ho3, ho4⟩ := only_call s.runfs i (RunfPc.atLoad job) _ hU hget rfl
          simp only [RunfPc.pending, RunfPc.holdsSlot, RunfPc.unplaced] at ho1 ho2 ho3 ho4 hsU hsH
          refine ⟨hsz, ?_, ?_, ?_, ?_, ?_, ?chk, ?_, ?_, ?_, ?_, ?_⟩
          case chk =>
            intro i1 job1 v1 hi1
            try dsimp only at hi1 ⊢
            rw [get_set_cases _ _ _ _ _ hget] at hi1
            split at hi1
            · simp at hi1
              try omega
            · have := hchk i1 job1 v1 hi1
              first | assumption | omega
          all_goals
            (try simp only [runfStarted, enqueuedJobs, submitted, loopStarted, runJob, stepClose,
                JobQueue.EnQueue, JobQueue.Close, List.map_append, List.sum_append, List.map_cons,
                List.map_nil, List.sum_cons, List.sum_nil, List.length_append, List.length_cons,
                List.length_nil, RunfPc.unplaced, RunfPc.holdsSlot, LoopPc.pastCas,
                LoopPc.holdsJob, Nat.add_zero, ho1, ho2, ho3, ho4] at *) <;>
            first | assumption | omega | rfl | simp [hord]
    · rename_i job hget
      simp only [Option.some.injEq] at h; subst h
      have hsU := sum_map_set RunfPc.unplaced s.runfs i RunfPc.returned _ hget
      have hsH := sum_map_set RunfPc.holdsSlot s.runfs i RunfPc.returned _ hget
      obtain ⟨ho1, ho2, ho3, ho4⟩ := only_call s.runfs i RunfPc.returned _ hU hget rfl
      simp only [RunfPc.pending, RunfPc.holdsSlot, RunfPc.unplaced] at ho1 ho2 ho3 ho4 hsU hsH
      have hE : (List.filterMap Event.enqueuedJob s.trace).length = 0 := by omega
      have hE2 := List.length_eq_zero.mp hE
      refine ⟨hsz, ?_, ?_, ?_, ?_, ?_, ?chk, ?_, ?_, ?_, ?_, ?_⟩
      case chk =>
        intro i1 job1 v1 hi1
        try dsimp only at hi1 ⊢
        rw [get_set_cases _ _ _ _ _ hget] at hi1
        split at hi1
        · simp at hi1
          try omega
        · have := hchk i1 job1 v1 hi1
          first | assumption | omega
      all_goals
        (try simp only [runfStarted, enqueuedJobs, submitted, loopStarted, runJob, stepClose,
            JobQueue.EnQueue, JobQueue.Close, List.map_append, List.sum_append, List.map_cons,
            List.map_nil, List.sum_cons, List.sum_nil, List.length_append, List.length_cons,
            List.length_nil, RunfPc.unplaced, RunfPc.holdsSlot, LoopPc.pastCas, LoopPc.holdsJob,
            Nat.add_zero,
            proj_concat_none Event.submittedJob s.trace (Event.runJob (Who.runf i) job) rfl,
            proj_concat Event.runfStartedJob s.trace (Event.runJob (Who.runf i) job) job rfl,
            proj_concat_none Event.enqueuedJob s.trace (Event.runJob (Who.runf i) job) rfl,
            proj_concat_none Event.loopStartedJob s.trace (Event.runJob (Who.runf i) job) rfl, ho1,
            ho2, ho3, ho4] at *) <;>
        first | assumption | omega | rfl | simp [hord, hE2, hgos]
    · simp at h
    · simp at h
    · simp at h
  | deQueue k ack =>
    simp only [stepDeQueue] at h
    split at h
    · rename_i hpc
      split at h
      · rename_i job q heq
        simp only [Option.some.injEq] at h; subst h
        obtain ⟨hq1, hq2, hq3⟩ := deQueue_some _ _ _ _ heq
        have hlen := length_eraseIdx_add_one _ _ _ hq1
        rw [← hq2] at hlen
        try simp only [hpc, LoopPc.holdsJob, LoopPc.pastCas] at hlf hcold
        refine ⟨hsz, ?_, ?_, ?_, ?_, ?_, ?chk, ?_, ?_, ?_, ?_, ?_⟩
        case chk =>
          intro i1 job1 v1 hi1
          try dsimp only at hi1 ⊢
          have := hchk i1 job1 v1 hi1
          first | assumption | omega
        all_goals
          (try simp only [runfStarted, enqueuedJobs, submitted, loopStarted, runJob, stepClose,
              JobQueue.EnQueue, JobQueue.Close, List.map_append, List.sum_append, List.map_cons,
              List.map_nil, List.sum_cons, List.sum_nil, List.length_append, List.length_cons,
              List.length_nil, RunfPc.unplaced, RunfPc.holdsSlot, LoopPc.pastCas, LoopPc.holdsJob,
              Nat.add_zero,
              proj_concat_none Event.submittedJob s.trace (Event.deQueue job ack) rfl,
              proj_concat_none Event.runfStartedJob s.trace (Event.deQueue job ack) rfl,
              proj_concat_none Event.enqueuedJob s.trace (Event.deQueue job ack) rfl,
              proj_concat_none Event.loopStartedJob s.trace (Event.deQueue job ack) rfl] at *) <;>
          first | assumption | omega | rfl | simp [hord]
      · simp at h
    · simp at h
  | deQueueOther job ack =>
    simp only [stepDeQueueOther] at h
    split at h
    · rename_i hpc
      simp only [Option.some.injEq] at h; subst h
      simp [Action.fromStore] at hfs
    · simp at h
  | deQueueClosed =>
    simp only [stepDeQueueClosed] at h
    split at h
    · rename_i hpc
      simp only [Option.some.injEq] at h; subst h
      try simp only [hpc, LoopPc.holdsJob, LoopPc.pastCas] at hlf hcold
      refine ⟨hsz, ?_, ?_, ?_, ?_, ?_, ?chk, ?_, ?_, ?_, ?_, ?_⟩
      case chk =>
        intro i1 job1 v1 hi1
        try dsimp only at hi1 ⊢
        have := hchk i1 job1 v1 hi1
        first | assumption | omega
      all_goals
        (try simp only [runfStarted, enqueuedJobs, submitted, loopStarted, runJob, stepClose,
            JobQueue.EnQueue, JobQueue.Close, List.map_append, List.sum_append, List.map_cons,
            List.map_nil, List.sum_cons, List.sum_nil, List.length_append, List.length_cons,
            List.length_nil, RunfPc.unplaced, RunfPc.holdsSlot, LoopPc.pastCas, LoopPc.holdsJob,
            Nat.add_zero, proj_concat_none Event.submittedJob s.trace Event.deQueueClosed rfl,
            proj_concat_none Event.runfStartedJob s.trace Event.deQueueClosed rfl,
            proj_concat_none Event.enqueuedJob s.trace Event.deQueueClosed rfl,
            proj_concat_none Event.loopStartedJob s.trace Event.deQueueClosed rfl] at *) <;>
        first | assumption | omega | rfl | simp [hord]
    · simp at h
  | loop =>
    simp only [stepLoop] at h
    split at h
    · simp at h
    · rename_i job ack hpc
      simp only [Option.some.injEq] at h; subst h
      try simp only [hpc, LoopPc.holdsJob, LoopPc.pastCas] at hlf hcold
      refine ⟨hsz, ?_, ?_, ?_, ?_, ?_, ?chk, ?_, ?_, ?_, ?_, ?_⟩
      case chk =>
        intro i1 job1 v1 hi1
        try dsimp only at hi1 ⊢
        have := hchk i1 job1 v1 hi1
        first | assumption | omega
      all_goals
        (try simp only [runfStarted, enqueuedJobs, submitted, loopStarted, runJob, stepClose,
            JobQueue.EnQueue, JobQueue.Close, List.map_append, List.sum_append, List.map_cons,
            List.map_nil, List.sum_cons, List.sum_nil, List.length_append, List.length_cons,
            List.length_nil, RunfPc.unplaced, RunfPc.holdsSlot, LoopPc.pastCas, LoopPc.holdsJob,
            Nat.add_zero] at *) <;>
        first | assumption | omega | rfl | simp [hord]
    · rename_i job ack v hpc
      split at h
      · rename_i hge
        simp only [Option.some.injEq] at h; subst h
        try simp only [hpc, LoopPc.holdsJob, LoopPc.pastCas] at hlf hcold
        refine ⟨hsz, ?_, ?_, ?_, ?_, ?_, ?chk, ?_, ?_, ?_, ?_, ?_⟩
        case chk =>
          intro i1 job1 v1 hi1
          try dsimp only at hi1 ⊢
          have := hchk i1 job1 v1 hi1
          first | assumption | omega
        all_goals
          (try simp only [runfStarted, enqueuedJobs, submitted, loopStarted, runJob, stepClose,
              JobQueue.EnQueue, JobQueue.Close, List.map_append, List.sum_append, List.map_cons,
              List.map_nil, List.sum_cons, List.sum_nil, List.length_append, List.length_cons,
              List.length_nil, RunfPc.unplaced, RunfPc.holdsSlot, LoopPc.pastCas, LoopPc.holdsJob,
              Nat.add_zero] at *) <;>
          first | assumption | omega | rfl | simp [hord]
      · rename_i hlt
        split at h
        · rename_i hcas
          simp only [Option.some.injEq] at h; subst h
          exfalso
          simp only [hpc, LoopPc.holdsJob] at hlf
          omega
        · rename_i hne
          simp only [Option.some.injEq] at h; subst h
          try simp only [hpc, LoopPc.holdsJob, LoopPc.pastCas] at hlf hcold
          refine ⟨hsz, ?_, ?_, ?_, ?_, ?_, ?chk, ?_, ?_, ?_, ?_, ?_⟩
          case chk =>
            intro i1 job1 v1 hi1
            try dsimp only at hi1 ⊢
            have := hchk i1 job1 v1 hi1
            first | assumption | omega
          all_goals
            (try simp only [runfStarted, enqueuedJobs, submitted, loopStarted, runJob, stepClose,
                JobQueue.EnQueue, JobQueue.Close, List.map_append, List.sum_append, List.map_cons,
                List.map_nil, List.sum_cons, List.sum_nil, List.length_append, List.length_cons,
                List.length_nil, RunfPc.unplaced, RunfPc.holdsSlot, LoopPc.pastCas,
                LoopPc.holdsJob, Nat.add_zero] at *) <;>
            first | assumption | omega | rfl | simp [hord]
    · rename_i job ack hpc
      simp only [Option.some.injEq] at h; subst h
      simp [hpc, LoopPc.pastCas] at hcold
    · rename_i job ack hpc
      cases ack with
      | some a =>
        simp only [Option.some.injEq] at h; subst h
        simp [hpc, LoopPc.pastCas] at hcold
      | none =>
        simp only [Option.some.injEq] at h; subst h
        simp [hpc, LoopPc.pastCas] at hcold
    · simp at h
  | go g =>
    simp only [stepGo] at h
    split at h
    · rename_i job hget
      simp only [Option.some.injEq] at h; subst h
      exact absurd rfl (hgo g)
    · rename_i p hget
      split at h
      · rename_i hout
        simp only [Option.some.injEq] at h; subst h
        exact absurd rfl (hgo g)
      · rename_i hout
        simp only [Option.some.injEq] at h; subst h
        exact absurd rfl (hgo g)
      · rename_i hout
        simp only [Option.some.injEq] at h; subst h
        exact absurd rfl (hgo g)
    · rename_i p hget
      split at h
      · rename_i hneg
        simp only [Option.some.injEq] at h; subst h
        exact absurd rfl (hgo g)
      · rename_i hok
        simp only [Option.some.injEq] at h; subst h
        exact absurd rfl (hgo g)
    · rename_i p hget
      simp only [Option.some.injEq] at h; subst h
      exact absurd rfl (hgo g)
    · rename_i p hget
      split at h
      · rename_i hp
        simp only [Option.some.injEq] at h; subst h
        exact absurd rfl (hgo g)
      · rename_i hp
        simp only [Option.some.injEq] at h; subst h
        exact absurd rfl (hgo g)
    · simp at h
    · simp at h
    · simp at h
  | Close =>
    simp only [Option.some.injEq] at h; subst h
    refine ⟨hsz, ?_, ?_, ?_, ?_, ?_, ?chk, ?_, ?_, ?_, ?_, ?_⟩
    case chk =>
      intro i1 job1 v1 hi1
      try dsimp only at hi1 ⊢
      have := hchk i1 job1 v1 hi1
      first | assumption | omega
    all_goals
      (try simp only [runfStarted, enqueuedJobs, submitted, loopStarted, runJob, stepClose,
          JobQueue.EnQueue, JobQueue.Close, List.map_append, List.sum_append, List.map_cons,
          List.map_nil, List.sum_cons, List.sum_nil, List.length_append, List.length_cons,
          List.length_nil, RunfPc.unplaced, RunfPc.holdsSlot, LoopPc.pastCas, LoopPc.holdsJob,
          Nat.add_zero, proj_concat_none Event.submittedJob s.trace Event.close rfl,
          proj_concat_none Event.runfStartedJob s.trace Event.close rfl,
          proj_concat_none Event.enqueuedJob s.trace Event.close rfl,
          proj_concat_none Event.loopStartedJob s.trace Event.close rfl] at *) <;>
      first | assumption | omega | rfl | simp [hord]
  | wait =>
    simp only [stepWait] at h
    split at h
    · rename_i hcl
      split at h
      · rename_i hz
        simp only [Option.some.injEq] at h; subst h
        refine ⟨hsz, ?_, ?_, ?_, ?_, ?_, ?chk, ?_, ?_, ?_, ?_, ?_⟩
        case chk =>
          intro i1 job1 v1 hi1
          try dsimp only at hi1 ⊢
          have := hchk i1 job1 v1 hi1
          first | assumption | omega
        all_goals
          (try simp only [runfStarted, enqueuedJobs, submitted, loopStarted, runJob, stepClose,
              JobQueue.EnQueue, JobQueue.Close, List.map_append, List.sum_append, List.map_cons,
              List.map_nil, List.sum_cons, List.sum_nil, List.length_append, List.length_cons,
              List.length_nil, RunfPc.unplaced, RunfPc.holdsSlot, LoopPc.pastCas, LoopPc.holdsJob,
              Nat.add_zero, proj_concat_none Event.submittedJob s.trace Event.waitReturn rfl,
              proj_concat_none Event.runfStartedJob s.trace Event.waitReturn rfl,
              proj_concat_none Event.enqueuedJob s.trace Event.waitReturn rfl,
              proj_concat_none Event.loopStartedJob s.trace Event.waitReturn rfl] at *) <;>
          first | assumption | omega | rfl | simp [hord]
      · rename_i hnz
        simp only [Option.some.injEq] at h; subst h
        refine ⟨hsz, ?_, ?_, ?_, ?_, ?_, ?chk, ?_, ?_, ?_, ?_, ?_⟩
        case chk =>
          intro i1 job1 v1 hi1
          try dsimp only at hi1 ⊢
          have := hchk i1 job1 v1 hi1
          first | assumption | omega
        all_goals
          (try simp only [runfStarted, enqueuedJobs, submitted, loopStarted, runJob, stepClose,
              JobQueue.EnQueue, JobQueue.Close, List.map_append, List.sum_append, List.map_cons,
              List.map_nil, List.sum_cons, List.sum_nil, List.length_append, List.length_cons,
              List.length_nil, RunfPc.unplaced, RunfPc.holdsSlot, LoopPc.pastCas, LoopPc.holdsJob,
              Nat.add_zero] at *) <;>
          first | assumption | omega | rfl | simp [hord]
    · simp at h
  | waitReturn =>
    simp only [stepWaitReturn] at h
    split at h
    · rename_i hrel
      simp only [Option.some.injEq] at h; subst h
      refine ⟨hsz, ?_, ?_, ?_, ?_, ?_, ?chk, ?_, ?_, ?_, ?_, ?_⟩
      case chk =>
        intro i1 job1 v1 hi1
        try dsimp only at hi1 ⊢
        have := hchk i1 job1 v1 hi1
        first | assumption | omega
      all_goals
        (try simp only [runfStarted, enqueuedJobs, submitted, loopStarted, runJob, stepClose,
            JobQueue.EnQueue, JobQueue.Close, List.map_append, List.sum_append, List.map_cons,
            List.map_nil, List.sum_cons, List.sum_nil, List.length_append, List.length_cons,
            List.length_nil, RunfPc.unplaced, RunfPc.holdsSlot, LoopPc.pastCas, LoopPc.holdsJob,
            Nat.add_zero, proj_concat_none Event.submittedJob s.trace Event.waitReturn rfl,
            proj_concat_none Event.runfStartedJob s.trace Event.waitReturn rfl,
            proj_concat_none Event.enqueuedJob s.trace Event.waitReturn rfl,
            proj_concat_none Event.loopStartedJob s.trace Event.waitReturn rfl] at *) <;>
        first | assumption | omega | rfl | simp [hord]
    · simp at h

theorem seqStep_some (s s1 : State) (a : Action) (h : seqStep s a = some s1) :
    step s a = some s1 ∧ (∀ g, a ≠ Action.go g) ∧ a.fromStore = true
      ∧ (∀ c t r, a = Action.Runf c t r → (s.runfs.map RunfPc.unplaced).sum = 0)
      ∧ (∀ c t, a = Action.Run c t → (s.runfs.map RunfPc.unplaced).sum = 0) := by
  cases a with
  | Runf ctx task args =>
    simp only [seqStep] at h
    split at h
    · rename_i hall
      exact ⟨h, by simp, rfl, fun _ _ _ _ => (noCallInProgress_iff s).mp hall,
        fun _ _ _ => (noCallInProgress_iff s).mp hall⟩
    · simp at h
  | Run ctx task =>
    simp only [seqStep] at h
    split at h
    · rename_i hall
      exact ⟨h, by simp, rfl, fun _ _ _ _ => (noCallInProgress_iff s).mp hall,
        fun _ _ _ => (noCallInProgress_iff s).mp hall⟩
    · simp at h
  | go g => simp [seqStep] at h
  | runf i => exact ⟨h, by simp, rfl, by simp, by simp⟩
  | deQueue k ack => exact ⟨h, by simp, rfl, by simp, by simp⟩
  | deQueueOther job ack => simp [seqStep] at h
  | deQueueClosed => exact ⟨h, by simp, rfl, by simp, by simp⟩
  | loop => exact ⟨h, by simp, rfl, by simp, by simp⟩
  | Close => exact ⟨h, by simp, rfl, by simp, by simp⟩
  | wait => exact ⟨h, by simp, rfl, by simp, by simp⟩
  | waitReturn => exact ⟨h, by simp, rfl, by simp, by simp⟩

theorem seqInv_exec (N : Int) (hN : N < 2 ^ 63) (acts : List Action) (s s1 : State)
    (inv : SeqInv N s) (h : execSeq s acts = some s1) : SeqInv N s1 := by
  induction acts generalizing s with
  | nil =>
    simp only [execSeq, Option.some.injEq] at h
    exact h ▸ inv
  | cons a rest ih =>
    simp only [execSeq] at h
    split at h
    · rename_i s2 hs2
      obtain ⟨h1, h2, h3, h4, h5⟩ := seqStep_some s s2 a hs2
      exact ih s2 (seqInv_step N hN s s2 a inv h1 h2 h3 h4 h5) h
    · simp at h

/-- When no call is in progress, the invariant gives the outcome of the
submissions. -/
theorem seq_result (N : Int) (hN : 0 < N) (s : State) (inv : SeqInv N s)
    (hall : noCallInProgress s = true) :
    s.count = min ((submitted s.trace).length : Int) N
      ∧ runfStarted s.trace = (submitted s.trace).take N.toNat
      ∧ enqueuedJobs s.trace = (submitted s.trace).drop N.toNat
      ∧ loopStarted s.trace = []
      ∧ s.gos = ((submitted s.trace).take N.toNat).map GoPc.atCall := by
  obtain ⟨hsz, hU, hc, hle, hord, hfull, hchk, hcold, hlf, hif, hln, hgos⟩ := inv
  have hU0 := (noCallInProgress_iff s).mp hall
  obtain ⟨hp0, hH0⟩ := pending_nil_of_idle s.runfs hU0
  rw [hp0, List.append_nil] at hord
  rw [hH0] at hc
  have hn : (N.toNat : Int) = N := Int.toNat_of_nonneg (by omega)
  have hlen : (submitted s.trace).length
      = (runfStarted s.trace).length + (enqueuedJobs s.trace).length := by
    rw [hord, List.length_append]
  rcases hfull with hE | hS
  · have hE2 := List.length_eq_zero.mp hE
    rw [hE2, List.append_nil] at hord
    have hk : (submitted s.trace).length ≤ N.toNat := by omega
    refine ⟨?_, ?_, ?_, hln, ?_⟩
    · rw [min_eq_left (by omega)]
      omega
    · rw [List.take_of_length_le hk]
      exact hord.symm
    · rw [List.drop_of_length_le hk]
      exact hE2
    · rw [List.take_of_length_le hk, hgos, hord]
  · have hS2 : (runfStarted s.trace).length = N.toNat := by omega
    refine ⟨?_, ?_, ?_, hln, ?_⟩
    · rw [min_eq_right (by omega)]
      omega
    · rw [hord, ← hS2, List.take_left']
      rfl
    · rw [hord, ← hS2, List.drop_left']
      rfl
    · rw [hgos]
      congr 1
      rw [hord, ← hS2, List.take_left']
      rfl

/-! ## The claims -/

/-- C1: for every capacity `N > 0` (an `int64`), in every state reachable from a
fresh dispatcher by any interleaving of submissions, dispatch-loop steps and job
completions, `0 ≤ count ≤ N`.  Every successful compare-and-swap in the history
started from a value `v` with `0 ≤ v < N`; `count` is the number of raises minus
the number of lowerings; lowerings are at most as many as the jobs handed to
`runJob`, which are at most as many as the raises; a goroutine lowers `count` at
most once and nothing but a started goroutine lowers it.  Every further step
leaves `count` alone, or is a compare-and-swap that raises it from `count < N` to
`count + 1`, or is the `Add(-1)` of a goroutine. -/
theorem count_within_capacity (N : Int) (hN : 0 < N) (h64 : N < 2 ^ 63)
    (acts : List Action) (s : State) (h : exec (fresh N) acts = some s) :
    (0 ≤ s.count ∧ s.count ≤ N)
    ∧ (∀ v ∈ casOlds s.trace, 0 ≤ v ∧ v < N)
    ∧ s.count = (casCount s.trace : Int) - (addCount s.trace : Int)
    ∧ (addCount s.trace ≤ runJobCount s.trace ∧ runJobCount s.trace ≤ casCount s.trace)
    ∧ (∀ g, addsOf g s.trace ≤ 1 ∧ (s.gos.length ≤ g → addsOf g s.trace = 0))
    ∧ (∀ a s1, step s a = some s1 →
        (s1.count = s.count ∧ casOlds s1.trace = casOlds s.trace
            ∧ addCount s1.trace = addCount s.trace)
          ∨ (s.count < N ∧ s1.count = s.count + 1
              ∧ ∃ w, s1.trace = s.trace ++ [Event.cas w s.count])
          ∨ (s1.count = s.count - 1 ∧ ∃ g, s1.trace = s.trace ++ [Event.countAdd g])) := by
  have inv := countInv_exec N h64 acts (fresh N) s (countInv_fresh N hN) h
  have ginv := goInv_exec acts (fresh N) s (goInv_fresh N) h
  refine ⟨⟨?_, inv.count_le⟩, inv.olds, ?_, ⟨?_, ?_⟩, ?_, ?_⟩
  · rw [inv.count_eq]
    positivity
  · have := inv.trace_eq
    omega
  · have := inv.add_started
    omega
  · have := inv.cas_started
    omega
  · intro g
    exact ⟨addsOf_le_one s ginv g, addsOf_not_started s ginv g⟩
  · intro a s1 hs
    exact count_step_cases N h64 s s1 a inv hs

/-- Instance of C1: capacity 2 and the schedule `demoSchedule`. -/
theorem count_within_capacity_witness :
    (0 : Int) < 2 ∧ (2 : Int) < 2 ^ 63
    ∧ exec (fresh 2) demoSchedule = some demoState
    ∧ (0 ≤ demoState.count ∧ demoState.count ≤ 2)
    ∧ (∀ v ∈ casOlds demoState.trace, 0 ≤ v ∧ v < 2)
    ∧ casCount demoState.trace = 3 :=
  have h := count_within_capacity 2 (by decide) (by decide) demoSchedule demoState rfl
  ⟨by decide, by decide, rfl, h.1, h.2.1, rfl⟩

/-- C2, the claim as stated fails: after `2^31 - 1` calls of `Runf` have executed
line 57, the next `wg.Add(1)` wraps the 32-bit counter of the WaitGroup to `-2^31`
(and panics), while `2^31 - 1` accepted jobs are unfinished. -/
theorem wg_overflow :
    ∃ s, exec (fresh 1) (List.replicate 2147483647 enterOnly ++ [enterOnly]) = some s
      ∧ s.wg = -2 ^ 31 ∧ unfinishedJobs s = 2147483647
      ∧ s.wg ≠ (unfinishedJobs s : Int) := by
  obtain ⟨s, h1, h2, h3⟩ := entries_overflow 1 2147483647 (by norm_num)
  refine ⟨s, h1, h2, h3, ?_⟩
  rw [h2, h3]
  norm_num

/-- C2 as amended: in every state reachable from a fresh dispatcher, whose queue
hands out only jobs of its store, and in which `wg.Add(1)` has not overflowed the
32-bit counter, the in-flight counter `wg` equals the number of accepted jobs that
have not completed (submitted and not yet placed, queued, held by the dispatch
loop, or running).  So when the counter is zero the queue is empty, every call of
`Runf` is over, the loop holds no job and every started job has executed
`wg.Done()`; this is the case when `wg.Wait()` of `Close` returns at once and when
a `wg.Done()` releases the blocked calls of `Wait`.  Line 57 raises the counter by
one and line 93 lowers it by one. -/
theorem wg_counts_unfinished (N : Int) (acts : List Action) (s : State)
    (h : exec (fresh N) acts = some s) (hfs : ∀ a ∈ acts, Action.fromStore a = true)
    (hno : wgOverflowed s.trace = false) :
    s.wg = (unfinishedJobs s : Int)
    ∧ (s.wg = 0 →
        s.jobs.items = [] ∧ (∀ pc ∈ s.runfs, pc.isOver = true) ∧ s.loop.heldJob = []
          ∧ ∀ pc ∈ s.gos, pc.unfinished = 0)
    ∧ (∀ s1, step s Action.wait = some s1 → s1.trace = s.trace ++ [Event.waitReturn] →
        s.wg = 0 ∧ unfinishedJobs s = 0)
    ∧ (∀ g s1, step s (Action.go g) = some s1 → s.released < s1.released →
        s1.wg = 0 ∧ unfinishedJobs s1 = 0)
    ∧ (∀ a s1 job, step s a = some s1 → s1.trace = s.trace ++ [Event.wgAdd job] →
        s1.wg = s.wg + 1 ∧ s1.count = s.count)
    ∧ (∀ a s1 g, step s a = some s1 → s1.trace = s.trace ++ [Event.wgDone g] →
        s1.wg = s.wg - 1 ∧ s1.count = s.count) := by
  have inv := wgInv_exec acts (fresh N) s (wgInv_fresh N) h hfs hno
  have hw := inv.wg_eq
  have hb := inv.wg_lt
  refine ⟨hw, ?_, ?_, ?_, ?_, ?_⟩
  · intro h0
    apply nothing_unfinished
    omega
  · intro s1 hs htr
    simp only [step, stepWait] at hs
    split at hs
    · simp at hs
    · split at hs
      · split at hs
        · rename_i hz
          exact ⟨hz, by omega⟩
        · simp only [Option.some.injEq] at hs
          subst hs
          simp at htr
      · simp at hs
  · intro g s1 hs hrel
    obtain ⟨hz, htr⟩ := done_release s s1 g hs hrel
    have hno1 : wgOverflowed s1.trace = false := by
      rw [htr, wgOverflowed_append, hno]
      rfl
    have inv1 := wgInv_step s s1 (Action.go g) inv hs rfl hno1
    refine ⟨hz, ?_⟩
    have := inv1.wg_eq
    omega
  · intro a s1 job hs htr
    obtain ⟨h1, h2, h3, _⟩ := (step_effect s s1 a hs).2.2.1 job htr
    refine ⟨?_, h3⟩
    rw [h1] at h2 ⊢
    unfold wrap32 at h2 ⊢
    omega
  · intro a s1 g hs htr
    obtain ⟨⟨p, hp⟩, h1, h2, _⟩ := (step_effect s s1 a hs).2.2.2.2.2.2.2.2.2.2.2.1 g htr
    have hmem := single_le_sum GoPc.unfinished s.gos _ (List.getElem?_mem hp)
    simp only [GoPc.unfinished] at hmem
    simp only [unfinishedJobs] at hw
    refine ⟨?_, h2⟩
    rw [h1, wrap32_eq _ (by omega) (by omega)]

/-- Instance of the amended C2: capacity 2 and the schedule `busySchedule`, after
which three jobs are unfinished and `Close` is blocked in `wg.Wait()`. -/
theorem wg_counts_unfinished_witness :
    exec (fresh 2) busySchedule = some busyState
    ∧ (∀ a ∈ busySchedule, Action.fromStore a = true)
    ∧ wgOverflowed busyState.trace = false
    ∧ busyState.wg = (unfinishedJobs busyState : Int)
    ∧ busyState.wg = 3 ∧ busyState.waiters = 1 :=
  ⟨rfl, by decide, rfl,
    (wg_counts_unfinished 2 busySchedule busyState rfl (by decide) rfl).1, rfl, rfl⟩

/-- C3, the claim as stated fails: with capacity 1, the call of `Runf` that
follows `2^31 - 1` submissions panics at line 57, so `2^31` jobs cannot be
submitted one after another; the last one is neither started nor enqueued. -/
theorem submissions_overflow :
    submitAll (fresh 1) (List.replicate 2147483647 (NewJob 0 returningJob [])
      ++ [NewJob 0 returningJob []]) = none :=
  submitAll_overflow 1 (by decide) (by decide) (NewJob 0 returningJob []) 2147483647
    (by norm_num)

/-- C3 as amended: for every capacity `N > 0` (an `int64`) and every list of
`K < 2^31` jobs, submitting them one after another through `Runf` to a fresh
dispatcher, with no job completing in between, succeeds and leaves
`count = min(K, N)`: `Runf` has handed exactly the first `N` jobs (all of them when
`K ≤ N`) to `runJob`, each of which is now a goroutine at its callable, in order,
and has passed the remaining ones to `EnQueue` in submission order, where they are
pending in that order, and has started none of those.  The same holds with the
dispatch loop and `Close` moving at any point between and inside the calls:
whenever no call is in progress, `count`, the goroutines and the jobs started and
enqueued by `Runf` are as above for the jobs accepted so far, and the loop has
started none. -/
theorem sequential_submissions (N : Int) (hN : 0 < N) (h64 : N < 2 ^ 63) (jobs : List Job)
    (hK : (jobs.length : Int) < 2 ^ 31) :
    (∃ s, submitAll (fresh N) jobs = some s
      ∧ s.count = min (jobs.length : Int) N
      ∧ runfStarted s.trace = jobs.take N.toNat
      ∧ enqueuedJobs s.trace = jobs.drop N.toNat
      ∧ s.jobs.items = jobs.drop N.toNat
      ∧ s.gos = (jobs.take N.toNat).map GoPc.atCall
      ∧ s.gos.length = min jobs.length N.toNat
      ∧ loopStarted s.trace = []
      ∧ s.wg = (jobs.length : Int))
    ∧ (∀ acts s, execSeq (fresh N) acts = some s → noCallInProgress s = true →
        s.count = min ((submitted s.trace).length : Int) N
        ∧ runfStarted s.trace = (submitted s.trace).take N.toNat
        ∧ enqueuedJobs s.trace = (submitted s.trace).drop N.toNat
        ∧ loopStarted s.trace = []
        ∧ s.gos = ((submitted s.trace).take N.toNat).map GoPc.atCall) := by
  constructor
  · obtain ⟨s, h1, inv⟩ := solo_submitAll N hN h64 jobs [] (fresh N) (solo_fresh N hN)
      (by simp only [List.length_nil]; push_cast; omega)
    simp only [List.nil_append] at inv
    exact ⟨s, h1, inv.count_eq, inv.started, inv.enqueued, inv.items, inv.gos_eq, inv.gos_len,
      inv.loop_idle.1, inv.wg_eq⟩
  · intro acts s h hall
    exact seq_result N hN s (seqInv_exec N h64 acts (fresh N) s (seqInv_fresh N hN) h) hall

/-- Instance of the amended C3: capacity 2 and three jobs; two goroutines run and
the third job is enqueued, also when the loop dequeues it and waits for a
slot. -/
theorem sequential_submissions_witness :
    (0 : Int) < 2 ∧ (2 : Int) < 2 ^ 63
    ∧ (([NewJob 1 returningJob [], NewJob 2 returningJob [], NewJob 3 panickingJob [4]]
        : List Job).length : Int) < 2 ^ 31
    ∧ (∃ s, submitAll (fresh 2)
          [NewJob 1 returningJob [], NewJob 2 returningJob [], NewJob 3 panickingJob [4]]
        = some s
      ∧ s.count = min (3 : Int) 2
      ∧ s.gos.map GoPc.handlerSteps = [0, 0]
      ∧ (enqueuedJobs s.trace).map Job.ctx = [3])
    ∧ execSeq (fresh 2) seqSchedule = some seqState
    ∧ noCallInProgress seqState = true
    ∧ seqState.count = min ((submitted seqState.trace).length : Int) 2
    ∧ seqState.count = 2
    ∧ (dequeuedJobs seqState.trace).map Job.ctx = [3] := by
  have h := sequential_submissions 2 (by decide) (by decide)
    [NewJob 1 returningJob [], NewJob 2 returningJob [], NewJob 3 panickingJob [4]]
    (by decide)
  refine ⟨by decide, by decide, by decide, ?_, rfl, rfl,
    (h.2 seqSchedule seqState rfl rfl).1, rfl, rfl⟩
  obtain ⟨s, h1, h2, _, h4, _, h6, _⟩ := h.1
  refine ⟨s, h1, h2, ?_, ?_⟩
  · rw [h6]
    rfl
  · rw [h4]
    rfl

/-- C5: in every reachable state, whatever results `DeQueue` has returned, the
jobs that it returned are, in the same order, the jobs that `loopQueue` has handed
to `runJob`, followed by the one job (if any) that the loop holds and is still
trying to start.  `DeQueue` returns a further job only when every earlier one has
been handed to `runJob`.  At line 103 the loop takes any job, from the store or
not, with any callback, and returns on `ok = false`, whether or not `Close` was
called.  A compare-and-swap of the loop raises `count` from below the capacity by
one, and `runJob` starts a goroutine at the callable of the job.  A loop that
holds a job and finds `count` below the capacity starts it with its next three
statements; with `count` at the capacity it goes round its inner loop and stays
where it was.  When `DeQueue` has returned `ok = false` the loop has returned; from
then on the loop takes no step, the two sequences are equal, and the `ok = false`
result is the last event of the loop. -/
theorem loop_starts_in_dequeue_order (N : Int) (h64 : N < 2 ^ 63) (acts : List Action)
    (s : State) (h : exec (fresh N) acts = some s) :
    dequeuedJobs s.trace = loopStarted s.trace ++ s.loop.heldJob
    ∧ (∀ a s1 job ack, step s a = some s1 → s1.trace = s.trace ++ [Event.deQueue job ack] →
        loopStarted s.trace = dequeuedJobs s.trace ∧ s1.loop = LoopPc.atLoad job ack)
    ∧ (∀ job ack, s.crashed = false → s.loop = LoopPc.atDeQueue →
        step s (Action.deQueueOther job ack)
          = some { s with
              loop := LoopPc.atLoad job ack
              trace := s.trace ++ [Event.deQueue job ack] })
    ∧ (∀ k ack job q, s.crashed = false → s.loop = LoopPc.atDeQueue →
        s.jobs.DeQueue k = some (job, q) →
        step s (Action.deQueue k ack)
          = some { s with
              jobs := q
              loop := LoopPc.atLoad job ack
              trace := s.trace ++ [Event.deQueue job ack] })
    ∧ (s.crashed = false → s.loop = LoopPc.atDeQueue →
        step s Action.deQueueClosed
          = some { s with
              loop := LoopPc.returned
              trace := s.trace ++ [Event.deQueueClosed] })
    ∧ (∀ a s1 v, step s a = some s1 → s1.trace = s.trace ++ [Event.cas Who.loop v] →
        s.count = v ∧ v < s.size ∧ s1.count = s.count + 1)
    ∧ (∀ a s1 job, step s a = some s1 → s1.trace = s.trace ++ [Event.runJob Who.loop job] →
        s1.gos = s.gos ++ [GoPc.atCall job] ∧ s1.count = s.count)
    ∧ (∀ job ack, s.crashed = false → s.loop = LoopPc.atLoad job ack → s.count < s.size →
        exec s [Action.loop, Action.loop, Action.loop]
          = some { s with
              count := s.count + 1
              loop := LoopPc.atAck job ack
              gos := s.gos ++ [GoPc.atCall job]
              trace := s.trace ++ [Event.cas Who.loop s.count, Event.runJob Who.loop job] })
    ∧ (∀ job ack, s.crashed = false → s.loop = LoopPc.atLoad job ack → s.count ≥ s.size →
        exec s [Action.loop, Action.loop] = some s)
    ∧ (s.loop = LoopPc.returned → closedSeen s.trace = true)
    ∧ (closedSeen s.trace = true →
        s.loop = LoopPc.returned
        ∧ loopStarted s.trace = dequeuedJobs s.trace
        ∧ step s Action.loop = none
        ∧ step s Action.deQueueClosed = none
        ∧ (∀ k ack, step s (Action.deQueue k ack) = none)
        ∧ (∀ job ack, step s (Action.deQueueOther job ack) = none)
        ∧ ∃ its : List LoopIter,
            loopTrace s.trace = its.flatMap LoopIter.events ++ [Event.deQueueClosed]) := by
  have inv := loopInv_exec acts (fresh N) s (loopInv_fresh N) h
  have sinv := slotInv_exec acts (fresh N) s (slotInv_fresh N h64) h
  obtain ⟨ho, hc, its, v, hsh⟩ := inv
  refine ⟨ho, ?_, ?_, ?_, ?_, ?_, ?_, ?_, ?_, hc.mpr, ?_⟩
  · intro a s1 job ack hs htr
    obtain ⟨hpc, hpc1, _⟩ := (step_effect s s1 a hs).2.2.2.2.2.2.2.1 job ack htr
    rw [hpc] at ho
    exact ⟨by simpa [LoopPc.heldJob] using ho.symm, hpc1⟩
  · intro job ack hcr hpc
    simp [step, stepDeQueueOther, hcr, hpc]
  · intro k ack job q hcr hpc hq
    simp [step, stepDeQueue, hcr, hpc, hq]
  · intro hcr hpc
    simp [step, stepDeQueueClosed, hcr, hpc]
  · intro a s1 v hs htr
    obtain ⟨h1, h2, h3, _⟩ := cas_effect s s1 a sinv hs Who.loop v htr
    exact ⟨h1, h2, h3⟩
  · intro a s1 job hs htr
    obtain ⟨h1, _, h3, _⟩ := (step_effect s s1 a hs).2.2.2.2.2.2.1 Who.loop job htr
    exact ⟨h1, h3⟩
  · intro job ack hcr hpc hfree
    have h0 : 0 ≤ s.count := by rw [sinv.count_eq]; positivity
    have hlt := sinv.size_lt
    rw [loop_run s job ack hcr hpc hfree, wrap64_eq _ (by omega) (by omega)]
  · intro job ack hcr hpc hfull
    exact loop_spin s job ack hcr hpc hfull
  · intro hcl
    have hpc := hc.mp hcl
    rw [hpc] at ho hsh
    refine ⟨hpc, ?_, ?_, ?_, ?_, ?_, its, ?_⟩
    · simpa [LoopPc.heldJob] using ho.symm
    · simp [step, stepLoop, hpc]
    · simp [step, stepDeQueueClosed, hpc]
    · intro k ack
      simp [step, stepDeQueue, hpc]
    · intro job ack
      simp [step, stepDeQueueOther, hpc]
    · simpa [LoopPc.events] using hsh

/-- Instance of C5: capacity 1 and the schedule `orderSchedule`, in which the queue
hands out the job of context 3 before the job of context 2 and the loop starts
them in that order. -/
theorem loop_starts_in_dequeue_order_witness :
    (1 : Int) < 2 ^ 63
    ∧ exec (fresh 1) orderSchedule = some orderState
    ∧ dequeuedJobs orderState.trace = loopStarted orderState.trace ++ orderState.loop.heldJob
    ∧ (dequeuedJobs orderState.trace).map Job.ctx = [3, 2]
    ∧ (loopStarted orderState.trace).map Job.ctx = [3, 2]
    ∧ orderState.loop.heldJob = [] :=
  ⟨by decide, rfl,
    (loop_starts_in_dequeue_order 1 (by decide) orderSchedule orderState rfl).1, rfl, rfl, rfl⟩

/-- C6, the claim as stated fails: an option that sets the capacity to `-1` gives a
dispatcher of capacity `-1`. -/
theorem New_negative_capacity : ¬ (0 < (New [withSize (-1)]).size) := by
  decide

/-- C6 as amended: for every list of options that leaves the capacity unset or
non-negative, the dispatcher that `New` returns has capacity `N > 0`. -/
theorem New_capacity_positive (opt : List OptionFunc) (h : 0 ≤ (applyOptions opt).size) :
    0 < (New opt).size := by
  show 0 < (if (applyOptions opt).size = 0 then DEFAULT_EGO_SIZE else (applyOptions opt).size)
  split
  · decide
  · omega

/-- Instance of the amended C6: an option that sets the capacity to 7. -/
theorem New_capacity_positive_witness :
    0 ≤ (applyOptions [withSize 7]).size ∧ 0 < (New [withSize 7]).size :=
  ⟨by decide, New_capacity_positive [withSize 7] (by decide)⟩

/-- C7: for every list of options, `New` applies the options in order to the zero
value of the struct, sets the capacity to `DEFAULT_EGO_SIZE = 1000` when they left
it zero and otherwise keeps the capacity they set, and keeps a queue or a recovery
guard that an option supplied, putting the default only where none was supplied.
So a last option that sets the capacity `n`, the queue `q` or the guard `r` gives a
dispatcher of capacity `n` (1000 for `n = 0`), queue `q`, guard `r`, and with no
options all three are the defaults. -/
theorem New_defaults (opt : List OptionFunc) :
    DEFAULT_EGO_SIZE = 1000
    ∧ (New opt).size
        = (if (opt.foldl (fun (eg : Ego) (o : OptionFunc) => o eg)
            ({ wg := 0, recoverFunc := none, jobs := none, count := 0, size := 0 } : Ego)).size
              = 0
            then 1000
            else (opt.foldl (fun (eg : Ego) (o : OptionFunc) => o eg)
            ({ wg := 0, recoverFunc := none, jobs := none, count := 0, size := 0 } : Ego)).size)
    ∧ (New opt).jobs
        = Option.getD (opt.foldl (fun (eg : Ego) (o : OptionFunc) => o eg)
            ({ wg := 0, recoverFunc := none, jobs := none, count := 0, size := 0 } : Ego)).jobs
            newJobChan
    ∧ (New opt).recoverFunc
        = Option.getD (opt.foldl (fun (eg : Ego) (o : OptionFunc) => o eg)
            ({ wg := 0, recoverFunc := none, jobs := none, count := 0,
               size := 0 } : Ego)).recoverFunc
            defaultRecover
    ∧ (∀ n, (New (opt ++ [withSize n])).size = if n = 0 then 1000 else n)
    ∧ (∀ q, (New (opt ++ [withJobs q])).jobs = q)
    ∧ (∀ r, (New (opt ++ [withRecover r])).recoverFunc = r)
    ∧ ((New []).size = 1000 ∧ (New []).jobs = newJobChan
        ∧ (New []).recoverFunc = defaultRecover)
    ∧ ((New [withSize 5]).size = 5 ∧ (New [withSize 5, withSize 0]).size = 1000
        ∧ (New [withSize 0, withSize 7]).size = 7 ∧ (New [withSize (-4)]).size = -4
        ∧ (New [withRecover panickingGuard, withSize 3]).recoverFunc = panickingGuard
        ∧ (New [withRecover panickingGuard, withSize 3]).size = 3) := by
  refine ⟨rfl, rfl, ?_, ?_, ?_, ?_, ?_, ⟨rfl, rfl, rfl⟩, ⟨rfl, rfl, rfl, rfl, rfl, rfl⟩⟩
  · show (match (applyOptions opt).jobs with
        | none => newJobChan
        | some q => q) = (applyOptions opt).jobs.getD newJobChan
    cases (applyOptions opt).jobs <;> rfl
  · show (match (applyOptions opt).recoverFunc with
        | none => defaultRecover
        | some r => r) = (applyOptions opt).recoverFunc.getD defaultRecover
    cases (applyOptions opt).recoverFunc <;> rfl
  · intro n
    have happ : applyOptions (opt ++ [withSize n]) = withSize n (applyOptions opt) := by
      simp [applyOptions, List.foldl_append]
    show (if (applyOptions (opt ++ [withSize n])).size = 0 then DEFAULT_EGO_SIZE
      else (applyOptions (opt ++ [withSize n])).size) = _
    rw [happ]
    rfl
  · intro q
    have happ : applyOptions (opt ++ [withJobs q]) = withJobs q (applyOptions opt) := by
      simp [applyOptions, List.foldl_append]
    show (match (applyOptions (opt ++ [withJobs q])).jobs with
        | none => newJobChan
        | some q => q) = _
    rw [happ]
    rfl
  · intro r
    have happ : applyOptions (opt ++ [withRecover r]) = withRecover r (applyOptions opt) := by
      simp [applyOptions, List.foldl_append]
    show (match (applyOptions (opt ++ [withRecover r])).recoverFunc with
        | none => defaultRecover
        | some r => r) = _
    rw [happ]
    rfl

/-- C8: in every state, entering `Run(ctx, task)` is entering `Runf` with the
closure of lines 75-77 and no arguments, so every schedule continues from it in
the same way, and a whole call of `Run` run on its own ends in the same state as
that call of `Runf`: the same in-flight counter, running count and queue, and the
same decision, which is to enqueue the job when `count ≥ size` and to take a slot
and start it otherwise.  The closure invokes `task(ctx)` and ignores its
arguments.  Where `wg.Add(1)` leaves the counter negative, both calls panic at
line 57. -/
theorem Run_eq_Runf (s : State) (ctx : Context) (task : Func) :
    step s (Action.Run ctx task) = step s (Action.Runf ctx (runClosure task) [])
    ∧ (∀ acts, exec s (Action.Run ctx task :: acts)
        = exec s (Action.Runf ctx (runClosure task) [] :: acts))
    ∧ callRun s ctx task = callRunf s ctx (runClosure task) []
    ∧ (∀ c args, runClosure task c args = task c)
    ∧ (s.crashed = false → 0 ≤ s.wg ∧ s.wg + 1 < 2 ^ 31 → s.count ≥ s.size →
        ∃ s1, callRun s ctx task = some s1 ∧ callRunf s ctx (runClosure task) [] = some s1
          ∧ s1.wg = s.wg + 1 ∧ s1.count = s.count
          ∧ s1.jobs = s.jobs.EnQueue (NewJob ctx (runClosure task) []) ∧ s1.gos = s.gos)
    ∧ (s.crashed = false → 0 ≤ s.wg ∧ s.wg + 1 < 2 ^ 31 → s.count < s.size →
        ∃ s1, callRun s ctx task = some s1 ∧ callRunf s ctx (runClosure task) [] = some s1
          ∧ s1.wg = s.wg + 1 ∧ s1.count = wrap64 (s.count + 1)
          ∧ s1.jobs = s.jobs
          ∧ s1.gos = s.gos ++ [GoPc.atCall (NewJob ctx (runClosure task) [])])
    ∧ (wrap32 (s.wg + 1) < 0 →
        callRun s ctx task = none ∧ callRunf s ctx (runClosure task) [] = none) := by
  refine ⟨rfl, fun _ => rfl, rfl, fun _ _ => rfl, ?_, ?_, ?_⟩
  · intro hcr hb hge
    have hwr : wrap32 (s.wg + 1) = s.wg + 1 := wrap32_eq _ (by omega) (by omega)
    have hwg : 0 ≤ wrap32 (s.wg + 1) := by omega
    exact ⟨_, callRunf_saturated s ctx (runClosure task) [] hcr hwg hge,
      callRunf_saturated s ctx (runClosure task) [] hcr hwg hge, hwr, rfl, rfl, rfl⟩
  · intro hcr hb hlt
    have hwr : wrap32 (s.wg + 1) = s.wg + 1 := wrap32_eq _ (by omega) (by omega)
    have hwg : 0 ≤ wrap32 (s.wg + 1) := by omega
    exact ⟨_, callRunf_free s ctx (runClosure task) [] hcr hwg hlt,
      callRunf_free s ctx (runClosure task) [] hcr hwg hlt, hwr, rfl, rfl, rfl⟩
  · intro hneg
    exact ⟨callRunf_overflow s ctx (runClosure task) [] hneg,
      callRunf_overflow s ctx (runClosure task) [] hneg⟩

/-- C9, the claim as stated fails: on a dispatcher whose recovery guard panics, the
handler of a started job invokes the guard and performs neither `wg.Done()` nor
`count.Add(-1)`: both counters stay at one and the process ends. -/
theorem guard_panic_skips_decrements :
    exec (New [withRecover panickingGuard]) guardPanicSchedule = some afterGuardPanic
    ∧ handlerTrace 0 afterGuardPanic.trace = [Event.recoverFunc 0]
    ∧ afterGuardPanic.wg = 1 ∧ afterGuardPanic.count = 1
    ∧ afterGuardPanic.crashed = true
    ∧ (∀ a, step afterGuardPanic a = none) := by
  refine ⟨rfl, rfl, rfl, rfl, rfl, ?_⟩
  intro a
  have hc : afterGuardPanic.crashed = true := rfl
  simp [step, hc]

/-- C9 as amended: in every reachable state, whatever the recovery guard does, the
events of the completion handler of each goroutine are the first so-many of
"recovery guard, `wg.Done()`, `count.Add(-1)`", in this order: the guard comes
first, the in-flight decrement second and the capacity release last, so the
in-flight decrement of a job never follows its capacity release.  The call of the
guard changes neither counter, `wg.Done()` lowers the in-flight counter by one (in
32 bits) and leaves `count`, and `count.Add(-1)` lowers `count` by one and leaves
the in-flight counter.  A goroutine past line 94 has performed all three, and a
started job whose guard returns runs the three, in this order, with its next four
statements. -/
theorem handler_order (N : Int) (h64 : N < 2 ^ 63) (acts : List Action) (s : State)
    (h : exec (fresh N) acts = some s) (g : Nat) :
    handlerTrace g s.trace = (handlerEvents g).take (handlerStepsOf s g)
    ∧ handlerTrace g s.trace <+: handlerEvents g
    ∧ (∀ p, s.gos[g]? = some (GoPc.atExit p) ∨ s.gos[g]? = some GoPc.exited →
        handlerTrace g s.trace = handlerEvents g)
    ∧ (∀ a s1, step s a = some s1 → s1.trace = s.trace ++ [Event.recoverFunc g] →
        s1.wg = s.wg ∧ s1.count = s.count ∧ ∃ p, s.gos[g]? = some (GoPc.atRecover p))
    ∧ (∀ a s1, step s a = some s1 → s1.trace = s.trace ++ [Event.wgDone g] →
        s1.wg = wrap32 (s.wg - 1) ∧ s1.count = s.count
          ∧ ∃ p, s.gos[g]? = some (GoPc.atDone p))
    ∧ (∀ a s1, step s a = some s1 → s1.trace = s.trace ++ [Event.countAdd g] →
        s1.count = s.count - 1 ∧ s1.wg = s.wg ∧ ∃ p, s.gos[g]? = some (GoPc.atAdd p))
    ∧ (∀ job, s.crashed = false → s.gos[g]? = some (GoPc.atCall job) →
        s.recoverFunc.outcome = GuardOutcome.returns → 0 ≤ wrap32 (s.wg - 1) →
        exec s [Action.go g, Action.go g, Action.go g, Action.go g]
          = some { s with
              wg := wrap32 (s.wg - 1)
              count := s.count - 1
              gos := s.gos.set g (GoPc.atExit
                (s.recoverFunc.call (decide (job.f job.ctx job.args = Outcome.panicked))))
              waiters := if wrap32 (s.wg - 1) = 0 then 0 else s.waiters
              released :=
                if wrap32 (s.wg - 1) = 0 then s.released + s.waiters else s.released
              trace := s.trace ++ [Event.recoverFunc g, Event.wgDone g, Event.countAdd g] })
    := by
  have inv := goInv_exec acts (fresh N) s (goInv_fresh N) h
  have sinv := slotInv_exec acts (fresh N) s (slotInv_fresh N h64) h
  have hh := inv.handler g
  refine ⟨hh, ?_, ?_, ?_, ?_, ?_, ?_⟩
  · rw [hh]
    exact List.take_prefix _ _
  · intro p hp
    rw [hh]
    rcases hp with hp | hp <;> simp [handlerStepsOf, hp, GoPc.handlerSteps, handlerEvents]
  · intro a s1 hs htr
    obtain ⟨hp, h1, h2, _⟩ := (step_effect s s1 a hs).2.2.2.2.2.2.2.2.2.2.1 g htr
    exact ⟨h1, h2, hp⟩
  · intro a s1 hs htr
    obtain ⟨hp, h1, h2, _⟩ := (step_effect s s1 a hs).2.2.2.2.2.2.2.2.2.2.2.1 g htr
    exact ⟨h1, h2, hp⟩
  · intro a s1 hs htr
    obtain ⟨hp, _, _, _⟩ := (step_effect s s1 a hs).2.2.2.2.2.2.2.2.2.2.2.2 g htr
    obtain ⟨h1, h2⟩ := add_effect s s1 a sinv hs g htr
    exact ⟨h1, h2, hp⟩
  · intro job hcr hget hout hd
    have hmem := single_le_sum GoPc.holdsSlot s.gos _ (List.getElem?_mem hget)
    simp only [GoPc.holdsSlot] at hmem
    have hc := sinv.count_eq
    have hlt := sinv.size_lt
    simp only [slotsHeld] at hc
    rw [handler_run s g job hcr hget hout hd,
      wrap64_eq _ (by omega) (by rcases sinv.count_le with h | h <;> omega)]
    rfl

/-- Instance of the amended C9: goroutine 0 of the schedule `demoSchedule`, which
has run its whole handler. -/
theorem handler_order_witness :
    (2 : Int) < 2 ^ 63
    ∧ exec (fresh 2) demoSchedule = some demoState
    ∧ handlerTrace 0 demoState.trace = (handlerEvents 0).take (handlerStepsOf demoState 0)
    ∧ handlerStepsOf demoState 0 = 3
    ∧ handlerTrace 0 demoState.trace
        = [Event.recoverFunc 0, Event.wgDone 0, Event.countAdd 0] :=
  ⟨by decide, rfl, (handler_order 2 (by decide) demoSchedule demoState rfl 0).1, rfl, rfl⟩

/-- C10: in every reachable state, whatever results `DeQueue` has returned, the
events of `loopQueue` are a sequence of complete iterations followed by the events
of the iteration in progress, where a complete iteration is: `DeQueue` returns the
job and `ack`; `count` is raised; the job is handed to `runJob`; and only then
`ack()` is invoked, once, when `ack` is not nil, and not at all when it is nil.  So
the callbacks invoked so far are exactly the non-nil callbacks of the complete
iterations, each once, in order, and the iteration in progress has invoked none.
The compare-and-swap of an iteration raises `count` from below the capacity by
one, its `runJob` starts a goroutine at the callable of the job, and a callback is
invoked only by the loop at line 120, with that callback in hand, changing
neither counter.  At line 120 the next statement of the loop invokes a non-nil
callback and goes back to `DeQueue`; with a nil callback it goes back without any
call. -/
theorem ack_after_runJob (N : Int) (h64 : N < 2 ^ 63) (acts : List Action) (s : State)
    (h : exec (fresh N) acts = some s) :
    (∃ (its : List LoopIter) (v : Int),
      loopTrace s.trace = its.flatMap LoopIter.events ++ s.loop.events v
      ∧ ackTrace s.trace = its.filterMap LoopIter.ack)
    ∧ (∀ a s1 v, step s a = some s1 → s1.trace = s.trace ++ [Event.cas Who.loop v] →
        s.count = v ∧ v < s.size ∧ s1.count = s.count + 1)
    ∧ (∀ a s1 job, step s a = some s1 → s1.trace = s.trace ++ [Event.runJob Who.loop job] →
        s1.gos = s.gos ++ [GoPc.atCall job] ∧ s1.count = s.count)
    ∧ (∀ a s1 a1, step s a = some s1 → s1.trace = s.trace ++ [Event.ack a1] →
        (∃ job, s.loop = LoopPc.atAck job (some a1)) ∧ s1.loop = LoopPc.atDeQueue
          ∧ s1.count = s.count ∧ s1.wg = s.wg ∧ s1.gos = s.gos)
    ∧ (∀ job a, s.crashed = false → s.loop = LoopPc.atAck job (some a) →
        step s Action.loop
          = some { s with loop := LoopPc.atDeQueue, trace := s.trace ++ [Event.ack a] })
    ∧ (∀ job, s.crashed = false → s.loop = LoopPc.atAck job none →
        step s Action.loop = some { s with loop := LoopPc.atDeQueue }) := by
  have inv := loopInv_exec acts (fresh N) s (loopInv_fresh N) h
  have sinv := slotInv_exec acts (fresh N) s (slotInv_fresh N h64) h
  obtain ⟨its, v, hsh⟩ := inv.shape
  refine ⟨⟨its, v, hsh, ?_⟩, ?_, ?_, ?_, ?_, ?_⟩
  · have h1 : ackTrace s.trace = (loopTrace s.trace).filterMap Event.ackOf :=
      (filterMap_filter_byLoop Event.ackOf s.trace ackOf_not_byLoop).symm
    rw [h1, hsh, List.filterMap_append, ackTrace_iters, ackTrace_pending, List.append_nil]
  · intro a s1 v hs htr
    obtain ⟨h1, h2, h3, _⟩ := cas_effect s s1 a sinv hs Who.loop v htr
    exact ⟨h1, h2, h3⟩
  · intro a s1 job hs htr
    obtain ⟨h1, _, h3, _⟩ := (step_effect s s1 a hs).2.2.2.2.2.2.1 Who.loop job htr
    exact ⟨h1, h3⟩
  · intro a s1 a1 hs htr
    obtain ⟨h1, h2, h3, h4, h5, _⟩ := (step_effect s s1 a hs).2.2.2.2.2.2.2.2.2.1 a1 htr
    exact ⟨h1, h2, h4, h3, h5⟩
  · intro job a hcr hpc
    simp [step, stepLoop, hcr, hpc]
  · intro job hcr hpc
    simp [step, stepLoop, hcr, hpc]

/-- Instance of C10: the schedule `orderSchedule`, in which the loop completes two
iterations, the first with the callback 9 and the second with none. -/
theorem ack_after_runJob_witness :
    (1 : Int) < 2 ^ 63
    ∧ exec (fresh 1) orderSchedule = some orderState
    ∧ (∃ (its : List LoopIter) (v : Int),
        loopTrace orderState.trace = its.flatMap LoopIter.events ++ orderState.loop.events v
        ∧ ackTrace orderState.trace = its.filterMap LoopIter.ack)
    ∧ ackTrace orderState.trace = [9]
    ∧ (dequeuedJobs orderState.trace).length = 2
    ∧ orderState.count = 1 :=
  ⟨by decide, rfl, (ack_after_runJob 1 (by decide) orderSchedule orderState rfl).1, rfl, rfl,
    rfl⟩

/-- C4, the code at a job whose callable panics: the handler runs all of "recovery
guard, `wg.Done()`, `count.Add(-1)`" and leaves both counters as after a job that
returns, but the panic is still active when the deferred closure returns, so the
process ends and no thread takes a further step; after a job that returns the
process goes on. -/
theorem panicking_job_ends_process :
    exec (New []) (oneJobSchedule panickingJob) = some afterPanic
    ∧ handlerTrace 0 afterPanic.trace = handlerEvents 0
    ∧ afterPanic.wg = 0 ∧ afterPanic.count = 0
    ∧ afterPanic.crashed = true
    ∧ (∀ a, step afterPanic a = none)
    ∧ exec (New []) (oneJobSchedule returningJob) = some afterReturn
    ∧ handlerTrace 0 afterReturn.trace = handlerEvents 0
    ∧ afterReturn.wg = 0 ∧ afterReturn.count = 0
    ∧ afterReturn.crashed = false := by
  refine ⟨rfl, rfl, rfl, rfl, rfl, ?_, rfl, rfl, rfl, rfl, rfl⟩
  intro a
  have hc : afterPanic.crashed = true := rfl
  simp [step, hc]



end EgoPool
